import Mathlib

/-!
# Reservation and ticket counter (src/reservation_counter.c)

A shallow embedding of the priority-based reservation dispatch engine.

Modelling conventions

* The singly linked list `front -> ... -> rear` is a `List`, front first.  The
  `rear` pointer is never read by a decision of the program (it is only kept
  up to date), so it is the last element of the list and has no field here.
* `Counter counters[15]` together with `counterCount` is the list of the first
  `counterCount` array entries; the entries behind `counterCount` are never
  read by the program.
* `int` fields are `Int`.  The arithmetic on them (`++`, `--`) is modelled
  without overflow: `size` stays within `0..200`, the other counters only
  overflow after more than two thousand million calls, where C leaves the
  behaviour undefined.
* `float` values are elements of a type `F` carrying the operations the code
  applies to them (`FloatArith`).  Every theorem holds for every such `F`;
  the rationals are the instance of exact arithmetic.  The `double` value of
  `difftime` is an element of `F` as well.
* `char` arrays are `String`s; the callers in `main` read them with `fgets`
  bounded by the array sizes, so `strcpy` copies them unchanged.
* `time(NULL)` is the argument `now` of the operations that read the clock.
* `printf` output is not modelled.  `free` of a reservation is the loss of the
  last reference to it (`currentReservation := none`).
-/

namespace ReservationCounter

/-- The operations the program applies to `float` values: `+`, `*`, `/`,
conversion from `int`, conversion to `int`, and the literals `0.2f`, `0.5f`
and `0.7f`. -/
class FloatArith (F : Type) extends Add F, Mul F, Div F where
  /-- Conversion `int -> float`, also used for the literals `0.0f`, `3.0f`, `60.0f`. -/
  ofInt : Int → F
  /-- Conversion `float -> int` of a `return` in a function returning `int`. -/
  toInt : F → Int
  /-- Literal `0.2f`. -/
  lit02 : F
  /-- Literal `0.5f`. -/
  lit05 : F
  /-- Literal `0.7f`. -/
  lit07 : F

/-- Exact arithmetic: rationals, conversion to `int` truncates toward zero. -/
instance : FloatArith ℚ where
  ofInt := fun n => (n : ℚ)
  toInt := fun q => Int.tdiv q.num (q.den : Int)
  lit02 := 2 / 10
  lit05 := 5 / 10
  lit07 := 7 / 10

def MAX_QUEUE_SIZE : Int := 200

def PRIORITY_NORMAL : Int := 1
def PRIORITY_PREMIUM : Int := 2
def PRIORITY_VIP : Int := 3
def PRIORITY_EMERGENCY : Int := 4

def RESERVATION_MOVIE : Int := 1
def RESERVATION_FLIGHT : Int := 2
def RESERVATION_TRAIN : Int := 3
def RESERVATION_EVENT : Int := 4
def RESERVATION_HOTEL : Int := 5

inductive TicketStatus where
  | TICKET_PENDING
  | TICKET_CONFIRMED
  | TICKET_CANCELLED
  | TICKET_CHECKED_IN
  | TICKET_COMPLETED
  deriving DecidableEq, Repr

/-- The C `struct Reservation` without its `next` pointer. -/
structure Reservation (F : Type) where
  reservationId : Int
  customerName : String
  email : String
  phoneNumber : String
  type : Int
  eventName : String
  location : String
  dateTime : String
  numberOfTickets : Int
  totalAmount : F
  priority : Int
  status : TicketStatus
  requestTime : Int
  processTime : Int
  confirmationTime : Int
  estimatedWaitTime : Int

/-- The C `struct Counter`; `specialization = 0` stands for all types. -/
structure Counter (F : Type) where
  counterId : Int
  counterName : String
  operatorName : String
  currentReservation : Option (Reservation F)
  isActive : Int
  totalProcessed : Int
  avgProcessingTime : F
  specialization : Int

/-- The C `struct ReservationQueue`: the list `front .. rear`, the counters
`counters[0 .. counterCount - 1]`, and the totals. -/
structure ReservationQueue (F : Type) where
  queue : List (Reservation F)
  size : Int
  nextReservationId : Int
  counters : List (Counter F)
  totalReservations : Int
  totalConfirmed : Int
  totalCancelled : Int
  totalRevenue : F

variable {F : Type}

def ReservationQueue.counterCount (queue : ReservationQueue F) : Int :=
  (queue.counters.length : Int)

def createReservationQueue [FloatArith F] : ReservationQueue F :=
  { queue := []
    size := 0
    nextReservationId := 1001
    counters := []
    totalReservations := 0
    totalConfirmed := 0
    totalCancelled := 0
    totalRevenue := FloatArith.ofInt 0 }

def isReservationQueueEmpty (queue : ReservationQueue F) : Bool :=
  queue.queue.isEmpty

def isReservationQueueFull (queue : ReservationQueue F) : Bool :=
  decide (queue.size ≥ MAX_QUEUE_SIZE)

def addCounter [FloatArith F] (queue : ReservationQueue F) (counterName operatorName : String)
    (specialization : Int) : ReservationQueue F :=
  if queue.counterCount ≥ 15 then queue
  else
    { queue with
      counters := queue.counters ++
        [{ counterId := queue.counterCount + 1
           counterName := counterName
           operatorName := operatorName
           specialization := specialization
           currentReservation := none
           isActive := 1
           totalProcessed := 0
           avgProcessingTime := FloatArith.ofInt 3 }] }

/-- The `while` loop of `calculateWaitTime`: `position` after the remaining
nodes have been visited. -/
def countAhead (priority : Int) : List (Reservation F) → Int → Int
  | [], position => position
  | current :: rest, position =>
      countAhead priority rest (if current.priority ≥ priority then position + 1 else position)

def calculateWaitTime [FloatArith F] (queue : ReservationQueue F) (priority : Int) : Int :=
  let position := countAhead priority queue.queue 0
  let baseTime := position * 4
  if priority = PRIORITY_EMERGENCY then
    FloatArith.toInt (FloatArith.ofInt baseTime * (FloatArith.lit02 : F))
  else if priority = PRIORITY_VIP then
    FloatArith.toInt (FloatArith.ofInt baseTime * (FloatArith.lit05 : F))
  else if priority = PRIORITY_PREMIUM then
    FloatArith.toInt (FloatArith.ofInt baseTime * (FloatArith.lit07 : F))
  else baseTime

/-- The scan of `addReservation` (`while (current != NULL && current->priority
>= priority)`) followed by the splice before `current`: at the front when the
loop did not advance, at the rear when it ran off the list, in the middle
otherwise. -/
def scanInsert (priority : Int) (newReservation : Reservation F) :
    List (Reservation F) → List (Reservation F)
  | [] => [newReservation]
  | current :: rest =>
      if current.priority ≥ priority then current :: scanInsert priority newReservation rest
      else newReservation :: current :: rest

/-- The priority-based insertion of `addReservation` (the `if` / `else if` /
`else` after the new node is filled in): the list after `newReservation` has
been linked into it. -/
def insertByPriority (priority : Int) (newReservation : Reservation F) :
    List (Reservation F) → List (Reservation F)
  | [] => [newReservation]
  | front :: rest =>
      if priority = PRIORITY_EMERGENCY ∨
          (priority = PRIORITY_VIP ∧ front.priority < PRIORITY_VIP) then
        newReservation :: front :: rest
      else scanInsert priority newReservation (front :: rest)

/-- The node `addReservation` allocates and fills in before linking it. -/
def newReservation [FloatArith F] (queue : ReservationQueue F)
    (customerName email phone : String) (type : Int) (eventName location dateTime : String)
    (numTickets : Int) (amount : F) (priority : Int) (now : Int) : Reservation F :=
  { reservationId := queue.nextReservationId
    customerName := customerName
    email := email
    phoneNumber := phone
    type := type
    eventName := eventName
    location := location
    dateTime := dateTime
    numberOfTickets := numTickets
    totalAmount := amount
    priority := priority
    status := TicketStatus.TICKET_PENDING
    requestTime := now
    processTime := 0
    confirmationTime := 0
    estimatedWaitTime := calculateWaitTime queue priority }

def addReservation [FloatArith F] (queue : ReservationQueue F)
    (customerName email phone : String) (type : Int) (eventName location dateTime : String)
    (numTickets : Int) (amount : F) (priority : Int) (now : Int) :
    Option (Reservation F) × ReservationQueue F :=
  if isReservationQueueFull queue then (none, queue)
  else
    let node : Reservation F :=
      newReservation queue customerName email phone type eventName location dateTime
        numTickets amount priority now
    (some node,
      { queue with
        queue := insertByPriority priority node queue.queue
        nextReservationId := queue.nextReservationId + 1
        size := queue.size + 1
        totalReservations := queue.totalReservations + 1 })

/-- The specialization scan of `processNextReservation`: the position of the
first node whose type is the specialization, if there is one. -/
def findSpecialized (specialization : Int) : List (Reservation F) → Option Nat
  | [] => none
  | current :: rest =>
      if current.type = specialization then some 0
      else (findSpecialized specialization rest).map (· + 1)

def processNextReservation (queue : ReservationQueue F) (counterId : Int) (now : Int) :
    Option (Reservation F) × ReservationQueue F :=
  if isReservationQueueEmpty queue then (none, queue)
  else if counterId < 1 ∨ counterId > queue.counterCount then (none, queue)
  else
    match queue.counters[(counterId - 1).toNat]? with
    | none => (none, queue)
    | some counter =>
      if counter.isActive = 0 then (none, queue)
      else if counter.currentReservation.isSome then (none, queue)
      else
        let found : Option Nat :=
          if counter.specialization ≠ 0 then findSpecialized counter.specialization queue.queue
          else none
        let index : Nat := found.getD 0
        match queue.queue[index]? with
        | none => (none, queue)
        | some reservation =>
          let assigned : Reservation F := { reservation with processTime := now }
          (some assigned,
            { queue with
              queue := queue.queue.eraseIdx index
              size := queue.size - 1
              counters := queue.counters.set (counterId - 1).toNat
                { counter with currentReservation := some assigned } })

def confirmReservation [FloatArith F] (queue : ReservationQueue F) (counterId : Int) (now : Int) :
    ReservationQueue F :=
  if counterId < 1 ∨ counterId > queue.counterCount then queue
  else
    match queue.counters[(counterId - 1).toNat]? with
    | none => queue
    | some counter =>
      match counter.currentReservation with
      | none => queue
      | some reservation =>
        let confirmationTime := now
        let totalProcessed := counter.totalProcessed + 1
        let processingTime : F :=
          FloatArith.ofInt (confirmationTime - reservation.processTime) / FloatArith.ofInt 60
        let avg : F :=
          (counter.avgProcessingTime * FloatArith.ofInt (totalProcessed - 1) + processingTime) /
            FloatArith.ofInt totalProcessed
        { queue with
          totalConfirmed := queue.totalConfirmed + 1
          totalRevenue := queue.totalRevenue + reservation.totalAmount
          counters := queue.counters.set (counterId - 1).toNat
            { counter with
              totalProcessed := totalProcessed
              avgProcessingTime := avg
              currentReservation := none } }

def cancelReservation (queue : ReservationQueue F) (counterId : Int) : ReservationQueue F :=
  if counterId < 1 ∨ counterId > queue.counterCount then queue
  else
    match queue.counters[(counterId - 1).toNat]? with
    | none => queue
    | some counter =>
      match counter.currentReservation with
      | none => queue
      | some _ =>
        { queue with
          totalCancelled := queue.totalCancelled + 1
          counters := queue.counters.set (counterId - 1).toNat
            { counter with
              totalProcessed := counter.totalProcessed + 1
              currentReservation := none } }

/-! ## Predicates of the claims -/

/-- Front to rear, no reservation is followed by one of higher priority. -/
def PriorityOrdered (l : List (Reservation F)) : Prop :=
  l.Chain' (fun a b => a.priority ≥ b.priority)

/-- The order of two queued reservations `a` (nearer the front) and `b` of
equal priority, as the code keeps it: oldest first below Emergency, newest
first among Emergency reservations. -/
def StableRel (a b : Reservation F) : Prop :=
  a.priority = b.priority →
    if a.priority = PRIORITY_EMERGENCY then b.reservationId < a.reservationId
    else a.reservationId < b.reservationId

/-- Any two queued reservations of equal priority are in ascending
`reservationId` order, front to rear. -/
def AscendingIdsWithinPriority (l : List (Reservation F)) : Prop :=
  l.Pairwise (fun a b => a.priority = b.priority → a.reservationId < b.reservationId)

/-- Ids of the queued reservations, front to rear. -/
def queueIds (queue : ReservationQueue F) : List Int :=
  queue.queue.map (fun r => r.reservationId)

/-- Ids of the reservations held as some counter's `currentReservation`. -/
def counterIds (queue : ReservationQueue F) : List Int :=
  (queue.counters.filterMap (fun c => c.currentReservation)).map (fun r => r.reservationId)

/-- Number of counters whose `currentReservation` is not `NULL`. -/
def busyCount (queue : ReservationQueue F) : Int :=
  ((queue.counters.filter (fun c => c.currentReservation.isSome)).length : Int)

/-- The position `processNextReservation` unlinks for a counter of the given
specialization: the first match of the specialization scan, else the front. -/
def chosenIndex (specialization : Int) (l : List (Reservation F)) : Nat :=
  (if specialization ≠ 0 then findSpecialized specialization l else none).getD 0

/-- The reservation `confirmReservation` and `cancelReservation` act on: the
`currentReservation` of `counters[counterId - 1]`, when `counterId` is in
`1..counterCount`. -/
def currentAt (queue : ReservationQueue F) (counterId : Int) : Option (Reservation F) :=
  if counterId < 1 ∨ counterId > queue.counterCount then none
  else (queue.counters[(counterId - 1).toNat]?).bind (fun c => c.currentReservation)

/-- The dispatch selection rule in the words of the specification: the first
queued reservation, from the front, whose type is the counter's specialization
when the counter is specialized and there is one; the front reservation
otherwise. -/
def dispatchChoice (specialization : Int) (l : List (Reservation F)) : Option (Reservation F) :=
  if specialization ≠ 0 then
    match l.find? (fun r => decide (r.type = specialization)) with
    | some r => some r
    | none => l.head?
  else l.head?

/-- The general stable-scan rule in the words of the specification: the new
reservation goes immediately before the first queued reservation whose priority
is strictly lower than its own, at the rear when there is none. -/
def stableScanInsert (newReservation : Reservation F) (l : List (Reservation F)) :
    List (Reservation F) :=
  let position := l.findIdx (fun r => decide (r.priority < newReservation.priority))
  l.take position ++ newReservation :: l.drop position

/-- States reachable from `createReservationQueue` by the five state-changing
operations; `addReservation` is called with a priority in `1..4`, as `main`
and `setupSampleReservationData` do. -/
inductive Reachable [FloatArith F] : ReservationQueue F → Prop
  | create : Reachable createReservationQueue
  | addCounter (queue : ReservationQueue F) (counterName operatorName : String)
      (specialization : Int) :
      Reachable queue → Reachable (addCounter queue counterName operatorName specialization)
  | addReservation (queue : ReservationQueue F) (customerName email phone : String)
      (type : Int) (eventName location dateTime : String) (numTickets : Int) (amount : F)
      (priority : Int) (now : Int) :
      PRIORITY_NORMAL ≤ priority → priority ≤ PRIORITY_EMERGENCY → Reachable queue →
      Reachable (addReservation queue customerName email phone type eventName location
        dateTime numTickets amount priority now).2
  | processNextReservation (queue : ReservationQueue F) (counterId now : Int) :
      Reachable queue → Reachable (processNextReservation queue counterId now).2
  | confirmReservation (queue : ReservationQueue F) (counterId now : Int) :
      Reachable queue → Reachable (confirmReservation queue counterId now)
  | cancelReservation (queue : ReservationQueue F) (counterId : Int) :
      Reachable queue → Reachable (cancelReservation queue counterId)

/-- What every reachable state satisfies. -/
structure Inv (queue : ReservationQueue F) : Prop where
  size_eq : queue.size = (queue.queue.length : Int)
  prio_le : ∀ r ∈ queue.queue, r.priority ≤ PRIORITY_EMERGENCY
  sorted : queue.queue.Pairwise (fun a b => a.priority ≥ b.priority)
  stable : queue.queue.Pairwise StableRel
  fresh : ∀ i ∈ queueIds queue ++ counterIds queue, i < queue.nextReservationId
  nodup : (queueIds queue ++ counterIds queue).Nodup
  conserve : queue.totalReservations =
    queue.size + busyCount queue + queue.totalConfirmed + queue.totalCancelled

/-! ## Concrete states over exact arithmetic -/

/-- Two counters: one specialised in flights, one generalist. -/
def twoCounters : ReservationQueue ℚ :=
  addCounter
    (addCounter createReservationQueue "Flight Booking" "Bob Smith" RESERVATION_FLIGHT)
    "General Service" "Emma Brown" 0

/-- The first four reservations of `setupSampleReservationData`, submitted to
`twoCounters`. -/
def sampleQueue : ReservationQueue ℚ :=
  (addReservation
    (addReservation
      (addReservation
        (addReservation twoCounters "John Doe" "john.doe@email.com" "555-0101"
          RESERVATION_MOVIE "Avengers: Endgame" "Cinema City Mall" "2024-01-15 19:30"
          2 (49 / 2) PRIORITY_NORMAL 0).2
        "Sarah Johnson" "sarah.j@email.com" "555-0102"
        RESERVATION_FLIGHT "Flight AA123" "New York to London" "2024-01-20 14:30"
        1 750 PRIORITY_PREMIUM 10).2
      "Mike Chen" "mike.chen@email.com" "555-0103"
      RESERVATION_TRAIN "Express Train 456" "Boston to Washington" "2024-01-18 08:15"
      2 180 PRIORITY_NORMAL 20).2
    "Lisa Williams" "lisa.w@email.com" "555-0104"
    RESERVATION_EVENT "Concert: Rock Legends" "Madison Square Garden" "2024-01-25 20:00"
    4 320 PRIORITY_VIP 30).2

/-- One Emergency reservation submitted to the empty queue. -/
def oneEmergency : ReservationQueue ℚ :=
  (addReservation createReservationQueue "Emergency Travel" "urgent@email.com" "555-0105"
    RESERVATION_FLIGHT "Emergency Flight" "Medical Emergency" "2024-01-16 ASAP"
    1 1200 PRIORITY_EMERGENCY 0).2

/-- A second Emergency reservation submitted after the first. -/
def twoEmergencies : ReservationQueue ℚ :=
  (addReservation oneEmergency "Second Emergency" "urgent2@email.com" "555-0107"
    RESERVATION_TRAIN "Emergency Train" "Medical Emergency" "2024-01-16 ASAP"
    1 300 PRIORITY_EMERGENCY 60).2

/-- The flight counter of `sampleQueue` has taken a reservation and confirmed
it, the generalist counter has taken one and cancelled it. -/
def sampleServed : ReservationQueue ℚ :=
  cancelReservation
    (processNextReservation
      (confirmReservation (processNextReservation sampleQueue 1 120).2 1 300) 2 360).2 2

/-- Both counters of `sampleQueue` hold a reservation. -/
def sampleBusy : ReservationQueue ℚ :=
  (processNextReservation (processNextReservation sampleQueue 1 120).2 2 180).2

/-- The state after `n` Normal reservations have been submitted to the empty
queue. -/
def filledQueue : Nat → ReservationQueue ℚ
  | 0 => createReservationQueue
  | n + 1 =>
      (addReservation (filledQueue n) "John Doe" "john.doe@email.com" "555-0101"
        RESERVATION_MOVIE "Avengers: Endgame" "Cinema City Mall" "2024-01-15 19:30"
        2 (49 / 2) PRIORITY_NORMAL (n : Int)).2

/-- States reached from `createReservationQueue` by a run of the operations in
which exactly `k` calls of `addReservation` were accepted (returned a
reservation); rejected calls and the other operations do not count. -/
inductive ReachedAfter [FloatArith F] : Nat → ReservationQueue F → Prop
  | create : ReachedAfter 0 createReservationQueue
  | addCounter (k : Nat) (queue : ReservationQueue F) (counterName operatorName : String)
      (specialization : Int) :
      ReachedAfter k queue →
      ReachedAfter k (addCounter queue counterName operatorName specialization)
  | accepted (k : Nat) (queue : ReservationQueue F) (customerName email phone : String)
      (type : Int) (eventName location dateTime : String) (numTickets : Int) (amount : F)
      (priority : Int) (now : Int) :
      PRIORITY_NORMAL ≤ priority → priority ≤ PRIORITY_EMERGENCY → ReachedAfter k queue →
      (addReservation queue customerName email phone type eventName location dateTime
        numTickets amount priority now).1.isSome = true →
      ReachedAfter (k + 1) (addReservation queue customerName email phone type eventName
        location dateTime numTickets amount priority now).2
  | rejected (k : Nat) (queue : ReservationQueue F) (customerName email phone : String)
      (type : Int) (eventName location dateTime : String) (numTickets : Int) (amount : F)
      (priority : Int) (now : Int) :
      PRIORITY_NORMAL ≤ priority → priority ≤ PRIORITY_EMERGENCY → ReachedAfter k queue →
      (addReservation queue customerName email phone type eventName location dateTime
        numTickets amount priority now).1 = none →
      ReachedAfter k (addReservation queue customerName email phone type eventName
        location dateTime numTickets amount priority now).2
  | processNextReservation (k : Nat) (queue : ReservationQueue F) (counterId now : Int) :
      ReachedAfter k queue → ReachedAfter k (processNextReservation queue counterId now).2
  | confirmReservation (k : Nat) (queue : ReservationQueue F) (counterId now : Int) :
      ReachedAfter k queue → ReachedAfter k (confirmReservation queue counterId now)
  | cancelReservation (k : Nat) (queue : ReservationQueue F) (counterId : Int) :
      ReachedAfter k queue → ReachedAfter k (cancelReservation queue counterId)

/-! ## Single-precision arithmetic -/

/-- A finite single-precision (`binary32`) value `mant * 2 ^ expo`.  Infinities,
NaN, overflow and subnormal numbers are outside the model. -/
structure Binary32 where
  mant : Int
  expo : Int
  deriving DecidableEq, Repr

/-- Scale the positive ratio `n / d` by powers of two, adjusting the exponent
`e`, until `2 ^ 23 <= n / d < 2 ^ 24` (a 24-bit significand). -/
def scaleSignificand : Nat → Nat → Nat → Int → Nat × Nat × Int
  | 0, n, d, e => (n, d, e)
  | fuel + 1, n, d, e =>
    if n < d * 2 ^ 23 then scaleSignificand fuel (2 * n) d (e - 1)
    else if d * 2 ^ 24 ≤ n then scaleSignificand fuel n (2 * d) (e + 1)
    else (n, d, e)

/-- The integer nearest to `n / d`, ties to the even one. -/
def roundTiesEven (n d : Nat) : Nat :=
  let q := n / d
  let r := n % d
  if 2 * r < d then q else if d < 2 * r then q + 1 else if q % 2 = 0 then q else q + 1

/-- The `binary32` value nearest to `(n / d) * 2 ^ e` (negated when `negative`),
ties to even: the result of an IEEE 754 operation whose exact result is that
number. -/
def roundRatio (negative : Bool) (n d : Nat) (e : Int) : Binary32 :=
  if n = 0 ∨ d = 0 then ⟨0, 0⟩
  else
    let s := scaleSignificand 400 n d e
    let m : Int := (roundTiesEven s.1 s.2.1 : Int)
    ⟨if negative then -m else m, s.2.2⟩

def Binary32.add (a b : Binary32) : Binary32 :=
  let e := min a.expo b.expo
  let sum := a.mant * 2 ^ (a.expo - e).toNat + b.mant * 2 ^ (b.expo - e).toNat
  roundRatio (decide (sum < 0)) sum.natAbs 1 e

def Binary32.mul (a b : Binary32) : Binary32 :=
  roundRatio (decide (a.mant * b.mant < 0)) (a.mant * b.mant).natAbs 1 (a.expo + b.expo)

def Binary32.div (a b : Binary32) : Binary32 :=
  roundRatio (decide (a.mant * b.mant < 0)) a.mant.natAbs b.mant.natAbs (a.expo - b.expo)

/-- Conversion to `int`: the fractional part is discarded. -/
def Binary32.toInt (a : Binary32) : Int :=
  if 0 ≤ a.expo then a.mant * 2 ^ a.expo.toNat else Int.tdiv a.mant (2 ^ (-a.expo).toNat)

/-- Single-precision arithmetic, each operation rounded to nearest, ties to
even; the literals `0.2f`, `0.5f`, `0.7f` are the nearest `binary32` values. -/
instance : FloatArith Binary32 where
  add := Binary32.add
  mul := Binary32.mul
  div := Binary32.div
  ofInt := fun n => roundRatio (decide (n < 0)) n.natAbs 1 0
  toInt := Binary32.toInt
  lit02 := roundRatio false 2 10 0
  lit05 := roundRatio false 5 10 0
  lit07 := roundRatio false 7 10 0

/-! ## Specification-side definitions -/

/-- The scale factor of the wait estimate in the words of the specification:
1/5 for Emergency, 1/2 for VIP, 7/10 for Premium, 1 for Normal (and for any
other value, which the code treats like Normal). -/
def priorityFactor (priority : Int) : ℚ :=
  if priority = PRIORITY_EMERGENCY then 1 / 5
  else if priority = PRIORITY_VIP then 1 / 2
  else if priority = PRIORITY_PREMIUM then 7 / 10
  else 1

/-- The wait estimate in the words of the specification: the integer part of
`4 * c * f`, with `c` the number of queued reservations whose priority is at
least `priority` and `f` the scale factor. -/
def waitEstimate (l : List (Reservation F)) (priority : Int) : Int :=
  ⌊(4 : ℚ) * ((l.countP (fun r => decide (r.priority ≥ priority)) : Nat) : ℚ) *
    priorityFactor priority⌋

/-- The incremental mean in the words of the specification:
`avg' = avg + (elapsed - avg) / n`. -/
def incrementalMean (avg elapsed : ℚ) (n : Int) : ℚ :=
  avg + (elapsed - avg) / (n : ℚ)

/-- The arguments of one call of `addReservation` other than the priority. -/
structure Submission (F : Type) where
  customerName : String
  email : String
  phone : String
  type : Int
  eventName : String
  location : String
  dateTime : String
  numTickets : Int
  amount : F
  now : Int

/-- The state after one submission with the given priority. -/
def submit [FloatArith F] (queue : ReservationQueue F) (s : Submission F) (priority : Int) :
    ReservationQueue F :=
  (addReservation queue s.customerName s.email s.phone s.type s.eventName s.location
    s.dateTime s.numTickets s.amount priority s.now).2

/-- The state after the submissions of the list, in order, all with priority
Normal, to the empty queue. -/
def submitNormals [FloatArith F] (normals : List (Submission F)) : ReservationQueue F :=
  normals.foldl (fun queue s => submit queue s PRIORITY_NORMAL) createReservationQueue

/-- The submission a queued reservation was created from. -/
def submissionOf (r : Reservation F) : Submission F :=
  { customerName := r.customerName
    email := r.email
    phone := r.phoneNumber
    type := r.type
    eventName := r.eventName
    location := r.location
    dateTime := r.dateTime
    numTickets := r.numberOfTickets
    amount := r.totalAmount
    now := r.requestTime }

/-- A sample submission. -/
def sampleSubmission : Submission ℚ :=
  { customerName := "John Doe"
    email := "john.doe@email.com"
    phone := "555-0101"
    type := RESERVATION_MOVIE
    eventName := "Avengers: Endgame"
    location := "Cinema City Mall"
    dateTime := "2024-01-15 19:30"
    numTickets := 2
    amount := 49 / 2
    now := 0 }

/-- A sample urgent submission. -/
def urgentSubmission : Submission ℚ :=
  { customerName := "Emergency Travel"
    email := "urgent@email.com"
    phone := "555-0105"
    type := RESERVATION_FLIGHT
    eventName := "Emergency Flight"
    location := "Medical Emergency"
    dateTime := "2024-01-16 ASAP"
    numTickets := 1
    amount := 1200
    now := 500 }

/-- The flight counter of `sampleQueue` takes a reservation at time 120 and
cancels it, then takes the next one at time 180 and confirms it at time 300. -/
def cancelledThenConfirmed : ReservationQueue ℚ :=
  confirmReservation
    (processNextReservation
      (cancelReservation (processNextReservation sampleQueue 1 120).2 1) 1 180).2 1 300

/-- The first two reservations of `setupSampleReservationData`, submitted to
`twoCounters`: the Premium reservation 1002 is at the front, before the Normal
reservation 1001. -/
def premiumFront : ReservationQueue ℚ :=
  (addReservation
    (addReservation twoCounters "John Doe" "john.doe@email.com" "555-0101"
      RESERVATION_MOVIE "Avengers: Endgame" "Cinema City Mall" "2024-01-15 19:30"
      2 (49 / 2) PRIORITY_NORMAL 0).2
    "Sarah Johnson" "sarah.j@email.com" "555-0102"
    RESERVATION_FLIGHT "Flight AA123" "New York to London" "2024-01-20 14:30"
    1 750 PRIORITY_PREMIUM 10).2

end ReservationCounter

/-!
# Token number announcement system (src/token_system.c)

The same conventions as for the reservation counter.  `rear` always points to
the last node of a non-empty list (every assignment to `front` or `rear`
keeps it so), hence `queue->rear->next = newToken` appends to the list.
-/

namespace TokenSystem

open ReservationCounter (FloatArith)

def MAX_QUEUE_SIZE : Int := 100

def TOKEN_GENERAL : Int := 1
def TOKEN_PREMIUM : Int := 2
def TOKEN_SENIOR : Int := 3
def TOKEN_EMERGENCY : Int := 4

inductive ServiceStatus where
  | STATUS_WAITING
  | STATUS_CALLED
  | STATUS_SERVING
  | STATUS_COMPLETED
  deriving DecidableEq, Repr

/-- The C `struct Token` without its `next` pointer. -/
structure Token where
  tokenNumber : Int
  customerName : String
  type : Int
  serviceName : String
  issueTime : Int
  callTime : Int
  serviceTime : Int
  status : ServiceStatus
  estimatedWaitTime : Int
  deriving DecidableEq, Repr

/-- The C `struct ServiceCounter`. -/
structure ServiceCounter (F : Type) where
  counterId : Int
  counterName : String
  currentToken : Option Token
  isActive : Int
  totalServed : Int
  avgServiceTime : F

/-- The C `struct TokenQueue`: the list `front .. rear`, the counters
`counters[0 .. counterCount - 1]`, and the totals. -/
structure TokenQueue (F : Type) where
  queue : List Token
  size : Int
  nextTokenNumber : Int
  counters : List (ServiceCounter F)
  totalTokensIssued : Int
  totalTokensServed : Int

variable {F : Type}

def TokenQueue.counterCount (queue : TokenQueue F) : Int :=
  (queue.counters.length : Int)

def createTokenQueue : TokenQueue F :=
  { queue := []
    size := 0
    nextTokenNumber := 1
    counters := []
    totalTokensIssued := 0
    totalTokensServed := 0 }

def isQueueEmpty (queue : TokenQueue F) : Bool :=
  queue.queue.isEmpty

def isQueueFull (queue : TokenQueue F) : Bool :=
  decide (queue.size ≥ MAX_QUEUE_SIZE)

def addServiceCounter [FloatArith F] (queue : TokenQueue F) (counterName : String) :
    TokenQueue F :=
  if queue.counterCount ≥ 10 then queue
  else
    { queue with
      counters := queue.counters ++
        [{ counterId := queue.counterCount + 1
           counterName := counterName
           currentToken := none
           isActive := 1
           totalServed := 0
           avgServiceTime := FloatArith.ofInt 5 }] }

/-- The node `issueToken` allocates and fills in, with the estimated wait
computed from the queue size. -/
def newToken (queue : TokenQueue F) (customerName : String) (type : Int)
    (serviceName : String) (now : Int) : Token :=
  let position : Int :=
    if type = TOKEN_EMERGENCY then 0
    else if type = TOKEN_SENIOR ∨ type = TOKEN_PREMIUM then Int.tdiv queue.size 2
    else queue.size
  { tokenNumber := queue.nextTokenNumber
    customerName := customerName
    type := type
    serviceName := serviceName
    issueTime := now
    callTime := 0
    serviceTime := 0
    status := ServiceStatus.STATUS_WAITING
    estimatedWaitTime := position * 5 }

def issueToken (queue : TokenQueue F) (customerName : String) (type : Int)
    (serviceName : String) (now : Int) : Option Token × TokenQueue F :=
  if isQueueFull queue then (none, queue)
  else
    let node := newToken queue customerName type serviceName now
    let linked : List Token :=
      if isQueueEmpty queue ∨ type ≠ TOKEN_EMERGENCY then
        if isQueueEmpty queue then [node] else queue.queue ++ [node]
      else node :: queue.queue
    (some node,
      { queue with
        queue := linked
        nextTokenNumber := queue.nextTokenNumber + 1
        size := queue.size + 1
        totalTokensIssued := queue.totalTokensIssued + 1 })

def callNextToken (queue : TokenQueue F) (counterId : Int) (now : Int) :
    Option Token × TokenQueue F :=
  if isQueueEmpty queue then (none, queue)
  else if counterId < 1 ∨ counterId > queue.counterCount then (none, queue)
  else
    match queue.counters[(counterId - 1).toNat]? with
    | none => (none, queue)
    | some counter =>
      if counter.isActive = 0 then (none, queue)
      else if (match counter.currentToken with
          | some held => decide (held.status = ServiceStatus.STATUS_SERVING)
          | none => false) then (none, queue)
      else
        match queue.queue with
        | [] => (none, queue)
        | front :: rest =>
          let token : Token :=
            { front with status := ServiceStatus.STATUS_CALLED, callTime := now }
          (some token,
            { queue with
              queue := rest
              size := queue.size - 1
              counters := queue.counters.set (counterId - 1).toNat
                { counter with currentToken := some token } })

def startService (queue : TokenQueue F) (counterId : Int) (now : Int) : TokenQueue F :=
  if counterId < 1 ∨ counterId > queue.counterCount then queue
  else
    match queue.counters[(counterId - 1).toNat]? with
    | none => queue
    | some counter =>
      match counter.currentToken with
      | none => queue
      | some token =>
        if token.status ≠ ServiceStatus.STATUS_CALLED then queue
        else
          { queue with
            counters := queue.counters.set (counterId - 1).toNat
              { counter with
                currentToken := some
                  { token with status := ServiceStatus.STATUS_SERVING, serviceTime := now } } }

def completeService [FloatArith F] (queue : TokenQueue F) (counterId : Int) (now : Int) :
    TokenQueue F :=
  if counterId < 1 ∨ counterId > queue.counterCount then queue
  else
    match queue.counters[(counterId - 1).toNat]? with
    | none => queue
    | some counter =>
      match counter.currentToken with
      | none => queue
      | some token =>
        let completionTime := now
        let serviceTime : F :=
          FloatArith.ofInt (completionTime - token.serviceTime) / FloatArith.ofInt 60
        let totalServed := counter.totalServed + 1
        let avg : F :=
          (counter.avgServiceTime * FloatArith.ofInt (totalServed - 1) + serviceTime) /
            FloatArith.ofInt totalServed
        { queue with
          totalTokensServed := queue.totalTokensServed + 1
          counters := queue.counters.set (counterId - 1).toNat
            { counter with
              totalServed := totalServed
              avgServiceTime := avg
              currentToken := none } }

def toggleCounter (queue : TokenQueue F) (counterId : Int) : TokenQueue F :=
  if counterId < 1 ∨ counterId > queue.counterCount then queue
  else
    match queue.counters[(counterId - 1).toNat]? with
    | none => queue
    | some counter =>
      if counter.isActive ≠ 0 ∧ counter.currentToken.isSome then queue
      else
        { queue with
          counters := queue.counters.set (counterId - 1).toNat
            { counter with isActive := if counter.isActive = 0 then 1 else 0 } }

/-! ## Predicates of the claims -/

/-- One call of a state-changing operation of the token system, successful or
not: `Step s t` when `t` is the state after the call in state `s`. -/
inductive Step [FloatArith F] : TokenQueue F → TokenQueue F → Prop
  | addServiceCounter (queue : TokenQueue F) (counterName : String) :
      Step queue (addServiceCounter queue counterName)
  | issueToken (queue : TokenQueue F) (customerName : String) (type : Int)
      (serviceName : String) (now : Int) :
      Step queue (issueToken queue customerName type serviceName now).2
  | callNextToken (queue : TokenQueue F) (counterId now : Int) :
      Step queue (callNextToken queue counterId now).2
  | startService (queue : TokenQueue F) (counterId now : Int) :
      Step queue (startService queue counterId now)
  | completeService (queue : TokenQueue F) (counterId now : Int) :
      Step queue (completeService queue counterId now)
  | toggleCounter (queue : TokenQueue F) (counterId : Int) :
      Step queue (toggleCounter queue counterId)

/-- States reachable from `createTokenQueue` by calls of the operations. -/
inductive Reachable [FloatArith F] : TokenQueue F → Prop
  | create : Reachable createTokenQueue
  | step (queue after : TokenQueue F) : Reachable queue → Step queue after → Reachable after

/-- The tokens held as some counter's `currentToken`. -/
def heldTokens (queue : TokenQueue F) : List Token :=
  queue.counters.filterMap (fun c => c.currentToken)

/-- What every reachable state of the token system satisfies. -/
structure Inv (queue : TokenQueue F) : Prop where
  waiting : ∀ t ∈ queue.queue, t.status = ServiceStatus.STATUS_WAITING
  held : ∀ t ∈ heldTokens queue,
    t.status = ServiceStatus.STATUS_CALLED ∨ t.status = ServiceStatus.STATUS_SERVING
  fresh_queue : ∀ t ∈ queue.queue, t.tokenNumber < queue.nextTokenNumber
  fresh_held : ∀ t ∈ heldTokens queue, t.tokenNumber < queue.nextTokenNumber
  nodup : (queue.queue.map (fun t => t.tokenNumber)).Nodup
  disjoint : ∀ t ∈ queue.queue, ∀ u ∈ heldTokens queue, t.tokenNumber ≠ u.tokenNumber

/-! ## Concrete states over exact arithmetic -/

/-- One counter and two waiting tokens. -/
def twoWaiting : TokenQueue ℚ :=
  (issueToken
    (issueToken (addServiceCounter createTokenQueue "General Service")
      "John Smith" TOKEN_GENERAL "Account Inquiry" 0).2
    "Mary Johnson" TOKEN_PREMIUM "Investment Consultation" 10).2

/-- Token 1 has been called to counter 1 and its service has not been started. -/
def calledOnce : TokenQueue ℚ :=
  (callNextToken twoWaiting 1 60).2

/-- Token 1 is being served at counter 1. -/
def servingOne : TokenQueue ℚ :=
  startService calledOnce 1 120

/-- The elapsed time in minutes that `completeService` computes for the token
at a counter; `none` when the call changes nothing. -/
def elapsedAt [FloatArith F] (queue : TokenQueue F) (counterId now : Int) : Option F :=
  if counterId < 1 ∨ counterId > queue.counterCount then none
  else
    match queue.counters[(counterId - 1).toNat]? with
    | none => none
    | some counter =>
      match counter.currentToken with
      | none => none
      | some token => some (FloatArith.ofInt (now - token.serviceTime) / FloatArith.ofInt 60)

/-- States reached from `createTokenQueue` by a run of the operations in which
the services completed at counter `counterId` had the elapsed times `times`,
in this order. -/
inductive ServedAt [FloatArith F] (counterId : Int) : TokenQueue F → List F → Prop
  | create : ServedAt counterId createTokenQueue []
  | addServiceCounter (queue : TokenQueue F) (times : List F) (counterName : String) :
      ServedAt counterId queue times →
      ServedAt counterId (addServiceCounter queue counterName) times
  | issueToken (queue : TokenQueue F) (times : List F) (customerName : String) (type : Int)
      (serviceName : String) (now : Int) :
      ServedAt counterId queue times →
      ServedAt counterId (issueToken queue customerName type serviceName now).2 times
  | callNextToken (queue : TokenQueue F) (times : List F) (called now : Int) :
      ServedAt counterId queue times →
      ServedAt counterId (callNextToken queue called now).2 times
  | startService (queue : TokenQueue F) (times : List F) (started now : Int) :
      ServedAt counterId queue times →
      ServedAt counterId (startService queue started now) times
  | toggleCounter (queue : TokenQueue F) (times : List F) (toggled : Int) :
      ServedAt counterId queue times →
      ServedAt counterId (toggleCounter queue toggled) times
  | completeOther (queue : TokenQueue F) (times : List F) (other now : Int) :
      other ≠ counterId → ServedAt counterId queue times →
      ServedAt counterId (completeService queue other now) times
  | completeIdle (queue : TokenQueue F) (times : List F) (now : Int) :
      elapsedAt queue counterId now = none → ServedAt counterId queue times →
      ServedAt counterId (completeService queue counterId now) times
  | complete (queue : TokenQueue F) (times : List F) (now : Int) (elapsed : F) :
      elapsedAt queue counterId now = some elapsed → ServedAt counterId queue times →
      ServedAt counterId (completeService queue counterId now) (times ++ [elapsed])

/-- The statistics of the counter at an index of the array: `totalServed` is the
number of the elapsed times and, when there is one, `avgServiceTime` is their
mean; a counter that does not exist has served nothing. -/
def MeanAt (index : Nat) (queue : TokenQueue ℚ) (times : List ℚ) : Prop :=
  match queue.counters[index]? with
  | none => times = []
  | some counter =>
    counter.totalServed = (times.length : Int) ∧
      (times ≠ [] → counter.avgServiceTime = times.sum / (times.length : ℚ))

/-- Counter 1 has completed two services, of 6 and of 3 minutes. -/
def servedTwice : TokenQueue ℚ :=
  completeService
    (startService (callNextToken (completeService servingOne 1 480) 1 500).2 1 520) 1 700

end TokenSystem

/-!
# Maze solver (`src/maze_solver.c`)

The grid `char grid[MAX_SIZE][MAX_SIZE]` is a list of rows of characters, the
linked stack is the list of its positions from the top, and the `while` loop
of `solveMaze` runs on fuel: `none` is "no result within this many
iterations". The values of `rand()` are an argument of `generateRandomMaze`.
-/

namespace MazeSolver

def MAX_SIZE : Nat := 20
def WALL : Char := '#'
def PATH : Char := ' '
def START : Char := 'S'
def END : Char := 'E'
def VISITED : Char := '.'
def SOLUTION : Char := '*'

/-- The C `struct Position` without its link. -/
structure Position where
  row : Int
  col : Int
  deriving DecidableEq, Repr

/-- The C `struct Maze`; `endPos` is the field `end`. -/
structure Maze where
  grid : List (List Char)
  rows : Int
  cols : Int
  start : Position
  endPos : Position
  solutionFound : Int
  steps : Int
  deriving DecidableEq, Repr

/-- The cell `grid[row][col]`. Every read of the source is guarded by
`isValidPosition`; a cell the list does not have reads as a wall. -/
def cell (grid : List (List Char)) (row col : Int) : Char :=
  match grid[row.toNat]? with
  | some line => line.getD col.toNat WALL
  | none => WALL

/-- The assignment `grid[row][col] = value`. -/
def setCell (grid : List (List Char)) (row col : Int) (value : Char) : List (List Char) :=
  match grid[row.toNat]? with
  | some line => grid.set row.toNat (line.set col.toNat value)
  | none => grid

/-- `createMaze`: the cells of the first `rows` rows and `cols` columns are
walls. The other cells of the array and the two positions are not
initialised by the source; they are walls and `(0, 0)` here. -/
def createMaze (rows cols : Int) : Maze :=
  { grid := List.replicate MAX_SIZE (List.replicate MAX_SIZE WALL)
    rows := rows
    cols := cols
    start := ⟨0, 0⟩
    endPos := ⟨0, 0⟩
    solutionFound := 0
    steps := 0 }

def isValidPosition (maze : Maze) (row col : Int) : Bool :=
  decide (row ≥ 0 ∧ row < maze.rows ∧ col ≥ 0 ∧ col < maze.cols)

def canMoveTo (maze : Maze) (row col : Int) : Bool :=
  isValidPosition maze row col &&
    (decide (cell maze.grid row col = PATH) || decide (cell maze.grid row col = END))

/-- The array `sampleMaze[10][21]` of `loadSampleMaze`. -/
def sampleMaze : List String :=
  [ "####################",
    "#S       #         #",
    "# ##### ### ####### #",
    "# #   # #   #     # #",
    "# # # # # ### ### # #",
    "#   #   #   #   #   #",
    "####### # # # #######",
    "#     #   # #   #   #",
    "# ### ##### ### # # #",
    "#   #           #  E#" ]

/-- The character `sampleMaze[i][j]`; the terminating zero of a shorter row is
character 0. -/
def sampleAt (i j : Nat) : Char :=
  ((sampleMaze.getD i "").toList).getD j (Char.ofNat 0)

/-- The body of the inner loop of `loadSampleMaze` for the cell `(i, j)`. -/
def loadCell (maze : Maze) (i j : Nat) : Maze :=
  let copied : Maze := { maze with grid := setCell maze.grid i j (sampleAt i j) }
  if sampleAt i j = START then { copied with start := ⟨i, j⟩ }
  else if sampleAt i j = END then { copied with endPos := ⟨i, j⟩ }
  else copied

/-- `loadSampleMaze`: 10 rows of 20 columns copied from `sampleMaze`. -/
def loadSampleMaze (maze : Maze) : Maze :=
  (List.range 10).foldl
    (fun (m : Maze) (i : Nat) => (List.range 20).foldl (fun (m : Maze) (j : Nat) => loadCell m i j) m)
    { maze with rows := 10, cols := 20 }

/-- The body of the inner loop of `generateRandomMaze` for the cell `(i, j)`;
`calls` counts the calls of `rand()` so far. -/
def randomCell (rows cols : Int) (rand : Nat → Int) (state : Maze × Nat) (i j : Nat) :
    Maze × Nat :=
  if (i : Int) = 0 ∨ (i : Int) = rows - 1 ∨ (j : Int) = 0 ∨ (j : Int) = cols - 1 then
    ({ state.1 with grid := setCell state.1.grid i j WALL }, state.2)
  else
    ({ state.1 with
        grid := setCell state.1.grid i j
          (if Int.tmod (rand state.2) 3 = 0 then WALL else PATH) },
      state.2 + 1)

/-- `generateRandomMaze`, with the successive values of `rand()` given by
`rand 0`, `rand 1`, ... -/
def generateRandomMaze (maze : Maze) (rows cols : Int) (rand : Nat → Int) : Maze :=
  let filled : Maze :=
    ((List.range rows.toNat).foldl
      (fun (state : Maze × Nat) (i : Nat) =>
        (List.range cols.toNat).foldl
          (fun (state : Maze × Nat) (j : Nat) => randomCell rows cols rand state i j) state)
      ({ maze with rows := rows, cols := cols }, 0)).1
  let g1 := setCell filled.grid 1 1 START
  let g2 := setCell g1 (rows - 2) (cols - 2) END
  let g3 := setCell g2 1 2 PATH
  let g4 := setCell g3 2 1 PATH
  let g5 := setCell g4 (rows - 2) (cols - 3) PATH
  let g6 := setCell g5 (rows - 3) (cols - 2) PATH
  { filled with
    start := ⟨1, 1⟩
    endPos := ⟨rows - 2, cols - 2⟩
    grid := g6 }

/-- The array `directions` of `solveMaze`: up, right, down, left. -/
def directions : List (Int × Int) := [(-1, 0), (0, 1), (1, 0), (0, -1)]

/-- The `for` loop over the four directions: the first neighbour of `current`
that `canMoveTo` accepts. -/
def firstMove (maze : Maze) (current : Position) : Option Position :=
  (directions.map
    (fun (d : Int × Int) => ({ row := current.row + d.1, col := current.col + d.2 } : Position))).find?
    (fun p => canMoveTo maze p.row p.col)

/-- The loop that marks the solution path, from the top of the stack down. -/
def markSolution (grid : List (List Char)) : List Position → List (List Char)
  | [] => grid
  | pathPos :: next =>
    if cell grid pathPos.row pathPos.col ≠ START ∧ cell grid pathPos.row pathPos.col ≠ END then
      markSolution (setCell grid pathPos.row pathPos.col SOLUTION) next
    else markSolution grid next

/-- The `while (!isStackEmpty(pathStack))` loop of `solveMaze`. The result is
the returned value with the final maze and stack. -/
def solveLoop : Nat → Maze → List Position → Option (Int × Maze × List Position)
  | _, maze, [] => some (0, maze, [])
  | 0, _, _ :: _ => none
  | fuel + 1, maze, current :: below =>
    if current.row = maze.endPos.row ∧ current.col = maze.endPos.col then
      some (1,
        { maze with
          steps := maze.steps + 1
          solutionFound := 1
          grid := markSolution maze.grid (current :: below) },
        current :: below)
    else
      match firstMove maze current with
      | some next =>
        solveLoop fuel
          { maze with
            steps := maze.steps + 1
            grid :=
              if cell maze.grid next.row next.col ≠ END then
                setCell maze.grid next.row next.col VISITED
              else maze.grid }
          (next :: current :: below)
      | none =>
        solveLoop fuel
          { maze with
            steps := maze.steps + 1
            grid :=
              if cell maze.grid current.row current.col ≠ START then
                setCell maze.grid current.row current.col PATH
              else maze.grid }
          below

/-- `solveMaze`: the start is pushed and marked visited, then the loop runs. -/
def solveMaze (fuel : Nat) (maze : Maze) : Option (Int × Maze × List Position) :=
  solveLoop fuel
    { maze with grid := setCell maze.grid maze.start.row maze.start.col VISITED }
    [maze.start]

/-- Two positions are neighbours in one of the four directions. -/
def adjacent (p q : Position) : Bool :=
  directions.any (fun (d : Int × Int) => decide (q.row = p.row + d.1 ∧ q.col = p.col + d.2))

/-- The positions after the first are open cells of the maze (`PATH` or
`END`), each a neighbour of the one before, and the last is the end cell. -/
def isOpenPath (maze : Maze) : List Position → Bool
  | [] => false
  | [p] => decide (p = maze.endPos)
  | p :: q :: path => adjacent p q && canMoveTo maze q.row q.col && isOpenPath maze (q :: path)

/-- The values of `rand()` of the small maze below: the third and the fifth
are multiples of 3. -/
def smallRand (call : Nat) : Int :=
  if call = 2 ∨ call = 4 then 0 else 1

/-- A maze `generateRandomMaze` makes for 5 rows and 5 columns:
`#####`, `#S ##`, `# # #`, `#  E#`, `#####`. -/
def smallMaze : Maze :=
  generateRandomMaze (createMaze 10 20) 5 5 smallRand

/-- The maze of `loadSampleMaze`, loaded into the maze `main` creates. -/
def loadedSample : Maze :=
  loadSampleMaze (createMaze 10 20)

/-- The grid with the cells of `visited` marked. -/
def markVisited (grid : List (List Char)) (visited : List Position) : List (List Char) :=
  visited.foldl (fun g p => setCell g p.row p.col VISITED) grid

/-- The stack of the walk from `(1, 1)` to the right up to `(1, 7)`. -/
def corridor : List Position :=
  [⟨1, 7⟩, ⟨1, 6⟩, ⟨1, 5⟩, ⟨1, 4⟩, ⟨1, 3⟩, ⟨1, 2⟩, ⟨1, 1⟩]

end MazeSolver

/-!
# Balanced parentheses checker (`src/balanced_parentheses.c`)

An expression is the list of its characters before the terminating zero and
is taken to fit the 1000 bytes of the `expression` field, as every
expression `main` reads does. The linked stack is the list of its nodes from
the top. The printed lines and the text of `errorDetails` are left out.
-/

namespace BalancedParentheses

/-- The C `struct StackNode` without its link. -/
structure StackNode where
  data : Char
  position : Int
  deriving DecidableEq, Repr

/-- The C `struct ExpressionAnalysis` without `errorDetails`. -/
structure ExpressionAnalysis where
  expression : List Char
  isBalanced : Int
  totalOpenBrackets : Int
  totalCloseBrackets : Int
  maxDepth : Int
  currentDepth : Int
  deriving DecidableEq, Repr

def isOpeningBracket (ch : Char) : Bool :=
  ch = '(' || ch = '[' || ch = '{'

def isClosingBracket (ch : Char) : Bool :=
  ch = ')' || ch = ']' || ch = '}'

def isMatchingPair (opening closing : Char) : Bool :=
  (opening = '(' && closing = ')') ||
    (opening = '[' && closing = ']') ||
    (opening = '{' && closing = '}')

/-- The `for` loop of `analyzeExpression` from position `i` on, the characters
left to read being the first argument. A `break` ends the loop with the
remaining characters unread. -/
def scanExpression :
    List Char → Int → List StackNode → ExpressionAnalysis → ExpressionAnalysis × List StackNode
  | [], _, stack, analysis => (analysis, stack)
  | ch :: rest, i, stack, analysis =>
    if isOpeningBracket ch then
      scanExpression rest (i + 1) ({ data := ch, position := i } :: stack)
        { analysis with
          totalOpenBrackets := analysis.totalOpenBrackets + 1
          currentDepth := analysis.currentDepth + 1
          maxDepth :=
            if analysis.currentDepth + 1 > analysis.maxDepth then analysis.currentDepth + 1
            else analysis.maxDepth }
    else if isClosingBracket ch then
      match stack with
      | [] =>
        ({ analysis with
            totalCloseBrackets := analysis.totalCloseBrackets + 1
            isBalanced := 0 }, [])
      | topNode :: below =>
        if isMatchingPair topNode.data ch then
          scanExpression rest (i + 1) below
            { analysis with
              totalCloseBrackets := analysis.totalCloseBrackets + 1
              currentDepth := analysis.currentDepth - 1 }
        else
          ({ analysis with
              totalCloseBrackets := analysis.totalCloseBrackets + 1
              isBalanced := 0 }, below)
    else scanExpression rest (i + 1) stack analysis

/-- `analyzeExpression`: the scan, then the check for openers left on the
stack. -/
def analyzeExpression (expression : List Char) : ExpressionAnalysis :=
  let scanned :=
    scanExpression expression 0 []
      { expression := expression
        isBalanced := 1
        totalOpenBrackets := 0
        totalCloseBrackets := 0
        maxDepth := 0
        currentDepth := 0 }
  if scanned.1.isBalanced ≠ 0 ∧ scanned.2 ≠ [] then { scanned.1 with isBalanced := 0 }
  else scanned.1

/-! ## Well-nested bracket strings -/

/-- An opener and the closer of the same kind. -/
def BracketPair (opening closing : Char) : Prop :=
  (opening = '(' ∧ closing = ')') ∨ (opening = '[' ∧ closing = ']') ∨
    (opening = '{' ∧ closing = '}')

/-- The six bracket characters. -/
def isBracket (ch : Char) : Bool :=
  ch = '(' || ch = ')' || ch = '[' || ch = ']' || ch = '{' || ch = '}'

/-- The subsequence of the bracket characters of an expression. -/
def brackets (expression : List Char) : List Char :=
  expression.filter isBracket

/-- Well-nested strings of brackets: the empty string, and an opener, a
well-nested string, the closer of the same kind, and a well-nested string. -/
inductive WellNested : List Char → Prop
  | nil : WellNested []
  | wrap (opening closing : Char) (inner outer : List Char) :
      BracketPair opening closing → WellNested inner → WellNested outer →
      WellNested (opening :: (inner ++ closing :: outer))

/-- The control flow of `scanExpression` alone, on the stack of opener
characters: the scan ends without a `break` and with an empty stack. -/
def accepts : List Char → List Char → Bool
  | [], stack => stack.isEmpty
  | ch :: rest, stack =>
    if isOpeningBracket ch then accepts rest (ch :: stack)
    else if isClosingBracket ch then
      match stack with
      | [] => false
      | opening :: below => isMatchingPair opening ch && accepts rest below
    else accepts rest stack

end BalancedParentheses

/-!
# Elimination game (`src/elimination_game.c`)

The circular list is the list of its players in link order from `head`; a
pointer to a player is its index in that list, `head` is index 0, and the
`next` link of index `i` leads to index `(i + 1) % length`. A loop that
walks the circle gives `none` when it would not end.
-/

namespace Elimination

/-- The C `struct Player` without its link. -/
structure Player where
  playerNumber : Int
  name : String
  isActive : Int
  deriving DecidableEq, Repr

/-- The C `struct EliminationGame`. -/
structure EliminationGame where
  players : List Player
  currentPlayer : Nat
  totalPlayers : Int
  activePlayers : Int
  eliminationCount : Int
  round : Int
  deriving DecidableEq, Repr

def createGame (k : Int) : EliminationGame :=
  { players := []
    currentPlayer := 0
    totalPlayers := 0
    activePlayers := 0
    eliminationCount := k
    round := 1 }

def createPlayer (number : Int) (name : String) : Player :=
  { playerNumber := number
    name := name
    isActive := 1 }

/-- `addPlayer`: the new player is linked after the last one and before
`head`; the first player also becomes the current one. -/
def addPlayer (game : EliminationGame) (number : Int) (name : String) : EliminationGame :=
  { game with
    players := game.players ++ [createPlayer number name]
    currentPlayer := if game.players.isEmpty then 0 else game.currentPlayer
    totalPlayers := game.totalPlayers + 1
    activePlayers := game.activePlayers + 1 }

/-- `setupPlayers`: players `1 .. numPlayers` are added in this order. -/
def setupPlayers (game : EliminationGame) (numPlayers : Int) : EliminationGame :=
  (List.range numPlayers.toNat).foldl
    (fun (g : EliminationGame) (i : Nat) =>
      addPlayer g ((i : Int) + 1) ("Player" ++ toString (i + 1)))
    game

/-- The test `player->isActive` of the source. -/
def active (player : Player) : Bool :=
  decide (player.isActive ≠ 0)

/-- The test `next->isActive` for the player at an index. -/
def isActiveAt (players : List Player) (index : Nat) : Bool :=
  match players[index]? with
  | some player => active player
  | none => false

/-- The `while (!next->isActive)` loop of `getNextActivePlayer`: after as many
links as there are players without an active one, the loop does not end. -/
def skipInactive : Nat → List Player → Nat → Option Nat
  | 0, _, _ => none
  | fuel + 1, players, next =>
    if isActiveAt players next then some next
    else skipInactive fuel players ((next + 1) % players.length)

def getNextActivePlayer (players : List Player) (current : Nat) : Option Nat :=
  skipInactive players.length players ((current + 1) % players.length)

/-- The assignment `playerToEliminate->isActive = 0`. -/
def deactivate (players : List Player) (index : Nat) : List Player :=
  match players[index]? with
  | some player => players.set index { player with isActive := 0 }
  | none => players

def eliminatePlayer (game : EliminationGame) (playerToEliminate : Nat) :
    Option EliminationGame :=
  if game.activePlayers - 1 > 0 then
    match getNextActivePlayer (deactivate game.players playerToEliminate) playerToEliminate with
    | some next =>
      some { game with
        players := deactivate game.players playerToEliminate
        activePlayers := game.activePlayers - 1
        currentPlayer := next }
    | none => none
  else
    some { game with
      players := deactivate game.players playerToEliminate
      activePlayers := game.activePlayers - 1 }

/-- The `for` loop of `performElimination`: `steps` times to the next active
player. -/
def countSteps : Nat → List Player → Nat → Option Nat
  | 0, _, current => some current
  | steps + 1, players, current =>
    match getNextActivePlayer players current with
    | some next => countSteps steps players next
    | none => none

def performElimination (game : EliminationGame) : Option EliminationGame :=
  if game.activePlayers ≤ 1 then some game
  else
    match countSteps (game.eliminationCount - 1).toNat game.players game.currentPlayer with
    | some current =>
      match eliminatePlayer game current with
      | some after => some { after with round := after.round + 1 }
      | none => none
    | none => none

/-- The `while (game->activePlayers > 1)` loop of `playEntireGame`, on fuel. -/
def playLoop : Nat → EliminationGame → Option EliminationGame
  | 0, game => if game.activePlayers > 1 then none else some game
  | fuel + 1, game =>
    if game.activePlayers > 1 then
      match performElimination game with
      | some after => playLoop fuel after
      | none => none
    else some game

/-- `playEntireGame`: the loop, then the first active player from `head`, the
winner it prints. -/
def playEntireGame (fuel : Nat) (game : EliminationGame) : Option (EliminationGame × Player) :=
  match playLoop fuel game with
  | some final =>
    match final.players.find? active with
    | some winner => some (final, winner)
    | none => none
  | none => none

/-- The position `J(m, k)` of the claim: `J(1, k) = 0` and
`J(m, k) = (J(m - 1, k) + k) mod m`. -/
def J : Nat → Nat → Nat
  | 0, _ => 0
  | 1, _ => 0
  | m + 2, k => (J (m + 1) k + k) % (m + 2)

/-- The players around the circle from the current one, the active ones only.
-/
def circle (players : List Player) (current : Nat) : List Player :=
  (players.rotate current).filter active

/-- The players `1 .. n` in the order `setupPlayers` adds them. -/
def numbered (n : Nat) : List Player :=
  (List.range n).map
    (fun (i : Nat) => createPlayer ((i : Int) + 1) ("Player" ++ toString (i + 1)))

/-- The state of a game in play: the current player is a player of the list
and is active, `row` is the circle from the current player, and
`activePlayers` is its length. -/
structure InPlay (game : EliminationGame) (row : List Player) : Prop where
  inside : game.currentPlayer < game.players.length
  current_active : isActiveAt game.players game.currentPlayer = true
  row_eq : circle game.players game.currentPlayer = row
  count : game.activePlayers = (row.length : Int)

end Elimination

/-!
# Hash table with chaining (`src/hash_table.c`)

A C string is the list of the values of its `char`s before the terminating
zero. `char` is signed, as on x86-64: a byte below 128 is its own value, a
byte from 128 on is that byte minus 256, and `hash += key[i]` adds this value
to the `int`. Strings fit their buffers (`main` reads them with `fgets` bounded
by the array sizes), so the sum of a key stays far inside the range of `int`.
A chain is the list of its nodes from the bucket head. The array
`table[TABLE_SIZE]` is a function on the indices `0 .. TABLE_SIZE - 1`; an
access `table[index]` with another index is outside the array, where C gives
the program no meaning: `insert` and `search` then have no result (`none`).
-/

namespace HashTableChaining

def TABLE_SIZE : Nat := 10

/-- The value of a byte read as a `char`. -/
def signedChar (byte : Nat) : Int :=
  if byte < 128 then byte else (byte : Int) - 256

/-- The C string of an ASCII text: the codes of its characters. -/
def cstring (text : String) : List Int :=
  text.toList.map (fun ch => (ch.toNat : Int))

/-- The C string of the bytes C3 A9: the letter e with an acute accent, as a
UTF-8 terminal sends it. -/
def eAcute : List Int :=
  [signedChar 0xC3, signedChar 0xA9]

/-- The C `struct HashNode` without its link. -/
structure HashNode where
  key : List Int
  value : List Int
  deriving DecidableEq, Repr

/-- The C `struct HashTable`. -/
structure HashTable where
  table : Fin TABLE_SIZE → List HashNode
  totalElements : Int
  collisions : Int

def createHashNode (key value : List Int) : HashNode :=
  { key := key
    value := value }

def createHashTable : HashTable :=
  { table := fun _ => []
    totalElements := 0
    collisions := 0 }

/-- `hashFunction`: the sum of the `char` values, then the C remainder
`hash % TABLE_SIZE`, which has the sign of the sum. -/
def hashFunction (key : List Int) : Int :=
  Int.tmod (key.foldl (fun hash ch => hash + ch) 0) TABLE_SIZE

/-- The cell `table[index]` of the array; `none` when the index is outside
`0 .. TABLE_SIZE - 1`. -/
def bucketOf (index : Int) : Option (Fin TABLE_SIZE) :=
  if h : 0 ≤ index ∧ index < (TABLE_SIZE : Int) then
    some ⟨index.toNat, by unfold TABLE_SIZE at h ⊢; omega⟩
  else none

/-- The `while` loop of `insert` over a chain: the value of the first node with
the key is replaced; `none` when the loop ends without finding the key. -/
def updateChain (key value : List Int) : List HashNode → Option (List HashNode)
  | [] => none
  | current :: next =>
    if current.key = key then some ({ current with value := value } :: next)
    else (updateChain key value next).map (fun updated => current :: updated)

/-- `insert`; `none` when `table[index]` is outside the array. -/
def insert (hashTable : HashTable) (key value : List Int) : Option HashTable :=
  match bucketOf (hashFunction key) with
  | none => none
  | some index =>
    match hashTable.table index with
    | [] =>
      some
        { hashTable with
          table := Function.update hashTable.table index [createHashNode key value]
          totalElements := hashTable.totalElements + 1 }
    | first :: next =>
      match updateChain key value (first :: next) with
      | some updated =>
        some { hashTable with table := Function.update hashTable.table index updated }
      | none =>
        some
          { hashTable with
            table := Function.update hashTable.table index
              ((first :: next) ++ [createHashNode key value])
            collisions := hashTable.collisions + 1
            totalElements := hashTable.totalElements + 1 }

/-- The `while` loop of `search` over a chain; `none` is the `NULL` result. -/
def searchChain (key : List Int) : List HashNode → Option (List Int)
  | [] => none
  | current :: next =>
    if current.key = key then some current.value else searchChain key next

/-- `search`: `some none` is the `NULL` result; `none` when `table[index]` is
outside the array. -/
def search (hashTable : HashTable) (key : List Int) : Option (Option (List Int)) :=
  match bucketOf (hashFunction key) with
  | none => none
  | some index => some (searchChain key (hashTable.table index))

/-- Four insertions of `populateSampleData`, then a second value for `apple`.
-/
def sampleTable : Option HashTable :=
  ((((insert createHashTable (cstring "apple") (cstring "A red or green fruit")).bind
    (fun t => insert t (cstring "banana") (cstring "A yellow tropical fruit"))).bind
    (fun t => insert t (cstring "orange") (cstring "A citrus fruit"))).bind
    (fun t => insert t (cstring "kiwi") (cstring "Brown fuzzy fruit with green inside"))).bind
    (fun t => insert t (cstring "apple") (cstring "A fruit"))

end HashTableChaining

/-!
# Undo operation system (`src/undo_operation.c`)

A string is the list of its characters before the terminating zero; a buffer
of `MAX_TEXT_SIZE` bytes holds the strings of fewer than `MAX_TEXT_SIZE`
characters. A stack is the list of its operations from the top, and
`time(NULL)` is the argument `now`.

`insertText`, `appendText` and `clearText` either print an error and return
(`none`) or run to their end; `insertText` checks the length of its result
first. `deleteText` and `replaceText` have a third outcome: the sum
`position + length` is an `int` sum, computed modulo `2 ^ 32`, so for a large
`length` it is negative and the length is not cut down to the rest of the text;
and `replaceText` builds its result in `temp[MAX_TEXT_SIZE]` without a check of
the length. A call that writes beyond the end of a buffer has the outcome
`undefined`: C gives the program no meaning from there on.
-/

namespace UndoOperation

def MAX_TEXT_SIZE : Int := 1000
def MAX_OPERATIONS : Int := 100

def INT_MAX : Int := 2147483647

/-- The sum of two `int`s as the machine computes it: modulo `2 ^ 32`, in the
range `-2 ^ 31 .. 2 ^ 31 - 1`. -/
def addInt (a b : Int) : Int :=
  (a + b + 2 ^ 31) % 2 ^ 32 - 2 ^ 31

inductive OperationType where
  | OP_INSERT
  | OP_DELETE
  | OP_REPLACE
  | OP_CLEAR
  | OP_APPEND
  deriving DecidableEq, Repr

/-- The C `struct Operation` without its link. -/
structure Operation where
  operationId : Int
  type : OperationType
  position : Int
  originalText : List Char
  newText : List Char
  deletedText : List Char
  timestamp : Int
  deriving DecidableEq, Repr

/-- The C `struct UndoStack`; `top` is the list of the operations from the top.
-/
structure UndoStack where
  top : List Operation
  operationCount : Int
  maxOperations : Int
  deriving DecidableEq, Repr

/-- The C `struct TextEditor`. -/
structure TextEditor where
  content : List Char
  undoStack : UndoStack
  redoStack : UndoStack
  nextOperationId : Int
  cursorPosition : Int
  deriving DecidableEq, Repr

/-- What a call of `deleteText` or `replaceText` does. `rejected`: it prints an
error and returns, the editor unchanged. `done`: it runs to its end and leaves
this editor. `undefined`: it writes beyond the end of a buffer. -/
inductive Outcome where
  | rejected
  | done (editor : TextEditor)
  | undefined
  deriving DecidableEq, Repr

/-- The editor a call leaves, when it runs to its end. -/
def Outcome.result : Outcome → Option TextEditor
  | Outcome.done editor => some editor
  | _ => none

def createUndoStack (maxOps : Int) : UndoStack :=
  { top := []
    operationCount := 0
    maxOperations := maxOps }

def createTextEditor : TextEditor :=
  { content := []
    undoStack := createUndoStack MAX_OPERATIONS
    redoStack := createUndoStack MAX_OPERATIONS
    nextOperationId := 1
    cursorPosition := 0 }

def isStackEmpty (stack : UndoStack) : Bool :=
  stack.top.isEmpty

/-- `pushOperation`: a full stack first loses its oldest operation, the last of
the list (in a state of the program a full stack has 100 operations); the new
operation has `operationId` 0 until the caller sets it. -/
def pushOperation (stack : UndoStack) (type : OperationType) (position : Int)
    (originalText newText deletedText : List Char) (now : Int) : UndoStack :=
  let room : UndoStack :=
    if stack.operationCount ≥ stack.maxOperations then
      { stack with top := stack.top.dropLast, operationCount := stack.operationCount - 1 }
    else stack
  { room with
    top :=
      { operationId := 0
        type := type
        position := position
        originalText := originalText
        newText := newText
        deletedText := deletedText
        timestamp := now } :: room.top
    operationCount := room.operationCount + 1 }

/-- The assignment `stack->top->operationId = id` after a push. -/
def setTopId (stack : UndoStack) (id : Int) : UndoStack :=
  match stack.top with
  | [] => stack
  | op :: below => { stack with top := { op with operationId := id } :: below }

def popOperation (stack : UndoStack) : Option Operation × UndoStack :=
  match stack.top with
  | [] => (none, stack)
  | op :: below =>
    (some op, { stack with top := below, operationCount := stack.operationCount - 1 })

/-- `clearRedoStack`: every operation of the redo stack is popped. -/
def clearRedoStack (editor : TextEditor) : TextEditor :=
  { editor with
    redoStack :=
      { editor.redoStack with
        top := []
        operationCount := editor.redoStack.operationCount - editor.redoStack.top.length } }

/-- The text with `text` put in at `position`: the `strncpy`, `strcat`,
`strcat` of the source. -/
def spliceIn (content : List Char) (position : Int) (text : List Char) : List Char :=
  content.take position.toNat ++ text ++ content.drop position.toNat

/-- The text without the `length` characters from `position` on: the `memmove`
of the source. -/
def cutOut (content : List Char) (position length : Int) : List Char :=
  content.take position.toNat ++ content.drop (position + length).toNat

def insertText (editor : TextEditor) (position : Int) (text : List Char) (now : Int) :
    Option TextEditor :=
  if position < 0 ∨ position > editor.content.length then none
  else if (editor.content.length : Int) + text.length ≥ MAX_TEXT_SIZE then none
  else
    some (clearRedoStack
      { editor with
        undoStack :=
          setTopId (pushOperation editor.undoStack OperationType.OP_INSERT position
            editor.content text [] now) editor.nextOperationId
        nextOperationId := editor.nextOperationId + 1
        content := spliceIn editor.content position text
        cursorPosition := position + text.length })

/-- `deleteText`. After the comparison of the `int` sum with `contentLen`,
`strncpy` writes `length` bytes into `deletedText[MAX_TEXT_SIZE]` and the
terminating zero behind them. -/
def deleteText (editor : TextEditor) (position length : Int) (now : Int) : Outcome :=
  if position < 0 ∨ position ≥ editor.content.length ∨ length ≤ 0 then Outcome.rejected
  else
    let contentLen : Int := editor.content.length
    let length := if addInt position length > contentLen then contentLen - position else length
    if length ≥ MAX_TEXT_SIZE then Outcome.undefined
    else
      let deletedText := (editor.content.drop position.toNat).take length.toNat
      Outcome.done (clearRedoStack
        { editor with
          undoStack :=
            setTopId (pushOperation editor.undoStack OperationType.OP_DELETE position
              editor.content [] deletedText now) editor.nextOperationId
          nextOperationId := editor.nextOperationId + 1
          content := cutOut editor.content position length
          cursorPosition := position })

/-- `replaceText`. As in `deleteText`, `strncpy` writes `length` bytes and the
terminating zero into `replacedText[MAX_TEXT_SIZE]`; the result is then put
together in `temp[MAX_TEXT_SIZE]` and copied into `content[MAX_TEXT_SIZE]`,
with no check of its length. -/
def replaceText (editor : TextEditor) (position length : Int) (newText : List Char)
    (now : Int) : Outcome :=
  if position < 0 ∨ position ≥ editor.content.length ∨ length ≤ 0 then Outcome.rejected
  else
    let contentLen : Int := editor.content.length
    let length := if addInt position length > contentLen then contentLen - position else length
    if length ≥ MAX_TEXT_SIZE then Outcome.undefined
    else
      let replacedText := (editor.content.drop position.toNat).take length.toNat
      let temp := spliceIn (cutOut editor.content position length) position newText
      if (temp.length : Int) ≥ MAX_TEXT_SIZE then Outcome.undefined
      else
        Outcome.done (clearRedoStack
          { editor with
            undoStack :=
              setTopId (pushOperation editor.undoStack OperationType.OP_REPLACE position
                editor.content newText replacedText now) editor.nextOperationId
            nextOperationId := editor.nextOperationId + 1
            content := temp
            cursorPosition := position + newText.length })

def appendText (editor : TextEditor) (text : List Char) (now : Int) : Option TextEditor :=
  insertText editor editor.content.length text now

def clearText (editor : TextEditor) (now : Int) : Option TextEditor :=
  if editor.content.length = 0 then none
  else
    some (clearRedoStack
      { editor with
        undoStack :=
          setTopId (pushOperation editor.undoStack OperationType.OP_CLEAR 0
            editor.content [] editor.content now) editor.nextOperationId
        nextOperationId := editor.nextOperationId + 1
        content := []
        cursorPosition := 0 })

/-- The `switch` of `undoOperation`: the operation pushed onto the redo stack.
-/
def pushReverse (redoStack : UndoStack) (op : Operation) (currentContent : List Char)
    (now : Int) : UndoStack :=
  match op.type with
  | OperationType.OP_INSERT =>
    pushOperation redoStack OperationType.OP_INSERT op.position currentContent op.newText [] now
  | OperationType.OP_DELETE =>
    pushOperation redoStack OperationType.OP_DELETE op.position currentContent []
      op.deletedText now
  | OperationType.OP_REPLACE =>
    pushOperation redoStack OperationType.OP_REPLACE op.position currentContent
      op.deletedText op.newText now
  | OperationType.OP_CLEAR =>
    pushOperation redoStack OperationType.OP_CLEAR 0 currentContent [] op.deletedText now
  | OperationType.OP_APPEND =>
    pushOperation redoStack OperationType.OP_APPEND op.position currentContent op.newText [] now

def undoOperation (editor : TextEditor) (now : Int) : Option TextEditor :=
  match popOperation editor.undoStack with
  | (none, _) => none
  | (some op, popped) =>
    some
      { editor with
        undoStack := popped
        redoStack := setTopId (pushReverse editor.redoStack op editor.content now) op.operationId
        content := op.originalText
        cursorPosition := op.position }

/-- `redoOperation`: its `switch` has the cases `OP_INSERT`, `OP_DELETE` and
`OP_CLEAR`; for the other types the operation is popped and nothing else
happens. -/
def redoOperation (editor : TextEditor) (now : Int) : Option TextEditor :=
  match popOperation editor.redoStack with
  | (none, _) => none
  | (some op, popped) =>
    match op.type with
    | OperationType.OP_INSERT =>
      some
        { editor with
          redoStack := popped
          undoStack :=
            setTopId (pushOperation editor.undoStack OperationType.OP_INSERT op.position
              editor.content op.newText [] now) op.operationId
          content := spliceIn editor.content op.position op.newText
          cursorPosition := op.position + op.newText.length }
    | OperationType.OP_DELETE =>
      some
        { editor with
          redoStack := popped
          undoStack :=
            setTopId (pushOperation editor.undoStack OperationType.OP_DELETE op.position
              editor.content [] op.deletedText now) op.operationId
          content := cutOut editor.content op.position op.deletedText.length
          cursorPosition := op.position }
    | OperationType.OP_CLEAR =>
      some
        { editor with
          redoStack := popped
          undoStack :=
            setTopId (pushOperation editor.undoStack OperationType.OP_CLEAR 0
              editor.content [] editor.content now) op.operationId
          content := []
          cursorPosition := 0 }
    | _ => some { editor with redoStack := popped }

/-- The editor of `demonstrateUndoRedo` after its three insertions: the text is
`Hello World!`. -/
def demoEditor : Option TextEditor :=
  ((insertText createTextEditor 0 "Hello".toList 0).bind
    (fun e => insertText e 5 " World".toList 10)).bind
    (fun e => insertText e 11 "!".toList 20)

/-- The replacement of `demonstrateUndoRedo`: `World` becomes `Universe`. -/
def demoReplaced : Option TextEditor :=
  demoEditor.bind (fun e => (replaceText e 6 5 "Universe".toList 30).result)

/-- The replacement undone. -/
def demoUndone : Option TextEditor :=
  demoReplaced.bind (fun e => undoOperation e 40)

/-- The replacement undone and redone. -/
def demoRedone : Option TextEditor :=
  demoUndone.bind (fun e => redoOperation e 50)

/-- The editor after one insertion of 600 letters `a`. -/
def longEditor : Option TextEditor :=
  insertText createTextEditor 0 (List.replicate 600 'a') 0

end UndoOperation

/-!
# Car identification tree (`src/car_tree.c`)

A pointer to a node is the subtree it points to, `NULL` the empty tree. Names
are ASCII strings that fit their buffers; `strcmp` gives the sign of the
comparison of the first characters that differ, the end of a string being
below every character.
-/

namespace CarDatabase

/-- The comparison loop of `strcmp` on the characters of two strings: -1, 0 or
1. -/
def compareChars : List Char → List Char → Int
  | [], [] => 0
  | [], _ :: _ => -1
  | _ :: _, [] => 1
  | x :: xs, y :: ys => if x < y then -1 else if y < x then 1 else compareChars xs ys

/-- The sign of the C `strcmp`. -/
def strcmp (a b : String) : Int :=
  compareChars a.toList b.toList

/-- The data fields of the C `struct CarNode`. -/
structure Car where
  carName : String
  manufacturer : String
  carType : String
  year : Int
  engineType : String
  deriving DecidableEq, Repr

/-- The C `struct CarNode` with its two links, `null` for `NULL`. -/
inductive CarNode where
  | null : CarNode
  | node (car : Car) (left right : CarNode) : CarNode
  deriving DecidableEq, Repr

/-- The C `struct CarTree`. -/
structure CarTree where
  root : CarNode
  totalCars : Int
  deriving DecidableEq, Repr

def createCarNode (name manufacturer type : String) (year : Int) (engine : String) : CarNode :=
  CarNode.node
    { carName := name
      manufacturer := manufacturer
      carType := type
      year := year
      engineType := engine }
    CarNode.null CarNode.null

def createCarTree : CarTree :=
  { root := CarNode.null
    totalCars := 0 }

def insertCar : CarNode → String → String → String → Int → String → CarNode
  | CarNode.null, name, manufacturer, type, year, engine =>
    createCarNode name manufacturer type year engine
  | CarNode.node car left right, name, manufacturer, type, year, engine =>
    if strcmp name car.carName < 0 then
      CarNode.node car (insertCar left name manufacturer type year engine) right
    else if strcmp name car.carName > 0 then
      CarNode.node car left (insertCar right name manufacturer type year engine)
    else
      CarNode.node
        { car with
          manufacturer := manufacturer
          carType := type
          year := year
          engineType := engine }
        left right

def searchCar : CarNode → String → CarNode
  | CarNode.null, _ => CarNode.null
  | CarNode.node car left right, name =>
    if strcmp name car.carName = 0 then CarNode.node car left right
    else if strcmp name car.carName < 0 then searchCar left name
    else searchCar right name

def addCar (tree : CarTree) (name manufacturer type : String) (year : Int) (engine : String) :
    CarTree :=
  { root := insertCar tree.root name manufacturer type year engine
    totalCars :=
      if searchCar tree.root name = CarNode.null then tree.totalCars + 1 else tree.totalCars }

/-- `displayAllCars`: the cars in the order of the in-order traversal that
prints them. -/
def displayAllCars : CarNode → List Car
  | CarNode.null => []
  | CarNode.node car left right => displayAllCars left ++ car :: displayAllCars right

def findMin : CarNode → CarNode
  | CarNode.null => CarNode.null
  | CarNode.node car left right =>
    match left with
    | CarNode.null => CarNode.node car CarNode.null right
    | CarNode.node _ _ _ => findMin left

def deleteCar : CarNode → String → CarNode
  | CarNode.null, _ => CarNode.null
  | CarNode.node car left right, name =>
    if strcmp name car.carName < 0 then CarNode.node car (deleteCar left name) right
    else if strcmp name car.carName > 0 then CarNode.node car left (deleteCar right name)
    else
      match left, right with
      | CarNode.null, _ => right
      | _, CarNode.null => left
      | _, _ =>
        match findMin right with
        | CarNode.node temp _ _ => CarNode.node temp left (deleteCar right temp.carName)
        | CarNode.null => CarNode.node car left right

/-- One request to the database: a call of `addCar`, or a call of `deleteCar`
on the root. -/
inductive Request where
  | add (name manufacturer type : String) (year : Int) (engine : String) : Request
  | delete (name : String) : Request
  deriving DecidableEq, Repr

/-- The tree after one request; a deletion keeps the count as `main` does. -/
def serve (tree : CarTree) : Request → CarTree
  | Request.add name manufacturer type year engine =>
    addCar tree name manufacturer type year engine
  | Request.delete name =>
    { root := deleteCar tree.root name
      totalCars :=
        if searchCar tree.root name = CarNode.null then tree.totalCars
        else tree.totalCars - 1 }

/-- The tree after a sequence of requests, from the empty tree. -/
def serveAll (requests : List Request) : CarTree :=
  requests.foldl serve createCarTree

/-- The name was added by one of the requests and not deleted since. -/
def present (name : String) (requests : List Request) : Bool :=
  requests.foldl
    (fun (found : Bool) (request : Request) =>
      match request with
      | Request.add added _ _ _ _ => if added = name then true else found
      | Request.delete deleted => if deleted = name then false else found)
    false

/-- The car names of a tree in in-order. -/
def names (root : CarNode) : List String :=
  (displayAllCars root).map (fun car => car.carName)

/-- The search-tree property: at every node the names on the left are below the
node's name and the names on the right are above it. -/
def IsSearchTree : CarNode → Prop
  | CarNode.null => True
  | CarNode.node car left right =>
    IsSearchTree left ∧ IsSearchTree right ∧
      (∀ name ∈ names left, strcmp name car.carName < 0) ∧
      (∀ name ∈ names right, strcmp car.carName name < 0)

/-- Six cars of `populateSampleData`, then `Corolla` deleted (a node with two
children at that point) and `Camry` added again with other data. -/
def sampleRequests : List Request :=
  [ Request.add "Camry" "Toyota" "Sedan" 2023 "Hybrid",
    Request.add "Corolla" "Toyota" "Sedan" 2023 "Gasoline",
    Request.add "Prius" "Toyota" "Hybrid" 2023 "Hybrid",
    Request.add "RAV4" "Toyota" "SUV" 2023 "Gasoline",
    Request.add "Highlander" "Toyota" "SUV" 2023 "Hybrid",
    Request.add "Civic" "Honda" "Sedan" 2023 "Gasoline",
    Request.delete "Corolla",
    Request.add "Camry" "Toyota" "Sedan" 2024 "Gasoline" ]

end CarDatabase

namespace ReservationCounter

variable {F : Type}

/-! ## The queue as a list: insertion -/

theorem scanInsert_split (priority : Int) (newReservation : Reservation F)
    (l : List (Reservation F)) :
    ∃ pre post, l = pre ++ post ∧
      scanInsert priority newReservation l = pre ++ newReservation :: post ∧
      (∀ x ∈ pre, priority ≤ x.priority) ∧
      (∀ y, post.head? = some y → y.priority < priority) := by
  induction l with
  | nil => exact ⟨[], [], rfl, rfl, by simp, by simp⟩
  | cons current rest ih =>
    by_cases h : current.priority ≥ priority
    · obtain ⟨pre, post, h1, h2, h3, h4⟩ := ih
      refine ⟨current :: pre, post, by simp [h1], by simp [scanInsert, h, h2], ?_, h4⟩
      intro x hx
      rcases List.mem_cons.1 hx with rfl | hx
      · exact h
      · exact h3 x hx
    · refine ⟨[], current :: rest, rfl, by simp [scanInsert, h], by simp, ?_⟩
      intro y hy
      simp only [List.head?_cons, Option.some.injEq] at hy
      subst hy
      exact not_le.1 h

theorem insertByPriority_split (priority : Int) (newReservation : Reservation F)
    (l : List (Reservation F)) :
    ∃ pre post, l = pre ++ post ∧
      insertByPriority priority newReservation l = pre ++ newReservation :: post ∧
      ((priority = PRIORITY_EMERGENCY ∧ pre = []) ∨
        (priority ≠ PRIORITY_EMERGENCY ∧ (∀ x ∈ pre, priority ≤ x.priority) ∧
          (∀ y, post.head? = some y → y.priority < priority))) := by
  cases l with
  | nil =>
    by_cases hp : priority = PRIORITY_EMERGENCY
    · exact ⟨[], [], rfl, rfl, Or.inl ⟨hp, rfl⟩⟩
    · exact ⟨[], [], rfl, rfl, Or.inr ⟨hp, by simp, by simp⟩⟩
  | cons front rest =>
    by_cases hp : priority = PRIORITY_EMERGENCY
    · exact ⟨[], front :: rest, rfl, by simp [insertByPriority, hp], Or.inl ⟨hp, rfl⟩⟩
    · by_cases hv : priority = PRIORITY_VIP ∧ front.priority < PRIORITY_VIP
      · refine ⟨[], front :: rest, rfl, by simp [insertByPriority, hv], Or.inr ⟨hp, by simp, ?_⟩⟩
        intro y hy
        simp only [List.head?_cons, Option.some.injEq] at hy
        subst hy
        rw [hv.1]
        exact hv.2
      · obtain ⟨pre, post, h1, h2, h3, h4⟩ :=
          scanInsert_split priority newReservation (front :: rest)
        refine ⟨pre, post, h1, ?_, Or.inr ⟨hp, h3, h4⟩⟩
        rw [← h2]
        simp only [insertByPriority]
        rw [if_neg]
        rintro (h | h)
        · exact hp h
        · exact hv h

theorem insertByPriority_length (priority : Int) (newReservation : Reservation F)
    (l : List (Reservation F)) :
    (insertByPriority priority newReservation l).length = l.length + 1 := by
  obtain ⟨pre, post, h1, h2, -⟩ := insertByPriority_split priority newReservation l
  rw [h2, h1]
  simp only [List.length_append, List.length_cons]
  omega

theorem insertByPriority_perm (priority : Int) (newReservation : Reservation F)
    (l : List (Reservation F)) :
    (insertByPriority priority newReservation l).Perm (newReservation :: l) := by
  obtain ⟨pre, post, h1, h2, -⟩ := insertByPriority_split priority newReservation l
  rw [h2, h1]
  exact List.perm_middle

/-- In a list sorted by non-increasing priority whose head is below `p`,
every element is below `p`. -/
theorem below_of_head_below {post : List (Reservation F)} {p : Int}
    (hs : post.Pairwise (fun a b => a.priority ≥ b.priority))
    (hh : ∀ y, post.head? = some y → y.priority < p) :
    ∀ y ∈ post, y.priority < p := by
  cases post with
  | nil => simp
  | cons h t =>
    have hlt : h.priority < p := hh h rfl
    intro y hy
    rcases List.mem_cons.1 hy with rfl | hy
    · exact hlt
    · have := (List.pairwise_cons.1 hs).1 y hy
      omega

theorem insertByPriority_sorted (priority : Int) (newReservation : Reservation F)
    (l : List (Reservation F)) (hnew : newReservation.priority = priority)
    (hmax : ∀ r ∈ l, r.priority ≤ PRIORITY_EMERGENCY)
    (hs : l.Pairwise (fun a b => a.priority ≥ b.priority)) :
    (insertByPriority priority newReservation l).Pairwise
      (fun a b => a.priority ≥ b.priority) := by
  obtain ⟨pre, post, h1, h2, h3⟩ := insertByPriority_split priority newReservation l
  subst h1
  rw [h2]
  obtain ⟨hpre, hpost, hcross⟩ := List.pairwise_append.1 hs
  rcases h3 with ⟨hp, hnil⟩ | ⟨-, hge, hlt⟩
  · subst hnil
    simp only [List.nil_append, List.pairwise_cons]
    refine ⟨fun y hy => ?_, hpost⟩
    have := hmax y (by simpa using hy)
    omega
  · have hbelow := below_of_head_below hpost hlt
    refine List.pairwise_append.2 ⟨hpre, List.pairwise_cons.2 ⟨fun y hy => ?_, hpost⟩, ?_⟩
    · have := hbelow y hy
      omega
    · intro x hx y hy
      rcases List.mem_cons.1 hy with rfl | hy
      · have := hge x hx
        omega
      · exact hcross x hx y hy

theorem insertByPriority_stable (priority : Int) (newReservation : Reservation F)
    (l : List (Reservation F)) (hnew : newReservation.priority = priority)
    (hfresh : ∀ r ∈ l, r.reservationId < newReservation.reservationId)
    (hs : l.Pairwise (fun a b => a.priority ≥ b.priority))
    (hst : l.Pairwise StableRel) :
    (insertByPriority priority newReservation l).Pairwise StableRel := by
  obtain ⟨pre, post, h1, h2, h3⟩ := insertByPriority_split priority newReservation l
  subst h1
  rw [h2]
  obtain ⟨hpre, hpost, hcross⟩ := List.pairwise_append.1 hst
  obtain ⟨-, hspost, -⟩ := List.pairwise_append.1 hs
  rcases h3 with ⟨hp, hnil⟩ | ⟨hp, hge, hlt⟩
  · subst hnil
    simp only [List.nil_append, List.pairwise_cons]
    refine ⟨fun y hy => ?_, hpost⟩
    intro _
    rw [if_pos (by rw [hnew]; exact hp)]
    exact hfresh y (by simpa using hy)
  · have hbelow := below_of_head_below hspost hlt
    refine List.pairwise_append.2 ⟨hpre, List.pairwise_cons.2 ⟨fun y hy => ?_, hpost⟩, ?_⟩
    · intro heq
      have := hbelow y hy
      omega
    · intro x hx y hy
      rcases List.mem_cons.1 hy with rfl | hy
      · intro heq
        rw [if_neg (by rw [heq, hnew]; exact hp)]
        exact hfresh x (List.mem_append_left _ hx)
      · exact hcross x hx y hy

/-! ## The operations, case by case -/

theorem addReservation_full [FloatArith F] (queue : ReservationQueue F)
    (customerName email phone : String) (type : Int) (eventName location dateTime : String)
    (numTickets : Int) (amount : F) (priority : Int) (now : Int)
    (h : MAX_QUEUE_SIZE ≤ queue.size) :
    addReservation queue customerName email phone type eventName location dateTime
      numTickets amount priority now = (none, queue) := by
  simp [addReservation, isReservationQueueFull, h]

theorem addReservation_ok [FloatArith F] (queue : ReservationQueue F)
    (customerName email phone : String) (type : Int) (eventName location dateTime : String)
    (numTickets : Int) (amount : F) (priority : Int) (now : Int)
    (h : queue.size < MAX_QUEUE_SIZE) :
    addReservation queue customerName email phone type eventName location dateTime
        numTickets amount priority now =
      (some (newReservation queue customerName email phone type eventName location dateTime
          numTickets amount priority now),
        { queue with
          queue := insertByPriority priority
            (newReservation queue customerName email phone type eventName location dateTime
              numTickets amount priority now) queue.queue
          nextReservationId := queue.nextReservationId + 1
          size := queue.size + 1
          totalReservations := queue.totalReservations + 1 }) := by
  have hnf : ¬ (queue.size ≥ MAX_QUEUE_SIZE) := not_le.2 h
  simp [addReservation, isReservationQueueFull, hnf]

theorem findSpecialized_lt (specialization : Int) (l : List (Reservation F)) (i : Nat)
    (h : findSpecialized specialization l = some i) : i < l.length := by
  induction l generalizing i with
  | nil => simp [findSpecialized] at h
  | cons current rest ih =>
    by_cases hc : current.type = specialization
    · simp [findSpecialized, hc] at h
      subst h
      simp
    · cases hf : findSpecialized specialization rest with
      | none => simp [findSpecialized, hc, hf] at h
      | some j =>
        simp only [findSpecialized, hc, if_false, hf, Option.map_some', Option.some.injEq] at h
        have := ih j hf
        simp only [List.length_cons]
        omega

theorem chosenIndex_lt (specialization : Int) (l : List (Reservation F)) (h : l ≠ []) :
    chosenIndex specialization l < l.length := by
  have hpos : 0 < l.length := List.length_pos.2 h
  unfold chosenIndex
  by_cases hs : specialization ≠ 0
  · rw [if_pos hs]
    cases hf : findSpecialized specialization l with
    | none => simpa using hpos
    | some i => simpa using findSpecialized_lt specialization l i hf
  · rw [if_neg hs]
    simpa using hpos

theorem processNextReservation_cases (queue : ReservationQueue F) (counterId now : Int) :
    (processNextReservation queue counterId now = (none, queue) ∧
      (queue.queue = [] ∨ counterId < 1 ∨ counterId > queue.counterCount ∨
        ∃ counter, queue.counters[(counterId - 1).toNat]? = some counter ∧
          (counter.isActive = 0 ∨ counter.currentReservation ≠ none))) ∨
    ∃ counter reservation,
      queue.queue ≠ [] ∧ 1 ≤ counterId ∧ counterId ≤ queue.counterCount ∧
      queue.counters[(counterId - 1).toNat]? = some counter ∧
      counter.isActive ≠ 0 ∧ counter.currentReservation = none ∧
      queue.queue[chosenIndex counter.specialization queue.queue]? = some reservation ∧
      processNextReservation queue counterId now =
        (some { reservation with processTime := now },
          { queue with
            queue := queue.queue.eraseIdx (chosenIndex counter.specialization queue.queue)
            size := queue.size - 1
            counters := queue.counters.set (counterId - 1).toNat
              { counter with
                currentReservation := some { reservation with processTime := now } } }) := by
  by_cases he : queue.queue = []
  · left
    exact ⟨by simp [processNextReservation, isReservationQueueEmpty, he], Or.inl he⟩
  by_cases hid : counterId < 1 ∨ counterId > queue.counterCount
  · left
    refine ⟨by simp [processNextReservation, isReservationQueueEmpty, he, hid], ?_⟩
    rcases hid with h | h
    · exact Or.inr (Or.inl h)
    · exact Or.inr (Or.inr (Or.inl h))
  have hid1 : 1 ≤ counterId := by omega
  have hid2 : counterId ≤ queue.counterCount := by omega
  have hlt : (counterId - 1).toNat < queue.counters.length := by
    unfold ReservationQueue.counterCount at hid2
    omega
  obtain ⟨counter, hc⟩ : ∃ counter, queue.counters[(counterId - 1).toNat]? = some counter :=
    ⟨_, List.getElem?_eq_getElem hlt⟩
  by_cases hact : counter.isActive = 0
  · left
    exact ⟨by simp only [processNextReservation, isReservationQueueEmpty, List.isEmpty_eq_true,
      he, hid, hc, hact, if_false, if_true], Or.inr (Or.inr (Or.inr ⟨counter, hc, Or.inl hact⟩))⟩
  cases hcur : counter.currentReservation with
  | some r =>
    left
    exact ⟨by simp only [processNextReservation, isReservationQueueEmpty, List.isEmpty_eq_true,
      he, hid, hc, hact, hcur, Option.isSome_some, if_false, if_true], Or.inr (Or.inr (Or.inr ⟨counter, hc, Or.inr (by simp [hcur])⟩))⟩
  | none =>
    right
    have hidx := chosenIndex_lt counter.specialization queue.queue he
    obtain ⟨reservation, hr⟩ :
        ∃ reservation, queue.queue[chosenIndex counter.specialization queue.queue]? =
          some reservation := ⟨_, List.getElem?_eq_getElem hidx⟩
    refine ⟨counter, reservation, he, hid1, hid2, hc, hact, hcur, hr, ?_⟩
    unfold chosenIndex at hr
    simp only [processNextReservation, isReservationQueueEmpty, List.isEmpty_eq_true, he, hid,
      hc, hact, hcur, Option.isSome_none, if_false, Bool.false_eq_true, hr, chosenIndex]

theorem confirmReservation_cases [FloatArith F] (queue : ReservationQueue F)
    (counterId now : Int) :
    (confirmReservation queue counterId now = queue ∧
      (counterId < 1 ∨ counterId > queue.counterCount ∨
        ∃ counter, queue.counters[(counterId - 1).toNat]? = some counter ∧
          counter.currentReservation = none)) ∨
    ∃ counter reservation,
      1 ≤ counterId ∧ counterId ≤ queue.counterCount ∧
      queue.counters[(counterId - 1).toNat]? = some counter ∧
      counter.currentReservation = some reservation ∧
      confirmReservation queue counterId now =
        { queue with
          totalConfirmed := queue.totalConfirmed + 1
          totalRevenue := queue.totalRevenue + reservation.totalAmount
          counters := queue.counters.set (counterId - 1).toNat
            { counter with
              totalProcessed := counter.totalProcessed + 1
              avgProcessingTime :=
                (counter.avgProcessingTime * FloatArith.ofInt (counter.totalProcessed + 1 - 1) +
                    FloatArith.ofInt (now - reservation.processTime) / FloatArith.ofInt 60) /
                  FloatArith.ofInt (counter.totalProcessed + 1)
              currentReservation := none } } := by
  by_cases hid : counterId < 1 ∨ counterId > queue.counterCount
  · left
    refine ⟨by simp only [confirmReservation, hid, if_true], ?_⟩
    rcases hid with h | h
    · exact Or.inl h
    · exact Or.inr (Or.inl h)
  have hid1 : 1 ≤ counterId := by omega
  have hid2 : counterId ≤ queue.counterCount := by omega
  have hlt : (counterId - 1).toNat < queue.counters.length := by
    unfold ReservationQueue.counterCount at hid2
    omega
  obtain ⟨counter, hc⟩ : ∃ counter, queue.counters[(counterId - 1).toNat]? = some counter :=
    ⟨_, List.getElem?_eq_getElem hlt⟩
  cases hcur : counter.currentReservation with
  | none =>
    left
    exact ⟨by simp only [confirmReservation, hid, hc, hcur, if_false],
      Or.inr (Or.inr ⟨counter, hc, hcur⟩)⟩
  | some reservation =>
    right
    exact ⟨counter, reservation, hid1, hid2, hc, hcur,
      by simp only [confirmReservation, hid, hc, hcur, if_false]⟩

theorem cancelReservation_cases (queue : ReservationQueue F) (counterId : Int) :
    (cancelReservation queue counterId = queue ∧
      (counterId < 1 ∨ counterId > queue.counterCount ∨
        ∃ counter, queue.counters[(counterId - 1).toNat]? = some counter ∧
          counter.currentReservation = none)) ∨
    ∃ counter reservation,
      1 ≤ counterId ∧ counterId ≤ queue.counterCount ∧
      queue.counters[(counterId - 1).toNat]? = some counter ∧
      counter.currentReservation = some reservation ∧
      cancelReservation queue counterId =
        { queue with
          totalCancelled := queue.totalCancelled + 1
          counters := queue.counters.set (counterId - 1).toNat
            { counter with
              totalProcessed := counter.totalProcessed + 1
              currentReservation := none } } := by
  by_cases hid : counterId < 1 ∨ counterId > queue.counterCount
  · left
    refine ⟨by simp only [cancelReservation, hid, if_true], ?_⟩
    rcases hid with h | h
    · exact Or.inl h
    · exact Or.inr (Or.inl h)
  have hid1 : 1 ≤ counterId := by omega
  have hid2 : counterId ≤ queue.counterCount := by omega
  have hlt : (counterId - 1).toNat < queue.counters.length := by
    unfold ReservationQueue.counterCount at hid2
    omega
  obtain ⟨counter, hc⟩ : ∃ counter, queue.counters[(counterId - 1).toNat]? = some counter :=
    ⟨_, List.getElem?_eq_getElem hlt⟩
  cases hcur : counter.currentReservation with
  | none =>
    left
    exact ⟨by simp only [cancelReservation, hid, hc, hcur, if_false],
      Or.inr (Or.inr ⟨counter, hc, hcur⟩)⟩
  | some reservation =>
    right
    exact ⟨counter, reservation, hid1, hid2, hc, hcur,
      by simp only [cancelReservation, hid, hc, hcur, if_false]⟩

/-! ## Lists: replacing and unlinking one position -/

theorem getElem?_split {α : Type} {l : List α} {i : Nat} {c : α} (h : l[i]? = some c) :
    ∃ l₁ l₂, l = l₁ ++ c :: l₂ ∧ l₁.length = i ∧
      (∀ c', l.set i c' = l₁ ++ c' :: l₂) ∧ l.eraseIdx i = l₁ ++ l₂ := by
  induction l generalizing i with
  | nil => simp at h
  | cons a t ih =>
    cases i with
    | zero =>
      simp only [List.getElem?_cons_zero, Option.some.injEq] at h
      subst h
      exact ⟨[], t, rfl, rfl, fun _ => rfl, rfl⟩
    | succ j =>
      simp only [List.getElem?_cons_succ] at h
      obtain ⟨l₁, l₂, h1, h2, h3, h4⟩ := ih h
      refine ⟨a :: l₁, l₂, by simp [h1], by simp [h2], fun c' => ?_, ?_⟩
      · simp only [List.set_cons_succ, h3 c', List.cons_append]
      · simp only [List.eraseIdx_cons_succ, h4, List.cons_append]

/-! ## Reachable states satisfy the invariant -/

theorem inv_create [FloatArith F] : Inv (createReservationQueue : ReservationQueue F) where
  size_eq := rfl
  prio_le := by simp [createReservationQueue]
  sorted := by simp [createReservationQueue]
  stable := by simp [createReservationQueue]
  fresh := by simp [createReservationQueue, queueIds, counterIds]
  nodup := by simp [createReservationQueue, queueIds, counterIds]
  conserve := by simp [createReservationQueue, busyCount]

theorem inv_addCounter [FloatArith F] (queue : ReservationQueue F)
    (counterName operatorName : String) (specialization : Int) (h : Inv queue) :
    Inv (addCounter queue counterName operatorName specialization) := by
  unfold addCounter
  split
  · exact h
  · exact
      { size_eq := h.size_eq
        prio_le := h.prio_le
        sorted := h.sorted
        stable := h.stable
        fresh := by simpa [queueIds, counterIds, List.filterMap_append] using h.fresh
        nodup := by simpa [queueIds, counterIds, List.filterMap_append] using h.nodup
        conserve := by simpa [busyCount, List.filter_append] using h.conserve }

theorem inv_addReservation [FloatArith F] (queue : ReservationQueue F)
    (customerName email phone : String) (type : Int) (eventName location dateTime : String)
    (numTickets : Int) (amount : F) (priority : Int) (now : Int)
    (hp : priority ≤ PRIORITY_EMERGENCY) (h : Inv queue) :
    Inv (addReservation queue customerName email phone type eventName location dateTime
      numTickets amount priority now).2 := by
  by_cases hfull : MAX_QUEUE_SIZE ≤ queue.size
  · rw [addReservation_full _ _ _ _ _ _ _ _ _ _ _ _ hfull]
    exact h
  rw [addReservation_ok _ _ _ _ _ _ _ _ _ _ _ _ (not_le.1 hfull)]
  set node := newReservation queue customerName email phone type eventName location dateTime
    numTickets amount priority now with hnode
  have hprio : node.priority = priority := rfl
  have hid : node.reservationId = queue.nextReservationId := rfl
  have hperm := insertByPriority_perm priority node queue.queue
  have hfreshq : ∀ r ∈ queue.queue, r.reservationId < node.reservationId := by
    intro r hr
    rw [hid]
    apply h.fresh
    simp only [queueIds, List.mem_append, List.mem_map]
    exact Or.inl ⟨r, hr, rfl⟩
  have hids : (queueIds { queue with
      queue := insertByPriority priority node queue.queue
      nextReservationId := queue.nextReservationId + 1
      size := queue.size + 1
      totalReservations := queue.totalReservations + 1 }).Perm
      (queue.nextReservationId :: queueIds queue) := by
    simpa [queueIds, hid] using hperm.map (fun r => r.reservationId)
  exact
    { size_eq := by
        simp only [insertByPriority_length, h.size_eq]
        push_cast
        rfl
      prio_le := by
        intro r hr
        rcases List.mem_cons.1 (hperm.mem_iff.1 hr) with rfl | hr
        · rw [hprio]; exact hp
        · exact h.prio_le r hr
      sorted := insertByPriority_sorted priority node queue.queue hprio h.prio_le h.sorted
      stable := insertByPriority_stable priority node queue.queue hprio hfreshq h.sorted h.stable
      fresh := by
        intro i hi
        have hi' : i = queue.nextReservationId ∨ i ∈ queueIds queue ++ counterIds queue := by
          rcases List.mem_append.1 hi with hi | hi
          · rcases List.mem_cons.1 (hids.mem_iff.1 hi) with hi | hi
            · exact Or.inl hi
            · exact Or.inr (List.mem_append_left _ hi)
          · exact Or.inr (List.mem_append_right _ hi)
        rcases hi' with rfl | hi'
        · simp
        · have := h.fresh i hi'
          simp only
          omega
      nodup := by
        have hp2 : (queueIds { queue with
            queue := insertByPriority priority node queue.queue
            nextReservationId := queue.nextReservationId + 1
            size := queue.size + 1
            totalReservations := queue.totalReservations + 1 } ++ counterIds queue).Perm
            (queue.nextReservationId :: (queueIds queue ++ counterIds queue)) :=
          (hids.append_right _)
        refine hp2.nodup_iff.2 (List.nodup_cons.2 ⟨fun hmem => ?_, h.nodup⟩)
        exact lt_irrefl _ (h.fresh _ hmem)
      conserve := by
        have := h.conserve
        simp only [busyCount] at this ⊢
        omega }

theorem inv_processNextReservation (queue : ReservationQueue F) (counterId now : Int)
    (h : Inv queue) : Inv (processNextReservation queue counterId now).2 := by
  rcases processNextReservation_cases queue counterId now with
    ⟨hfail, -⟩ | ⟨counter, reservation, -, -, -, hc, -, hcur, hr, hok⟩
  · rw [hfail]
    exact h
  rw [hok]
  obtain ⟨l₁, l₂, hq, -, -, hq'⟩ := getElem?_split hr
  obtain ⟨c₁, c₂, hcs, -, hcs', -⟩ := getElem?_split hc
  have hsub : (queue.queue.eraseIdx (chosenIndex counter.specialization queue.queue)).Sublist
      queue.queue := List.eraseIdx_sublist _ _
  have hperm : (queueIds { queue with
      queue := queue.queue.eraseIdx (chosenIndex counter.specialization queue.queue)
      size := queue.size - 1
      counters := queue.counters.set (counterId - 1).toNat
        { counter with currentReservation := some { reservation with processTime := now } } } ++
      counterIds { queue with
      queue := queue.queue.eraseIdx (chosenIndex counter.specialization queue.queue)
      size := queue.size - 1
      counters := queue.counters.set (counterId - 1).toNat
        { counter with currentReservation := some { reservation with processTime := now } } }).Perm
      (queueIds queue ++ counterIds queue) := by
    simp only [queueIds, counterIds, hq', hcs' _]
    rw [hq, hcs]
    simp only [List.map_append, List.map_cons, List.filterMap_append, List.filterMap_cons, hcur,
      List.append_assoc]
    refine List.Perm.append_left _ ?_
    rw [← List.append_assoc (List.map _ l₂)]
    refine List.perm_middle.trans ?_
    simp only [List.cons_append, List.append_assoc, List.Perm.refl]
  exact
    { size_eq := by
        have := h.size_eq
        simp only [hq']
        rw [hq] at this
        simp only [List.length_append, List.length_cons] at this ⊢
        push_cast at this ⊢
        omega
      prio_le := fun r hr => h.prio_le r (hsub.subset hr)
      sorted := h.sorted.sublist hsub
      stable := h.stable.sublist hsub
      fresh := fun i hi => h.fresh i (hperm.mem_iff.1 hi)
      nodup := hperm.nodup_iff.2 h.nodup
      conserve := by
        have := h.conserve
        simp only [busyCount, hcs' _] at this ⊢
        rw [hcs] at this
        simp only [List.filter_append, List.filter_cons, hcur, Option.isSome_none,
          Option.isSome_some, if_true, List.length_append, List.length_cons,
          Bool.false_eq_true, if_false] at this ⊢
        push_cast at this ⊢
        omega }

/-- Releasing a busy counter: the reservations held at counters lose one member
and the number of busy counters drops by one. -/
theorem release_counter (cs : List (Counter F)) (i : Nat) (counter released : Counter F)
    (reservation : Reservation F) (hc : cs[i]? = some counter)
    (hcur : counter.currentReservation = some reservation)
    (hrel : released.currentReservation = none) :
    (((cs.set i released).filterMap (fun c => c.currentReservation)).map
        (fun r => r.reservationId)).Sublist
      ((cs.filterMap (fun c => c.currentReservation)).map (fun r => r.reservationId)) ∧
    (((cs.set i released).filter (fun c => c.currentReservation.isSome)).length : Int) + 1 =
      ((cs.filter (fun c => c.currentReservation.isSome)).length : Int) := by
  obtain ⟨c₁, c₂, hcs, -, hcs', -⟩ := getElem?_split hc
  rw [hcs' released]
  rw [hcs]
  constructor
  · simp only [List.filterMap_append, List.filterMap_cons, hcur, hrel, List.map_append,
      List.map_cons]
    exact List.Sublist.append_left (List.sublist_cons_self _ _) _
  · simp only [List.filter_append, List.filter_cons, hcur, hrel, Option.isSome_none,
      Option.isSome_some, if_true, List.length_append, List.length_cons,
      Bool.false_eq_true, if_false]
    push_cast
    omega

/-- A state that differs from a state satisfying the invariant only in the
totals and in one busy counter being released satisfies it again. -/
theorem inv_release (queue after : ReservationQueue F) (i : Nat)
    (counter released : Counter F) (reservation : Reservation F) (h : Inv queue)
    (hc : queue.counters[i]? = some counter)
    (hcur : counter.currentReservation = some reservation)
    (hrel : released.currentReservation = none)
    (hqueue : after.queue = queue.queue) (hsize : after.size = queue.size)
    (hnext : after.nextReservationId = queue.nextReservationId)
    (hcounters : after.counters = queue.counters.set i released)
    (htotal : after.totalReservations = queue.totalReservations)
    (hsum : after.totalConfirmed + after.totalCancelled =
      queue.totalConfirmed + queue.totalCancelled + 1) : Inv after := by
  obtain ⟨hsub, hbusy⟩ := release_counter queue.counters i counter released reservation hc hcur hrel
  have hsub' : (queueIds after ++ counterIds after).Sublist (queueIds queue ++ counterIds queue) := by
    simp only [queueIds, counterIds, hqueue, hcounters]
    exact List.Sublist.append_left hsub _
  exact
    { size_eq := by rw [hsize, hqueue]; exact h.size_eq
      prio_le := by rw [hqueue]; exact h.prio_le
      sorted := by rw [hqueue]; exact h.sorted
      stable := by rw [hqueue]; exact h.stable
      fresh := fun j hj => by rw [hnext]; exact h.fresh j (hsub'.subset hj)
      nodup := h.nodup.sublist hsub'
      conserve := by
        have := h.conserve
        simp only [busyCount, hcounters, hsize, htotal] at this ⊢
        omega }

theorem inv_confirmReservation [FloatArith F] (queue : ReservationQueue F)
    (counterId now : Int) (h : Inv queue) : Inv (confirmReservation queue counterId now) := by
  rcases confirmReservation_cases queue counterId now with
    ⟨hfail, -⟩ | ⟨counter, reservation, -, -, hc, hcur, hok⟩
  · rw [hfail]
    exact h
  rw [hok]
  exact inv_release queue _ _ counter _ reservation h hc hcur rfl rfl rfl rfl rfl rfl
    (by simp only; omega)

theorem inv_cancelReservation (queue : ReservationQueue F) (counterId : Int) (h : Inv queue) :
    Inv (cancelReservation queue counterId) := by
  rcases cancelReservation_cases queue counterId with
    ⟨hfail, -⟩ | ⟨counter, reservation, -, -, hc, hcur, hok⟩
  · rw [hfail]
    exact h
  rw [hok]
  exact inv_release queue _ _ counter _ reservation h hc hcur rfl rfl rfl rfl rfl rfl
    (by simp only; omega)

/-- Every reachable state satisfies the invariant. -/
theorem reachable_inv [FloatArith F] {queue : ReservationQueue F} (h : Reachable queue) :
    Inv queue := by
  induction h with
  | create => exact inv_create
  | addCounter queue counterName operatorName specialization _ ih =>
    exact inv_addCounter queue counterName operatorName specialization ih
  | addReservation queue customerName email phone type eventName location dateTime numTickets
      amount priority now _ hle _ ih =>
    exact inv_addReservation queue customerName email phone type eventName location dateTime
      numTickets amount priority now hle ih
  | processNextReservation queue counterId now _ ih =>
    exact inv_processNextReservation queue counterId now ih
  | confirmReservation queue counterId now _ ih =>
    exact inv_confirmReservation queue counterId now ih
  | cancelReservation queue counterId _ ih => exact inv_cancelReservation queue counterId ih

/-! ## Concrete states are reachable -/

theorem twoCounters_reachable : Reachable twoCounters :=
  Reachable.addCounter _ _ _ _ (Reachable.addCounter _ _ _ _ Reachable.create)

theorem sampleQueue_reachable : Reachable sampleQueue :=
  Reachable.addReservation _ _ _ _ _ _ _ _ _ _ _ _ (by decide) (by decide)
    (Reachable.addReservation _ _ _ _ _ _ _ _ _ _ _ _ (by decide) (by decide)
      (Reachable.addReservation _ _ _ _ _ _ _ _ _ _ _ _ (by decide) (by decide)
        (Reachable.addReservation _ _ _ _ _ _ _ _ _ _ _ _ (by decide) (by decide)
          twoCounters_reachable)))

theorem oneEmergency_reachable : Reachable oneEmergency :=
  Reachable.addReservation _ _ _ _ _ _ _ _ _ _ _ _ (by decide) (by decide) Reachable.create

theorem twoEmergencies_reachable : Reachable twoEmergencies :=
  Reachable.addReservation _ _ _ _ _ _ _ _ _ _ _ _ (by decide) (by decide)
    oneEmergency_reachable

theorem sampleServed_reachable : Reachable sampleServed :=
  Reachable.cancelReservation _ _
    (Reachable.processNextReservation _ _ _
      (Reachable.confirmReservation _ _ _
        (Reachable.processNextReservation _ _ _ sampleQueue_reachable)))

theorem sampleBusy_reachable : Reachable sampleBusy :=
  Reachable.processNextReservation _ _ _
    (Reachable.processNextReservation _ _ _ sampleQueue_reachable)

/-! ## C1: priority order -/

/-- C1. In every state reachable from `createReservationQueue` by `addCounter`,
`addReservation` with a priority in `1..4`, `processNextReservation`,
`confirmReservation` and `cancelReservation`, every adjacent pair `(a, b)` of
queued reservations, front to rear, has `priority a >= priority b`. -/
theorem reachable_priorityOrdered [FloatArith F] (queue : ReservationQueue F)
    (h : Reachable queue) : PriorityOrdered queue.queue :=
  (reachable_inv h).sorted.chain'

theorem reachable_priorityOrdered_witness :
    Reachable sampleQueue ∧ PriorityOrdered sampleQueue.queue :=
  ⟨sampleQueue_reachable, reachable_priorityOrdered sampleQueue sampleQueue_reachable⟩

/-! ## C2: order within one priority -/

/-- C2, counterexample. After two Emergency reservations have been submitted to
the empty queue, the queue holds them newest first: ids `[1002, 1001]`, equal
priority, not in ascending id order. -/
theorem ascendingIds_fails_twoEmergencies :
    Reachable twoEmergencies ∧
      twoEmergencies.queue.map (fun r => (r.reservationId, r.priority)) =
        [(1002, 4), (1001, 4)] ∧
      ¬ AscendingIdsWithinPriority twoEmergencies.queue := by
  refine ⟨twoEmergencies_reachable, by decide, ?_⟩
  unfold AscendingIdsWithinPriority
  decide

/-- C2, amended. In every reachable state, two queued reservations of equal
priority below Emergency are in ascending `reservationId` (submission) order,
front to rear, and two queued Emergency reservations are in descending
`reservationId` order (the newest is nearest the front). -/
theorem reachable_stable [FloatArith F] (queue : ReservationQueue F) (h : Reachable queue) :
    queue.queue.Pairwise (fun a b => a.priority = b.priority →
      if a.priority = PRIORITY_EMERGENCY then b.reservationId < a.reservationId
      else a.reservationId < b.reservationId) :=
  (reachable_inv h).stable

theorem reachable_stable_witness :
    Reachable twoEmergencies ∧
      twoEmergencies.queue.Pairwise (fun a b => a.priority = b.priority →
        if a.priority = PRIORITY_EMERGENCY then b.reservationId < a.reservationId
        else a.reservationId < b.reservationId) :=
  ⟨twoEmergencies_reachable, reachable_stable twoEmergencies twoEmergencies_reachable⟩

/-! ## C6: conservation -/

/-- C6. In every reachable state, `totalReservations = size + (number of
counters whose currentReservation is non-null) + totalConfirmed +
totalCancelled`. -/
theorem reachable_conservation [FloatArith F] (queue : ReservationQueue F)
    (h : Reachable queue) :
    queue.totalReservations =
      queue.size + busyCount queue + queue.totalConfirmed + queue.totalCancelled :=
  (reachable_inv h).conserve

theorem reachable_conservation_witness :
    Reachable sampleServed ∧
      sampleServed.totalReservations =
        sampleServed.size + busyCount sampleServed + sampleServed.totalConfirmed +
          sampleServed.totalCancelled :=
  ⟨sampleServed_reachable, reachable_conservation sampleServed sampleServed_reachable⟩

/-! ## C7: no double assignment -/

/-- C7. In every reachable state each `reservationId` occurs at most once
across the queue and all counters' `currentReservation` taken together. -/
theorem reachable_ids_nodup [FloatArith F] (queue : ReservationQueue F)
    (h : Reachable queue) : (queueIds queue ++ counterIds queue).Nodup :=
  (reachable_inv h).nodup

theorem reachable_ids_nodup_witness :
    Reachable sampleBusy ∧ (queueIds sampleBusy ++ counterIds sampleBusy).Nodup :=
  ⟨sampleBusy_reachable, reachable_ids_nodup sampleBusy sampleBusy_reachable⟩

/-! ## C3: insertion against the general stable-scan rule -/

theorem scanInsert_eq_stableScanInsert (priority : Int) (node : Reservation F)
    (l : List (Reservation F)) (hnode : node.priority = priority) :
    scanInsert priority node l = stableScanInsert node l := by
  induction l with
  | nil => simp [scanInsert, stableScanInsert]
  | cons current rest ih =>
    by_cases h : current.priority ≥ priority
    · have hd : decide (current.priority < node.priority) = false := by
        rw [hnode]
        exact decide_eq_false (not_lt.2 h)
      simp only [scanInsert, h, if_true, ih]
      simp only [stableScanInsert, List.findIdx_cons, hd, cond_false, List.take_succ_cons,
        List.drop_succ_cons, List.cons_append]
    · have hd : decide (current.priority < node.priority) = true := by
        rw [hnode]
        exact decide_eq_true (not_le.1 h)
      simp only [scanInsert, h, if_false]
      simp only [stableScanInsert, List.findIdx_cons, hd, cond_true, List.take_zero,
        List.drop_zero, List.nil_append]

/-- The Emergency branch links the new node at the very front. -/
theorem insertByPriority_emergency (node : Reservation F) (l : List (Reservation F)) :
    insertByPriority PRIORITY_EMERGENCY node l = node :: l := by
  cases l with
  | nil => rfl
  | cons front rest => simp [insertByPriority]

/-- Where the insertion of `addReservation` is the general stable-scan rule:
for every priority other than Emergency, and for Emergency when the front
reservation is below Emergency (or the queue is empty). -/
theorem insertByPriority_eq_stableScanInsert (priority : Int) (node : Reservation F)
    (l : List (Reservation F)) (hnode : node.priority = priority)
    (h : priority ≠ PRIORITY_EMERGENCY ∨
      ∀ front, l.head? = some front → front.priority < PRIORITY_EMERGENCY) :
    insertByPriority priority node l = stableScanInsert node l := by
  cases l with
  | nil => simp [insertByPriority, stableScanInsert]
  | cons front rest =>
    have hfront : ∀ p, priority = p → front.priority < p →
        stableScanInsert node (front :: rest) = node :: front :: rest := by
      intro p hp hlt
      have hd : decide (front.priority < node.priority) = true := by
        rw [hnode, hp]
        exact decide_eq_true hlt
      simp only [stableScanInsert, List.findIdx_cons, hd, cond_true, List.take_zero,
        List.drop_zero, List.nil_append]
    by_cases hp : priority = PRIORITY_EMERGENCY
    · have hlt : front.priority < PRIORITY_EMERGENCY := by
        rcases h with h | h
        · exact absurd hp h
        · exact h front rfl
      rw [hfront _ hp hlt, hp, insertByPriority_emergency]
    · by_cases hv : priority = PRIORITY_VIP ∧ front.priority < PRIORITY_VIP
      · rw [hfront _ hv.1 hv.2]
        simp [insertByPriority, hv]
      · rw [← scanInsert_eq_stableScanInsert priority node (front :: rest) hnode]
        simp only [insertByPriority]
        rw [if_neg]
        rintro (h' | h')
        · exact hp h'
        · exact hv h'

/-- C3, counterexample. The queue holds one Emergency reservation (id 1001) and
is not full; a second Emergency reservation (id 1002) is submitted.
`addReservation` links it at the front, the general stable-scan rule puts it
at the rear. -/
theorem stableScan_fails_oneEmergency :
    oneEmergency.size < MAX_QUEUE_SIZE ∧
      (addReservation oneEmergency "Second Emergency" "urgent2@email.com" "555-0107"
        RESERVATION_TRAIN "Emergency Train" "Medical Emergency" "2024-01-16 ASAP"
        1 300 PRIORITY_EMERGENCY 60).2.queue.map (fun r => r.reservationId) = [1002, 1001] ∧
      (stableScanInsert
        (newReservation oneEmergency "Second Emergency" "urgent2@email.com" "555-0107"
          RESERVATION_TRAIN "Emergency Train" "Medical Emergency" "2024-01-16 ASAP"
          1 300 PRIORITY_EMERGENCY 60) oneEmergency.queue).map (fun r => r.reservationId) =
        [1001, 1002] ∧
      (addReservation oneEmergency "Second Emergency" "urgent2@email.com" "555-0107"
        RESERVATION_TRAIN "Emergency Train" "Medical Emergency" "2024-01-16 ASAP"
        1 300 PRIORITY_EMERGENCY 60).2.queue ≠
      stableScanInsert
        (newReservation oneEmergency "Second Emergency" "urgent2@email.com" "555-0107"
          RESERVATION_TRAIN "Emergency Train" "Medical Emergency" "2024-01-16 ASAP"
          1 300 PRIORITY_EMERGENCY 60) oneEmergency.queue := by
  refine ⟨by decide, by decide, by decide, fun h => ?_⟩
  have h' := congrArg (List.map (fun r => r.reservationId)) h
  revert h'
  decide

/-- C3, amended. For every non-full reservation queue: when the priority is
not Emergency, or the queue is empty, or the front reservation is below
Emergency, `addReservation` produces exactly the queue of the general
stable-scan rule (the new reservation immediately before the first queued
reservation of strictly lower priority, at the rear when there is none, the
others in their previous order); an Emergency reservation is linked at the
very front in every case. -/
theorem addReservation_stableScan [FloatArith F] (queue : ReservationQueue F)
    (customerName email phone : String) (type : Int) (eventName location dateTime : String)
    (numTickets : Int) (amount : F) (priority : Int) (now : Int)
    (hroom : queue.size < MAX_QUEUE_SIZE) :
    ((priority ≠ PRIORITY_EMERGENCY ∨
        ∀ front, queue.queue.head? = some front → front.priority < PRIORITY_EMERGENCY) →
      (addReservation queue customerName email phone type eventName location dateTime
        numTickets amount priority now).2.queue =
        stableScanInsert
          (newReservation queue customerName email phone type eventName location dateTime
            numTickets amount priority now) queue.queue) ∧
    (priority = PRIORITY_EMERGENCY →
      (addReservation queue customerName email phone type eventName location dateTime
        numTickets amount priority now).2.queue =
        newReservation queue customerName email phone type eventName location dateTime
          numTickets amount priority now :: queue.queue) := by
  rw [addReservation_ok _ _ _ _ _ _ _ _ _ _ _ _ hroom]
  constructor
  · intro h
    exact insertByPriority_eq_stableScanInsert priority _ queue.queue rfl h
  · intro h
    subst h
    exact insertByPriority_emergency _ queue.queue

theorem addReservation_stableScan_witness :
    sampleQueue.size < MAX_QUEUE_SIZE ∧
      ((addReservation sampleQueue "Robert Garcia" "rob.garcia@email.com" "555-0106"
        RESERVATION_HOTEL "Grand Hotel Suite" "Downtown Manhattan" "2024-01-22 Check-in"
        1 450 PRIORITY_PREMIUM 40).2.queue =
        stableScanInsert
          (newReservation sampleQueue "Robert Garcia" "rob.garcia@email.com" "555-0106"
            RESERVATION_HOTEL "Grand Hotel Suite" "Downtown Manhattan" "2024-01-22 Check-in"
            1 450 PRIORITY_PREMIUM 40) sampleQueue.queue) :=
  ⟨by decide,
    (addReservation_stableScan sampleQueue "Robert Garcia" "rob.garcia@email.com" "555-0106"
      RESERVATION_HOTEL "Grand Hotel Suite" "Downtown Manhattan" "2024-01-22 Check-in"
      1 450 PRIORITY_PREMIUM 40 (by decide)).1 (Or.inl (by decide))⟩

/-! ## C4 and C5: dispatch -/

/-- What the specialization scan finds: nothing when no queued reservation has
the type, else the first one that has it, with its position. -/
theorem findSpecialized_spec (specialization : Int) (l : List (Reservation F)) :
    (findSpecialized specialization l = none ∧
      l.find? (fun r => decide (r.type = specialization)) = none) ∨
    ∃ pre chosen post, l = pre ++ chosen :: post ∧
      findSpecialized specialization l = some pre.length ∧
      l.find? (fun r => decide (r.type = specialization)) = some chosen ∧
      chosen.type = specialization ∧ ∀ x ∈ pre, x.type ≠ specialization := by
  induction l with
  | nil => exact Or.inl ⟨rfl, rfl⟩
  | cons current rest ih =>
    by_cases hc : current.type = specialization
    · right
      exact ⟨[], current, rest, rfl, by simp [findSpecialized, hc], by simp [hc], hc, by simp⟩
    · rcases ih with ⟨h1, h2⟩ | ⟨pre, chosen, post, h1, h2, h3, h4, h5⟩
      · left
        exact ⟨by simp [findSpecialized, hc, h1], by simp [List.find?_cons, hc, h2]⟩
      · right
        refine ⟨current :: pre, chosen, post, by simp [h1], by simp [findSpecialized, hc, h2],
          by simp [List.find?_cons, hc, h3], h4, ?_⟩
        intro x hx
        rcases List.mem_cons.1 hx with rfl | hx
        · exact hc
        · exact h5 x hx

/-- The position unlinked by `processNextReservation` is the position of the
reservation the selection rule names. -/
theorem chosenIndex_split (specialization : Int) (l : List (Reservation F)) (hl : l ≠ []) :
    ∃ pre chosen post, l = pre ++ chosen :: post ∧
      pre.length = chosenIndex specialization l ∧
      dispatchChoice specialization l = some chosen ∧
      (pre = [] ∨ (specialization ≠ 0 ∧ chosen.type = specialization ∧
        ∀ x ∈ pre, x.type ≠ specialization)) := by
  obtain ⟨front, rest, rfl⟩ := List.exists_cons_of_ne_nil hl
  by_cases hs : specialization ≠ 0
  · rcases findSpecialized_spec specialization (front :: rest) with
      ⟨h1, h2⟩ | ⟨pre, chosen, post, h1, h2, h3, h4, h5⟩
    · exact ⟨[], front, rest, rfl, by simp [chosenIndex, hs, h1],
        by simp [dispatchChoice, hs, h2], Or.inl rfl⟩
    · refine ⟨pre, chosen, post, h1, by simp [chosenIndex, hs, h2], ?_, Or.inr ⟨hs, h4, h5⟩⟩
      simp [dispatchChoice, hs, h3]
  · exact ⟨[], front, rest, rfl, by simp [chosenIndex, hs],
      by simp [dispatchChoice, hs], Or.inl rfl⟩

theorem getElem?_length_append {α : Type} (pre : List α) (c : α) (post : List α) :
    (pre ++ c :: post)[pre.length]? = some c := by
  induction pre with
  | nil => simp
  | cons a t ih => simpa using ih

theorem eraseIdx_length_append {α : Type} (pre : List α) (c : α) (post : List α) :
    (pre ++ c :: post).eraseIdx pre.length = pre ++ post := by
  induction pre with
  | nil => rfl
  | cons a t ih => simpa using ih

/-- C4. For every non-empty queue and every valid, active, idle counter,
`processNextReservation` returns the first queued reservation, scanning from
the front, whose type equals the counter's specialization when the counter is
specialised and such a reservation exists, and the front reservation
otherwise; the returned node carries the new `processTime`. -/
theorem processNextReservation_selects (queue : ReservationQueue F) (counterId now : Int)
    (counter : Counter F) (hq : queue.queue ≠ []) (hlow : 1 ≤ counterId)
    (hhigh : counterId ≤ queue.counterCount)
    (hc : queue.counters[(counterId - 1).toNat]? = some counter)
    (hactive : counter.isActive ≠ 0) (hidle : counter.currentReservation = none) :
    ∃ chosen, dispatchChoice counter.specialization queue.queue = some chosen ∧
      (processNextReservation queue counterId now).1 =
        some { chosen with processTime := now } := by
  rcases processNextReservation_cases queue counterId now with
    ⟨-, hfail⟩ | ⟨counter', reservation, -, -, -, hc', -, -, hr, hok⟩
  · exfalso
    rcases hfail with h | h | h | ⟨c, hc', h⟩
    · exact hq h
    · omega
    · omega
    · rw [hc] at hc'
      cases hc'
      rcases h with h | h
      · exact hactive h
      · exact h hidle
  · rw [hc] at hc'
    cases hc'
    obtain ⟨pre, chosen, post, h1, h2, h3, -⟩ :=
      chosenIndex_split counter.specialization queue.queue hq
    rw [← h2, h1, getElem?_length_append] at hr
    have hsame : chosen = reservation := Option.some.inj hr
    subst hsame
    exact ⟨chosen, h3, by rw [hok]⟩

theorem processNextReservation_selects_witness :
    ∃ chosen, dispatchChoice RESERVATION_FLIGHT sampleQueue.queue = some chosen ∧
      chosen.reservationId = 1002 ∧
      (processNextReservation sampleQueue 1 120).1 = some { chosen with processTime := 120 } := by
  obtain ⟨chosen, h1, h2⟩ :=
    processNextReservation_selects sampleQueue 1 120
      { counterId := 1
        counterName := "Flight Booking"
        operatorName := "Bob Smith"
        currentReservation := none
        isActive := 1
        totalProcessed := 0
        avgProcessingTime := 3
        specialization := RESERVATION_FLIGHT }
      (List.ne_nil_of_length_pos (by decide)) (by decide) (by decide) rfl (by decide) rfl
  refine ⟨chosen, h1, ?_, h2⟩
  have h3 : (dispatchChoice RESERVATION_FLIGHT sampleQueue.queue).map
      (fun r => r.reservationId) = some 1002 := by decide
  rw [h1] at h3
  simpa using h3

/-- C5. After a successful `processNextReservation` the queue is the previous
queue with the chosen reservation unlinked (`pre ++ chosen :: post` becomes
`pre ++ post`), `size` is one less, the returned reservation is the target
counter's `currentReservation`, every other counter and every other field of
the state is unchanged. -/
theorem processNextReservation_removes (queue : ReservationQueue F) (counterId now : Int)
    (r : Reservation F) (h : (processNextReservation queue counterId now).1 = some r) :
    ∃ pre chosen post counter,
      queue.queue = pre ++ chosen :: post ∧
      dispatchChoice counter.specialization queue.queue = some chosen ∧
      (pre = [] ∨ (counter.specialization ≠ 0 ∧ chosen.type = counter.specialization ∧
        ∀ x ∈ pre, x.type ≠ counter.specialization)) ∧
      r = { chosen with processTime := now } ∧
      queue.counters[(counterId - 1).toNat]? = some counter ∧
      (processNextReservation queue counterId now).2.queue = pre ++ post ∧
      (processNextReservation queue counterId now).2.size = queue.size - 1 ∧
      (processNextReservation queue counterId now).2.counters.length = queue.counters.length ∧
      (processNextReservation queue counterId now).2.counters[(counterId - 1).toNat]? =
        some { counter with currentReservation := some r } ∧
      (∀ j, j ≠ (counterId - 1).toNat →
        (processNextReservation queue counterId now).2.counters[j]? = queue.counters[j]?) ∧
      (processNextReservation queue counterId now).2.nextReservationId =
        queue.nextReservationId ∧
      (processNextReservation queue counterId now).2.totalReservations =
        queue.totalReservations ∧
      (processNextReservation queue counterId now).2.totalConfirmed = queue.totalConfirmed ∧
      (processNextReservation queue counterId now).2.totalCancelled = queue.totalCancelled ∧
      (processNextReservation queue counterId now).2.totalRevenue = queue.totalRevenue := by
  rcases processNextReservation_cases queue counterId now with
    ⟨hfail, -⟩ | ⟨counter, reservation, hq, -, -, hc, -, -, hr, hok⟩
  · rw [hfail] at h
    cases h
  · obtain ⟨pre, chosen, post, h1, h2, h3, h4⟩ :=
      chosenIndex_split counter.specialization queue.queue hq
    have hr' := hr
    rw [← h2] at hr'
    conv at hr' => lhs; rw [h1]
    rw [getElem?_length_append] at hr'
    have hsame : chosen = reservation := Option.some.inj hr'
    subst hsame
    have herase : queue.queue.eraseIdx (chosenIndex counter.specialization queue.queue) =
        pre ++ post := by
      rw [← h2]
      conv => lhs; rw [h1]
      exact eraseIdx_length_append pre chosen post
    have hlt : (counterId - 1).toNat < queue.counters.length := by
      by_contra hge
      rw [List.getElem?_eq_none (not_lt.1 hge)] at hc
      cases hc
    rw [hok] at h ⊢
    have hret : r = { chosen with processTime := now } := (Option.some.inj h).symm
    subst hret
    refine ⟨pre, chosen, post, counter, h1, h3, h4, rfl, hc, herase, rfl, ?_, ?_, ?_,
      rfl, rfl, rfl, rfl, rfl⟩
    · simp only [List.length_set]
    · simp only [List.getElem?_set_self hlt]
    · intro j hj
      simp only [List.getElem?_set_ne (Ne.symm hj)]

theorem processNextReservation_removes_witness :
    ∃ r, (processNextReservation sampleQueue 1 120).1 = some r ∧
      ∃ pre chosen post,
        sampleQueue.queue = pre ++ chosen :: post ∧
        r = { chosen with processTime := 120 } ∧
        (processNextReservation sampleQueue 1 120).2.queue = pre ++ post ∧
        (processNextReservation sampleQueue 1 120).2.size = sampleQueue.size - 1 := by
  obtain ⟨r, hr⟩ : ∃ r, (processNextReservation sampleQueue 1 120).1 = some r :=
    ⟨_, rfl⟩
  obtain ⟨pre, chosen, post, -, h1, -, -, h2, -, h3, h4, -⟩ :=
    processNextReservation_removes sampleQueue 1 120 r hr
  exact ⟨r, hr, pre, chosen, post, h1, h2, h3, h4⟩

/-! ## C8: capacity -/

theorem filledQueue_reachable (n : Nat) : Reachable (filledQueue n) := by
  induction n with
  | zero => exact Reachable.create
  | succ n ih =>
    exact Reachable.addReservation _ _ _ _ _ _ _ _ _ _ _ _ (by decide) (by decide) ih

theorem filledQueue_size (n : Nat) (h : n ≤ 200) : (filledQueue n).size = (n : Int) := by
  induction n with
  | zero => rfl
  | succ n ih =>
    have hn : (filledQueue n).size = (n : Int) := ih (by omega)
    have hroom : (filledQueue n).size < MAX_QUEUE_SIZE := by
      rw [hn]
      unfold MAX_QUEUE_SIZE
      omega
    simp only [filledQueue]
    rw [addReservation_ok _ _ _ _ _ _ _ _ _ _ _ _ hroom]
    simp only [hn]
    push_cast
    rfl

theorem filledQueue_length (n : Nat) (h : n ≤ 200) : (filledQueue n).queue.length = n := by
  have h1 := (reachable_inv (filledQueue_reachable n)).size_eq
  rw [filledQueue_size n h] at h1
  exact_mod_cast h1.symm

/-- C8. When the reservation queue holds `MAX_QUEUE_SIZE` (200) reservations,
`addReservation` returns `NULL` and leaves the whole state unchanged. -/
theorem addReservation_rejects_at_capacity [FloatArith F] (queue : ReservationQueue F)
    (customerName email phone : String) (type : Int) (eventName location dateTime : String)
    (numTickets : Int) (amount : F) (priority : Int) (now : Int)
    (hsize : queue.size = (queue.queue.length : Int))
    (hfull : (queue.queue.length : Int) = MAX_QUEUE_SIZE) :
    addReservation queue customerName email phone type eventName location dateTime
      numTickets amount priority now = (none, queue) :=
  addReservation_full queue customerName email phone type eventName location dateTime
    numTickets amount priority now (by rw [hsize, hfull])

theorem addReservation_rejects_at_capacity_witness :
    (filledQueue 200).size = (((filledQueue 200).queue.length : Nat) : Int) ∧
      (((filledQueue 200).queue.length : Nat) : Int) = MAX_QUEUE_SIZE ∧
      addReservation (filledQueue 200) "Robert Garcia" "rob.garcia@email.com" "555-0106"
        RESERVATION_HOTEL "Grand Hotel Suite" "Downtown Manhattan" "2024-01-22 Check-in"
        1 450 PRIORITY_EMERGENCY 500 = (none, filledQueue 200) :=
  ⟨(reachable_inv (filledQueue_reachable 200)).size_eq,
    by rw [filledQueue_length 200 (le_refl 200)]; rfl,
    addReservation_rejects_at_capacity (filledQueue 200) "Robert Garcia"
      "rob.garcia@email.com" "555-0106" RESERVATION_HOTEL "Grand Hotel Suite"
      "Downtown Manhattan" "2024-01-22 Check-in" 1 450 PRIORITY_EMERGENCY 500
      (reachable_inv (filledQueue_reachable 200)).size_eq
      (by rw [filledQueue_length 200 (le_refl 200)]; rfl)⟩

/-! ## C9: failure of dispatch -/

/-- C9. `processNextReservation` returns `NULL` if and only if the queue is
empty, or `counterId` is outside `1..counterCount`, or the counter is inactive,
or the counter already has a `currentReservation`; and whenever it returns
`NULL` the state is the state before the call. -/
theorem processNextReservation_fails_iff (queue : ReservationQueue F) (counterId now : Int) :
    ((processNextReservation queue counterId now).1 = none ↔
      (queue.queue = [] ∨ counterId < 1 ∨ counterId > queue.counterCount ∨
        ∃ counter, queue.counters[(counterId - 1).toNat]? = some counter ∧
          (counter.isActive = 0 ∨ counter.currentReservation ≠ none))) ∧
    ((processNextReservation queue counterId now).1 = none →
      (processNextReservation queue counterId now).2 = queue) := by
  rcases processNextReservation_cases queue counterId now with
    ⟨hfail, hwhy⟩ | ⟨counter, reservation, hq, hlow, hhigh, hc, hactive, hidle, -, hok⟩
  · rw [hfail]
    exact ⟨⟨fun _ => hwhy, fun _ => rfl⟩, fun _ => rfl⟩
  · rw [hok]
    refine ⟨⟨fun h => (by cases h), fun h => ?_⟩, fun h => (by cases h)⟩
    exfalso
    rcases h with h | h | h | ⟨c, hc', h⟩
    · exact hq h
    · omega
    · omega
    · rw [hc] at hc'
      cases hc'
      rcases h with h | h
      · exact hactive h
      · exact h hidle

/-! ## C10: revenue -/

theorem currentAt_of_counter (queue : ReservationQueue F) (counterId : Int)
    (counter : Counter F) (hlow : 1 ≤ counterId) (hhigh : counterId ≤ queue.counterCount)
    (hc : queue.counters[(counterId - 1).toNat]? = some counter) :
    currentAt queue counterId = counter.currentReservation := by
  have hid : ¬ (counterId < 1 ∨ counterId > queue.counterCount) := by omega
  simp only [currentAt, hid, if_false, hc, Option.some_bind]

theorem currentAt_eq_none (queue : ReservationQueue F) (counterId : Int)
    (h : counterId < 1 ∨ counterId > queue.counterCount ∨
      ∃ counter, queue.counters[(counterId - 1).toNat]? = some counter ∧
        counter.currentReservation = none) :
    currentAt queue counterId = none := by
  by_cases hid : counterId < 1 ∨ counterId > queue.counterCount
  · simp only [currentAt, hid, if_true]
  · rcases h with h | h | ⟨counter, hc, hcur⟩
    · exact absurd (Or.inl h) hid
    · exact absurd (Or.inr h) hid
    · rw [currentAt_of_counter queue counterId counter (by omega) (by omega) hc, hcur]

/-- C10. `totalRevenue` is left unchanged by `addCounter`, `addReservation`,
`processNextReservation` and `cancelReservation`, whether they succeed or
fail, and by a `confirmReservation` that fails (no reservation at the counter,
or `counterId` outside `1..counterCount`); a successful `confirmReservation`
adds exactly the `totalAmount` of the reservation the counter holds. -/
theorem totalRevenue_recognition [FloatArith F] (queue : ReservationQueue F) :
    (∀ (counterName operatorName : String) (specialization : Int),
      (addCounter queue counterName operatorName specialization).totalRevenue =
        queue.totalRevenue) ∧
    (∀ (customerName email phone : String) (type : Int) (eventName location dateTime : String)
        (numTickets : Int) (amount : F) (priority : Int) (now : Int),
      (addReservation queue customerName email phone type eventName location dateTime
        numTickets amount priority now).2.totalRevenue = queue.totalRevenue) ∧
    (∀ counterId now : Int,
      (processNextReservation queue counterId now).2.totalRevenue = queue.totalRevenue) ∧
    (∀ counterId : Int, (cancelReservation queue counterId).totalRevenue = queue.totalRevenue) ∧
    (∀ counterId now : Int,
      (confirmReservation queue counterId now).totalRevenue =
        match currentAt queue counterId with
        | some reservation => queue.totalRevenue + reservation.totalAmount
        | none => queue.totalRevenue) := by
  refine ⟨?_, ?_, ?_, ?_, ?_⟩
  · intro counterName operatorName specialization
    unfold addCounter
    split <;> rfl
  · intro customerName email phone type eventName location dateTime numTickets amount priority now
    unfold addReservation
    split <;> rfl
  · intro counterId now
    rcases processNextReservation_cases queue counterId now with
      ⟨hfail, -⟩ | ⟨counter, reservation, -, -, -, -, -, -, -, hok⟩
    · rw [hfail]
    · rw [hok]
  · intro counterId
    rcases cancelReservation_cases queue counterId with
      ⟨hfail, -⟩ | ⟨counter, reservation, -, -, -, -, hok⟩
    · rw [hfail]
    · rw [hok]
  · intro counterId now
    rcases confirmReservation_cases queue counterId now with
      ⟨hfail, hwhy⟩ | ⟨counter, reservation, hlow, hhigh, hc, hcur, hok⟩
    · rw [hfail, currentAt_eq_none queue counterId hwhy]
    · rw [hok, currentAt_of_counter queue counterId counter hlow hhigh hc, hcur]

/-! ## C11: confirming at a counter that holds nothing -/

theorem confirmReservation_of_currentAt_none [FloatArith F] (queue : ReservationQueue F)
    (counterId now : Int) (h : currentAt queue counterId = none) :
    confirmReservation queue counterId now = queue := by
  rcases confirmReservation_cases queue counterId now with
    ⟨hfail, -⟩ | ⟨counter, reservation, hlow, hhigh, hc, hcur, -⟩
  · exact hfail
  · rw [currentAt_of_counter queue counterId counter hlow hhigh hc, hcur] at h
    cases h

theorem currentAt_confirmReservation [FloatArith F] (queue : ReservationQueue F)
    (counterId now : Int) :
    currentAt (confirmReservation queue counterId now) counterId = none := by
  rcases confirmReservation_cases queue counterId now with
    ⟨hfail, hwhy⟩ | ⟨counter, reservation, hlow, hhigh, hc, hcur, hok⟩
  · rw [hfail]
    exact currentAt_eq_none queue counterId hwhy
  · rw [hok]
    have hlt : (counterId - 1).toNat < queue.counters.length := by
      by_contra hge
      rw [List.getElem?_eq_none (not_lt.1 hge)] at hc
      cases hc
    apply currentAt_eq_none
    refine Or.inr (Or.inr ⟨_, List.getElem?_set_self hlt, rfl⟩)

/-- C11. `confirmReservation` on a counter that has no `currentReservation`, or
with a `counterId` outside `1..counterCount`, returns the state unchanged
(totals, revenue and counter statistics included); hence for every state a
second `confirmReservation` on the same counter, right after a first one,
changes nothing. -/
theorem confirmReservation_idle_unchanged [FloatArith F] (queue : ReservationQueue F)
    (counterId : Int) :
    (∀ now : Int,
      (counterId < 1 ∨ counterId > queue.counterCount ∨
        ∃ counter, queue.counters[(counterId - 1).toNat]? = some counter ∧
          counter.currentReservation = none) →
      confirmReservation queue counterId now = queue) ∧
    (∀ first second : Int,
      confirmReservation (confirmReservation queue counterId first) counterId second =
        confirmReservation queue counterId first) :=
  ⟨fun now h =>
      confirmReservation_of_currentAt_none queue counterId now
        (currentAt_eq_none queue counterId h),
    fun first second =>
      confirmReservation_of_currentAt_none _ counterId second
        (currentAt_confirmReservation queue counterId first)⟩

theorem confirmReservation_idle_unchanged_witness :
    confirmReservation sampleServed 1 400 = sampleServed ∧
      confirmReservation (confirmReservation sampleBusy 1 400) 1 460 =
        confirmReservation sampleBusy 1 400 :=
  ⟨(confirmReservation_idle_unchanged sampleServed 1).1 400
      (Or.inr (Or.inr ⟨_, rfl, rfl⟩)),
    (confirmReservation_idle_unchanged sampleBusy 1).2 400 460⟩

/-! ## C12: cancellation -/

/-- C12. `cancelReservation` on a counter holding a reservation increases
`totalCancelled` by exactly 1 and clears that counter's `currentReservation`;
`totalRevenue`, `totalConfirmed`, `totalReservations`, the queue (with `size`)
and the counter's `avgProcessingTime` are unchanged. -/
theorem cancelReservation_effect (queue : ReservationQueue F) (counterId : Int)
    (counter : Counter F) (reservation : Reservation F)
    (hlow : 1 ≤ counterId) (hhigh : counterId ≤ queue.counterCount)
    (hc : queue.counters[(counterId - 1).toNat]? = some counter)
    (hcur : counter.currentReservation = some reservation) :
    (cancelReservation queue counterId).totalCancelled = queue.totalCancelled + 1 ∧
    (∃ after, (cancelReservation queue counterId).counters[(counterId - 1).toNat]? = some after ∧
      after.currentReservation = none ∧
      after.avgProcessingTime = counter.avgProcessingTime) ∧
    (cancelReservation queue counterId).totalRevenue = queue.totalRevenue ∧
    (cancelReservation queue counterId).totalConfirmed = queue.totalConfirmed ∧
    (cancelReservation queue counterId).totalReservations = queue.totalReservations ∧
    (cancelReservation queue counterId).queue = queue.queue ∧
    (cancelReservation queue counterId).size = queue.size := by
  rcases cancelReservation_cases queue counterId with
    ⟨-, hwhy⟩ | ⟨counter', reservation', -, -, hc', -, hok⟩
  · exfalso
    rcases hwhy with h | h | ⟨c, hc', h⟩
    · omega
    · omega
    · rw [hc] at hc'
      cases hc'
      rw [hcur] at h
      cases h
  · rw [hc] at hc'
    cases hc'
    have hlt : (counterId - 1).toNat < queue.counters.length := by
      by_contra hge
      rw [List.getElem?_eq_none (not_lt.1 hge)] at hc
      cases hc
    rw [hok]
    exact ⟨rfl, ⟨_, List.getElem?_set_self hlt, rfl, rfl⟩, rfl, rfl, rfl, rfl, rfl⟩

theorem cancelReservation_effect_witness :
    (cancelReservation sampleBusy 2).totalCancelled = sampleBusy.totalCancelled + 1 ∧
      (∃ after, (cancelReservation sampleBusy 2).counters[(2 - 1 : Int).toNat]? = some after ∧
        after.currentReservation = none) ∧
      (cancelReservation sampleBusy 2).totalRevenue = sampleBusy.totalRevenue ∧
      (cancelReservation sampleBusy 2).queue = sampleBusy.queue := by
  obtain ⟨h1, ⟨after, h2, h2', -⟩, h3, -, -, h6, -⟩ :=
    cancelReservation_effect sampleBusy 2 _ _ (by decide) (by decide) rfl rfl
  exact ⟨h1, ⟨after, h2, h2'⟩, h3, h6⟩

/-! ## C13: reservation ids -/

theorem reachedAfter_reachable [FloatArith F] {k : Nat} {queue : ReservationQueue F}
    (h : ReachedAfter k queue) : Reachable queue := by
  induction h with
  | create => exact Reachable.create
  | addCounter k queue counterName operatorName specialization _ ih =>
    exact Reachable.addCounter _ _ _ _ ih
  | accepted k queue customerName email phone type eventName location dateTime numTickets
      amount priority now hlow hhigh _ _ ih =>
    exact Reachable.addReservation _ _ _ _ _ _ _ _ _ _ _ _ hlow hhigh ih
  | rejected k queue customerName email phone type eventName location dateTime numTickets
      amount priority now hlow hhigh _ _ ih =>
    exact Reachable.addReservation _ _ _ _ _ _ _ _ _ _ _ _ hlow hhigh ih
  | processNextReservation k queue counterId now _ ih =>
    exact Reachable.processNextReservation _ _ _ ih
  | confirmReservation k queue counterId now _ ih =>
    exact Reachable.confirmReservation _ _ _ ih
  | cancelReservation k queue counterId _ ih => exact Reachable.cancelReservation _ _ ih

/-- Every reachable state is reached after some number of accepted
submissions. -/
theorem reachable_reachedAfter [FloatArith F] {queue : ReservationQueue F}
    (h : Reachable queue) : ∃ k, ReachedAfter k queue := by
  induction h with
  | create => exact ⟨0, ReachedAfter.create⟩
  | addCounter queue counterName operatorName specialization _ ih =>
    obtain ⟨k, hk⟩ := ih
    exact ⟨k, ReachedAfter.addCounter _ _ _ _ _ hk⟩
  | addReservation queue customerName email phone type eventName location dateTime numTickets
      amount priority now hlow hhigh _ ih =>
    obtain ⟨k, hk⟩ := ih
    cases hres : (addReservation queue customerName email phone type eventName location
        dateTime numTickets amount priority now).1 with
    | none => exact ⟨k, ReachedAfter.rejected _ _ _ _ _ _ _ _ _ _ _ _ _ hlow hhigh hk hres⟩
    | some r =>
      exact ⟨k + 1, ReachedAfter.accepted _ _ _ _ _ _ _ _ _ _ _ _ _ hlow hhigh hk
        (by rw [hres]; rfl)⟩
  | processNextReservation queue counterId now _ ih =>
    obtain ⟨k, hk⟩ := ih
    exact ⟨k, ReachedAfter.processNextReservation _ _ _ _ hk⟩
  | confirmReservation queue counterId now _ ih =>
    obtain ⟨k, hk⟩ := ih
    exact ⟨k, ReachedAfter.confirmReservation _ _ _ _ hk⟩
  | cancelReservation queue counterId _ ih =>
    obtain ⟨k, hk⟩ := ih
    exact ⟨k, ReachedAfter.cancelReservation _ _ _ hk⟩

/-- What `addReservation` returns and what it does to `nextReservationId`. -/
theorem addReservation_id [FloatArith F] (queue : ReservationQueue F)
    (customerName email phone : String) (type : Int) (eventName location dateTime : String)
    (numTickets : Int) (amount : F) (priority : Int) (now : Int) :
    ((addReservation queue customerName email phone type eventName location dateTime
        numTickets amount priority now).1 = none ∧
      (addReservation queue customerName email phone type eventName location dateTime
        numTickets amount priority now).2 = queue) ∨
    ∃ r, (addReservation queue customerName email phone type eventName location dateTime
        numTickets amount priority now).1 = some r ∧
      r.reservationId = queue.nextReservationId ∧
      (addReservation queue customerName email phone type eventName location dateTime
        numTickets amount priority now).2.nextReservationId = queue.nextReservationId + 1 := by
  by_cases hfull : MAX_QUEUE_SIZE ≤ queue.size
  · left
    rw [addReservation_full _ _ _ _ _ _ _ _ _ _ _ _ hfull]
    exact ⟨rfl, rfl⟩
  · right
    rw [addReservation_ok _ _ _ _ _ _ _ _ _ _ _ _ (not_le.1 hfull)]
    exact ⟨_, rfl, rfl, rfl⟩

theorem reachedAfter_nextReservationId [FloatArith F] {k : Nat} {queue : ReservationQueue F}
    (h : ReachedAfter k queue) : queue.nextReservationId = 1001 + (k : Int) := by
  induction h with
  | create => rfl
  | addCounter k queue counterName operatorName specialization _ ih =>
    unfold addCounter
    split <;> exact ih
  | accepted k queue customerName email phone type eventName location dateTime numTickets
      amount priority now _ _ _ hsome ih =>
    rcases addReservation_id queue customerName email phone type eventName location dateTime
        numTickets amount priority now with ⟨hnone, -⟩ | ⟨r, -, -, hnext⟩
    · rw [hnone] at hsome
      cases hsome
    · rw [hnext, ih]
      push_cast
      omega
  | rejected k queue customerName email phone type eventName location dateTime numTickets
      amount priority now _ _ _ hnone ih =>
    rcases addReservation_id queue customerName email phone type eventName location dateTime
        numTickets amount priority now with ⟨-, hsame⟩ | ⟨r, hsome, -, -⟩
    · rw [hsame]
      exact ih
    · rw [hsome] at hnone
      cases hnone
  | processNextReservation k queue counterId now _ ih =>
    rcases processNextReservation_cases queue counterId now with
      ⟨hfail, -⟩ | ⟨counter, reservation, -, -, -, -, -, -, -, hok⟩
    · rw [hfail]; exact ih
    · rw [hok]; exact ih
  | confirmReservation k queue counterId now _ ih =>
    rcases confirmReservation_cases queue counterId now with
      ⟨hfail, -⟩ | ⟨counter, reservation, -, -, -, -, hok⟩
    · rw [hfail]; exact ih
    · rw [hok]; exact ih
  | cancelReservation k queue counterId _ ih =>
    rcases cancelReservation_cases queue counterId with
      ⟨hfail, -⟩ | ⟨counter, reservation, -, -, -, -, hok⟩
    · rw [hfail]; exact ih
    · rw [hok]; exact ih

/-- C13. In a state reached after `k` accepted submissions to a fresh queue:
the next accepted `addReservation` (the `k + 1`-th) returns id `1000 + (k + 1)`
and advances `nextReservationId` by one, a rejected `addReservation` leaves
the state, and so `nextReservationId`, unchanged, and the ids in the queue and
at the counters are pairwise distinct and strictly less than
`nextReservationId`. -/
theorem reservationIds_unique [FloatArith F] (k : Nat) (queue : ReservationQueue F)
    (h : ReachedAfter k queue) :
    (∀ (customerName email phone : String) (type : Int) (eventName location dateTime : String)
        (numTickets : Int) (amount : F) (priority : Int) (now : Int) (r : Reservation F),
      (addReservation queue customerName email phone type eventName location dateTime
        numTickets amount priority now).1 = some r →
      r.reservationId = 1000 + ((k : Int) + 1) ∧
      (addReservation queue customerName email phone type eventName location dateTime
        numTickets amount priority now).2.nextReservationId = r.reservationId + 1) ∧
    (∀ (customerName email phone : String) (type : Int) (eventName location dateTime : String)
        (numTickets : Int) (amount : F) (priority : Int) (now : Int),
      (addReservation queue customerName email phone type eventName location dateTime
        numTickets amount priority now).1 = none →
      (addReservation queue customerName email phone type eventName location dateTime
        numTickets amount priority now).2 = queue) ∧
    (queueIds queue ++ counterIds queue).Nodup ∧
    (∀ i ∈ queueIds queue ++ counterIds queue, i < queue.nextReservationId) := by
  have hnext := reachedAfter_nextReservationId h
  have hinv := reachable_inv (reachedAfter_reachable h)
  refine ⟨?_, ?_, hinv.nodup, hinv.fresh⟩
  · intro customerName email phone type eventName location dateTime numTickets amount priority
      now r hr
    rcases addReservation_id queue customerName email phone type eventName location dateTime
        numTickets amount priority now with ⟨hnone, -⟩ | ⟨r', hsome, hid, hadv⟩
    · rw [hnone] at hr
      cases hr
    · rw [hsome] at hr
      cases hr
      rw [hadv, hid, hnext]
      exact ⟨by omega, rfl⟩
  · intro customerName email phone type eventName location dateTime numTickets amount priority
      now hnone
    rcases addReservation_id queue customerName email phone type eventName location dateTime
        numTickets amount priority now with ⟨-, hsame⟩ | ⟨r', hsome, -, -⟩
    · exact hsame
    · rw [hsome] at hnone
      cases hnone

theorem sampleQueue_reachedAfter : ReachedAfter 4 sampleQueue :=
  ReachedAfter.accepted 3 _ _ _ _ _ _ _ _ _ _ _ _ (by decide) (by decide)
    (ReachedAfter.accepted 2 _ _ _ _ _ _ _ _ _ _ _ _ (by decide) (by decide)
      (ReachedAfter.accepted 1 _ _ _ _ _ _ _ _ _ _ _ _ (by decide) (by decide)
        (ReachedAfter.accepted 0 _ _ _ _ _ _ _ _ _ _ _ _ (by decide) (by decide)
          (ReachedAfter.addCounter 0 _ _ _ _
            (ReachedAfter.addCounter 0 _ _ _ _ ReachedAfter.create)) rfl) rfl) rfl) rfl

theorem reservationIds_unique_witness :
    ReachedAfter 4 sampleQueue ∧
      (∃ r, (addReservation sampleQueue "Robert Garcia" "rob.garcia@email.com" "555-0106"
          RESERVATION_HOTEL "Grand Hotel Suite" "Downtown Manhattan" "2024-01-22 Check-in"
          1 450 PRIORITY_NORMAL 40).1 = some r ∧ r.reservationId = 1005) ∧
      (queueIds sampleQueue ++ counterIds sampleQueue).Nodup :=
  ⟨sampleQueue_reachedAfter,
    ⟨_, rfl,
      ((reservationIds_unique 4 sampleQueue sampleQueue_reachedAfter).1 "Robert Garcia"
        "rob.garcia@email.com" "555-0106" RESERVATION_HOTEL "Grand Hotel Suite"
        "Downtown Manhattan" "2024-01-22 Check-in" 1 450 PRIORITY_NORMAL 40 _ rfl).1⟩,
    (reservationIds_unique 4 sampleQueue sampleQueue_reachedAfter).2.2.1⟩

/-! ## C14: the number of tickets is not validated -/

/-- C14, counterexample. A submission with `numTickets = 0` to the empty queue
is accepted: a reservation with `numberOfTickets = 0` is created and queued. -/
theorem zero_tickets_accepted :
    ∃ r, (addReservation (createReservationQueue : ReservationQueue ℚ) "John Doe"
        "john.doe@email.com" "555-0101" RESERVATION_MOVIE "Avengers: Endgame"
        "Cinema City Mall" "2024-01-15 19:30" 0 0 PRIORITY_NORMAL 0).1 = some r ∧
      r.numberOfTickets = 0 ∧
      (addReservation (createReservationQueue : ReservationQueue ℚ) "John Doe"
        "john.doe@email.com" "555-0101" RESERVATION_MOVIE "Avengers: Endgame"
        "Cinema City Mall" "2024-01-15 19:30" 0 0 PRIORITY_NORMAL 0).2.queue.map
          (fun x => (x.reservationId, x.numberOfTickets)) = [(1001, 0)] ∧
      (addReservation (createReservationQueue : ReservationQueue ℚ) "John Doe"
        "john.doe@email.com" "555-0101" RESERVATION_MOVIE "Avengers: Endgame"
        "Cinema City Mall" "2024-01-15 19:30" 0 0 PRIORITY_NORMAL 0).2.size = 1 :=
  ⟨_, rfl, rfl, by decide, by decide⟩

/-- C14, amended. `addReservation` does not look at `numTickets`: for every
state and every `numTickets`, positive or not, the call is rejected exactly
when the queue is full (`size >= MAX_QUEUE_SIZE`); otherwise a reservation
carrying that `numberOfTickets` is created and queued, and `size` and
`totalReservations` grow by one. -/
theorem addReservation_any_numTickets [FloatArith F] (queue : ReservationQueue F)
    (customerName email phone : String) (type : Int) (eventName location dateTime : String)
    (numTickets : Int) (amount : F) (priority : Int) (now : Int) :
    ((addReservation queue customerName email phone type eventName location dateTime
        numTickets amount priority now).1 = none ↔ MAX_QUEUE_SIZE ≤ queue.size) ∧
    (∀ r, (addReservation queue customerName email phone type eventName location dateTime
        numTickets amount priority now).1 = some r →
      r.numberOfTickets = numTickets ∧
      r ∈ (addReservation queue customerName email phone type eventName location dateTime
        numTickets amount priority now).2.queue ∧
      (addReservation queue customerName email phone type eventName location dateTime
        numTickets amount priority now).2.size = queue.size + 1 ∧
      (addReservation queue customerName email phone type eventName location dateTime
        numTickets amount priority now).2.totalReservations = queue.totalReservations + 1) := by
  by_cases hfull : MAX_QUEUE_SIZE ≤ queue.size
  · rw [addReservation_full _ _ _ _ _ _ _ _ _ _ _ _ hfull]
    exact ⟨⟨fun _ => hfull, fun _ => rfl⟩, fun r hr => (by cases hr)⟩
  · rw [addReservation_ok _ _ _ _ _ _ _ _ _ _ _ _ (not_le.1 hfull)]
    refine ⟨⟨fun h => (by cases h), fun h => absurd h hfull⟩, ?_⟩
    intro r hr
    have hr' : newReservation queue customerName email phone type eventName location dateTime
        numTickets amount priority now = r := Option.some.inj hr
    subst hr'
    refine ⟨rfl, ?_, rfl, rfl⟩
    exact (insertByPriority_perm priority _ queue.queue).mem_iff.2 (List.mem_cons_self _ _)

/-! ## C15: the wait estimate -/

theorem countAhead_eq (priority : Int) (l : List (Reservation F)) (position : Int) :
    countAhead priority l position =
      position + ((l.countP (fun r => decide (r.priority ≥ priority)) : Nat) : Int) := by
  induction l generalizing position with
  | nil => simp [countAhead]
  | cons current rest ih =>
    by_cases h : current.priority ≥ priority
    · simp only [countAhead, h, if_true, ih, List.countP_cons, decide_True]
      push_cast
      omega
    · simp only [countAhead, h, if_false, ih, List.countP_cons, decide_False]
      simp

/-- Over the rationals the conversion to `int` of a non-negative value is its
integer part. -/
theorem toInt_rat_of_nonneg (q : ℚ) (h : 0 ≤ q) : (FloatArith.toInt q : Int) = ⌊q⌋ := by
  show Int.tdiv q.num (q.den : Int) = ⌊q⌋
  rw [Rat.floor_def, Int.tdiv_eq_ediv (Rat.num_nonneg.2 h) (Int.natCast_nonneg _)]

theorem calculateWaitTime_rat (queue : ReservationQueue ℚ) (priority : Int) :
    calculateWaitTime queue priority = waitEstimate queue.queue priority := by
  have hc := countAhead_eq priority queue.queue 0
  rw [zero_add] at hc
  have hnn : (0 : ℚ) ≤ ((queue.queue.countP (fun r => decide (r.priority ≥ priority)) : Nat) : ℚ) :=
    Nat.cast_nonneg _
  unfold calculateWaitTime waitEstimate priorityFactor
  simp only [hc]
  by_cases h4 : priority = PRIORITY_EMERGENCY
  · simp only [h4, if_true]
    rw [toInt_rat_of_nonneg]
    · congr 1
      show (((_ : Int) : ℚ)) * (2 / 10) = _
      push_cast
      ring
    · show (0 : ℚ) ≤ (((_ : Int) : ℚ)) * (2 / 10)
      push_cast
      positivity
  by_cases h3 : priority = PRIORITY_VIP
  · simp only [h3, if_true, show ¬ (PRIORITY_VIP = PRIORITY_EMERGENCY) by decide, if_false]
    rw [toInt_rat_of_nonneg]
    · congr 1
      show (((_ : Int) : ℚ)) * (5 / 10) = _
      push_cast
      ring
    · show (0 : ℚ) ≤ (((_ : Int) : ℚ)) * (5 / 10)
      push_cast
      positivity
  by_cases h2 : priority = PRIORITY_PREMIUM
  · simp only [h2, if_true, show ¬ (PRIORITY_PREMIUM = PRIORITY_EMERGENCY) by decide,
      show ¬ (PRIORITY_PREMIUM = PRIORITY_VIP) by decide, if_false]
    rw [toInt_rat_of_nonneg]
    · congr 1
      show (((_ : Int) : ℚ)) * (7 / 10) = _
      push_cast
      ring
    · show (0 : ℚ) ≤ (((_ : Int) : ℚ)) * (7 / 10)
      push_cast
      positivity
  · simp only [h4, h3, h2, if_false]
    rw [mul_one]
    have : (4 : ℚ) * ((queue.queue.countP (fun r => decide (r.priority ≥ priority)) : Nat) : ℚ) =
        (((queue.queue.countP (fun r => decide (r.priority ≥ priority)) : Nat) : Int) * 4 : Int) := by
      push_cast
      ring
    rw [this, Int.floor_intCast]

set_option maxRecDepth 100000 in
/-- In single precision, for up to 200 reservations ahead, the scaled and
truncated base time is the integer quotient. -/
theorem binary32_scaled_emergency : ∀ c < 201,
    FloatArith.toInt (FloatArith.ofInt (((c : Nat) : Int) * 4) * (FloatArith.lit02 : Binary32)) =
      (((c : Nat) : Int) * 4) / ((5 : Nat) : Int) := by
  decide

set_option maxRecDepth 100000 in
theorem binary32_scaled_vip : ∀ c < 201,
    FloatArith.toInt (FloatArith.ofInt (((c : Nat) : Int) * 4) * (FloatArith.lit05 : Binary32)) =
      (((c : Nat) : Int) * 4) / ((2 : Nat) : Int) := by
  decide

set_option maxRecDepth 100000 in
theorem binary32_scaled_premium : ∀ c < 201,
    FloatArith.toInt (FloatArith.ofInt (((c : Nat) : Int) * 4) * (FloatArith.lit07 : Binary32)) =
      (((c : Nat) : Int) * 4 * 7) / ((10 : Nat) : Int) := by
  decide

theorem calculateWaitTime_binary32 (queue : ReservationQueue Binary32) (priority : Int)
    (hlen : queue.queue.length ≤ 200) :
    calculateWaitTime queue priority = waitEstimate queue.queue priority := by
  have hc := countAhead_eq priority queue.queue 0
  rw [zero_add] at hc
  have hlt : queue.queue.countP (fun r => decide (r.priority ≥ priority)) < 201 :=
    lt_of_le_of_lt (List.countP_le_length _) (by omega)
  unfold calculateWaitTime waitEstimate priorityFactor
  simp only [hc]
  by_cases h4 : priority = PRIORITY_EMERGENCY
  · simp only [h4, if_true]
    rw [← h4, binary32_scaled_emergency _ hlt, ← Rat.floor_intCast_div_natCast]
    congr 1
    push_cast
    ring
  by_cases h3 : priority = PRIORITY_VIP
  · simp only [h3, if_true, show ¬ (PRIORITY_VIP = PRIORITY_EMERGENCY) by decide, if_false]
    rw [← h3, binary32_scaled_vip _ hlt, ← Rat.floor_intCast_div_natCast]
    congr 1
    push_cast
    ring
  by_cases h2 : priority = PRIORITY_PREMIUM
  · simp only [h2, if_true, show ¬ (PRIORITY_PREMIUM = PRIORITY_EMERGENCY) by decide,
      show ¬ (PRIORITY_PREMIUM = PRIORITY_VIP) by decide, if_false]
    rw [← h2, binary32_scaled_premium _ hlt, ← Rat.floor_intCast_div_natCast]
    congr 1
    push_cast
    ring
  · simp only [h4, h3, h2, if_false]
    rw [mul_one]
    have : (4 : ℚ) * ((queue.queue.countP (fun r => decide (r.priority ≥ priority)) : Nat) : ℚ) =
        (((queue.queue.countP (fun r => decide (r.priority ≥ priority)) : Nat) : Int) * 4 : Int) := by
      push_cast
      ring
    rw [this, Int.floor_intCast]

/-- C15. `calculateWaitTime` returns the integer part of `4 * c * f`, where `c`
is the number of queued reservations whose priority is at least `p` and `f`
is 1/5 for Emergency, 1/2 for VIP, 7/10 for Premium and 1 for Normal: in exact
arithmetic for every queue, and in single-precision arithmetic for every queue
of at most 200 reservations (the capacity of the queue).  `addReservation`
stores `calculateWaitTime` of the queue before the insertion as the new
reservation's `estimatedWaitTime`. -/
theorem calculateWaitTime_spec [FloatArith F] (queue : ReservationQueue F)
    (customerName email phone : String) (type : Int) (eventName location dateTime : String)
    (numTickets : Int) (amount : F) (priority : Int) (now : Int) :
    (∀ (exact : ReservationQueue ℚ) (p : Int),
      calculateWaitTime exact p = waitEstimate exact.queue p) ∧
    (∀ (single : ReservationQueue Binary32) (p : Int), single.queue.length ≤ 200 →
      calculateWaitTime single p = waitEstimate single.queue p) ∧
    (∀ r, (addReservation queue customerName email phone type eventName location dateTime
        numTickets amount priority now).1 = some r →
      r.estimatedWaitTime = calculateWaitTime queue priority ∧
      r ∈ (addReservation queue customerName email phone type eventName location dateTime
        numTickets amount priority now).2.queue) := by
  refine ⟨calculateWaitTime_rat, calculateWaitTime_binary32, ?_⟩
  intro r hr
  by_cases hfull : MAX_QUEUE_SIZE ≤ queue.size
  · rw [addReservation_full _ _ _ _ _ _ _ _ _ _ _ _ hfull] at hr
    cases hr
  · rw [addReservation_ok _ _ _ _ _ _ _ _ _ _ _ _ (not_le.1 hfull)] at hr ⊢
    have hr' : newReservation queue customerName email phone type eventName location dateTime
        numTickets amount priority now = r := Option.some.inj hr
    subst hr'
    exact ⟨rfl, (insertByPriority_perm priority _ queue.queue).mem_iff.2
      (List.mem_cons_self _ _)⟩

theorem calculateWaitTime_spec_witness :
    calculateWaitTime sampleQueue PRIORITY_PREMIUM =
        waitEstimate sampleQueue.queue PRIORITY_PREMIUM ∧
      waitEstimate sampleQueue.queue PRIORITY_PREMIUM = 5 ∧
      ∃ r, (addReservation sampleQueue "Robert Garcia" "rob.garcia@email.com" "555-0106"
          RESERVATION_HOTEL "Grand Hotel Suite" "Downtown Manhattan" "2024-01-22 Check-in"
          1 450 PRIORITY_PREMIUM 40).1 = some r ∧
        r.estimatedWaitTime = calculateWaitTime sampleQueue PRIORITY_PREMIUM := by
  have h := calculateWaitTime_spec sampleQueue "Robert Garcia" "rob.garcia@email.com"
    "555-0106" RESERVATION_HOTEL "Grand Hotel Suite" "Downtown Manhattan"
    "2024-01-22 Check-in" 1 450 PRIORITY_PREMIUM 40
  refine ⟨h.1 sampleQueue PRIORITY_PREMIUM, ?_, _, rfl, (h.2.2 _ rfl).1⟩
  have hcount : sampleQueue.queue.countP (fun r => decide (r.priority ≥ PRIORITY_PREMIUM)) = 2 := by
    decide
  unfold waitEstimate priorityFactor
  rw [hcount]
  norm_num [PRIORITY_PREMIUM, PRIORITY_EMERGENCY, PRIORITY_VIP, Int.floor_eq_iff]


/-! ## C24: counters are numbered by position -/

/-- Replacing one entry by an entry with the same `counterId` keeps each
counter's `counterId` equal to its position plus one. -/
theorem counterIds_set (cs : List (Counter F)) (i : Nat) (counter replaced : Counter F)
    (hc : cs[i]? = some counter) (hid : replaced.counterId = counter.counterId)
    (h : ∀ (j : Nat) (c : Counter F), cs[j]? = some c → c.counterId = (j : Int) + 1) :
    ∀ (j : Nat) (c : Counter F), (cs.set i replaced)[j]? = some c →
      c.counterId = (j : Int) + 1 := by
  intro j c hj
  by_cases hij : i = j
  · subst hij
    have hlt : i < cs.length := by
      by_contra hge
      rw [List.getElem?_eq_none (not_lt.1 hge)] at hc
      cases hc
    rw [List.getElem?_set_self hlt] at hj
    cases hj
    rw [hid]
    exact h i counter hc
  · rw [List.getElem?_set_ne hij] at hj
    exact h j c hj

theorem reachable_counters [FloatArith F] {queue : ReservationQueue F} (h : Reachable queue) :
    queue.counterCount ≤ 15 ∧
      ∀ (j : Nat) (c : Counter F), queue.counters[j]? = some c →
        c.counterId = (j : Int) + 1 := by
  induction h with
  | create =>
    refine ⟨by simp [createReservationQueue, ReservationQueue.counterCount], ?_⟩
    intro j c hj
    simp [createReservationQueue] at hj
  | addCounter queue counterName operatorName specialization _ ih =>
    unfold addCounter
    split
    · exact ih
    · rename_i hlt
      refine ⟨?_, ?_⟩
      · unfold ReservationQueue.counterCount at hlt ⊢
        simp only [List.length_append, List.length_singleton]
        push_cast
        omega
      · intro j c hj
        show c.counterId = (j : Int) + 1
        have hj' : (queue.counters ++
            [({ counterId := queue.counterCount + 1
                counterName := counterName
                operatorName := operatorName
                specialization := specialization
                currentReservation := none
                isActive := 1
                totalProcessed := 0
                avgProcessingTime := FloatArith.ofInt 3 } : Counter F)])[j]? = some c := hj
        by_cases hjl : j < queue.counters.length
        · rw [List.getElem?_append_left hjl] at hj'
          exact ih.2 j c hj'
        · rw [List.getElem?_append_right (not_lt.1 hjl)] at hj'
          have hz : j - queue.counters.length = 0 := by
            by_contra hne
            rw [List.getElem?_eq_none (by simp; omega)] at hj'
            cases hj'
          rw [hz] at hj'
          simp only [List.getElem?_cons_zero, Option.some.injEq] at hj'
          rw [← hj']
          show queue.counterCount + 1 = (j : Int) + 1
          unfold ReservationQueue.counterCount
          have : j = queue.counters.length := by omega
          rw [this]
  | addReservation queue customerName email phone type eventName location dateTime numTickets
      amount priority now _ _ _ ih =>
    unfold addReservation
    split <;> exact ih
  | processNextReservation queue counterId now _ ih =>
    rcases processNextReservation_cases queue counterId now with
      ⟨hfail, -⟩ | ⟨counter, reservation, -, -, -, hc, -, -, -, hok⟩
    · rw [hfail]; exact ih
    · rw [hok]
      refine ⟨?_, counterIds_set queue.counters _ counter _ hc rfl ih.2⟩
      have := ih.1
      unfold ReservationQueue.counterCount at this ⊢
      simpa only [List.length_set] using this
  | confirmReservation queue counterId now _ ih =>
    rcases confirmReservation_cases queue counterId now with
      ⟨hfail, -⟩ | ⟨counter, reservation, -, -, hc, -, hok⟩
    · rw [hfail]; exact ih
    · rw [hok]
      refine ⟨?_, counterIds_set queue.counters _ counter _ hc rfl ih.2⟩
      have := ih.1
      unfold ReservationQueue.counterCount at this ⊢
      simpa only [List.length_set] using this
  | cancelReservation queue counterId _ ih =>
    rcases cancelReservation_cases queue counterId with
      ⟨hfail, -⟩ | ⟨counter, reservation, -, -, hc, -, hok⟩
    · rw [hfail]; exact ih
    · rw [hok]
      refine ⟨?_, counterIds_set queue.counters _ counter _ hc rfl ih.2⟩
      have := ih.1
      unfold ReservationQueue.counterCount at this ⊢
      simpa only [List.length_set] using this

/-- C24. `addCounter` with fewer than 15 counters appends one counter that is
active, has no `currentReservation`, `totalProcessed` 0 and `counterId` equal
to its 1-based position, and leaves the existing counters, the queue and the
totals unchanged; with 15 counters (or more) it changes nothing.  Hence in
every reachable state `counterCount <= 15` and `counters[i].counterId = i + 1`. -/
theorem addCounter_spec [FloatArith F] (queue : ReservationQueue F)
    (counterName operatorName : String) (specialization : Int) :
    (queue.counterCount < 15 →
      ∃ added : Counter F,
        addCounter queue counterName operatorName specialization =
          { queue with counters := queue.counters ++ [added] } ∧
        added.isActive = 1 ∧ added.currentReservation = none ∧ added.totalProcessed = 0 ∧
        added.counterId = ((queue.counters.length + 1 : Nat) : Int) ∧
        added.counterName = counterName ∧ added.operatorName = operatorName ∧
        added.specialization = specialization) ∧
    (15 ≤ queue.counterCount →
      addCounter queue counterName operatorName specialization = queue) ∧
    (Reachable queue →
      queue.counterCount ≤ 15 ∧
      ∀ (i : Nat) (c : Counter F), queue.counters[i]? = some c →
        c.counterId = (i : Int) + 1) := by
  refine ⟨?_, ?_, reachable_counters⟩
  · intro hlt
    have hnot : ¬ queue.counterCount ≥ 15 := by omega
    refine ⟨{ counterId := queue.counterCount + 1
              counterName := counterName
              operatorName := operatorName
              specialization := specialization
              currentReservation := none
              isActive := 1
              totalProcessed := 0
              avgProcessingTime := FloatArith.ofInt 3 },
      by simp only [addCounter, hnot, if_false], rfl, rfl, rfl, ?_, rfl, rfl, rfl⟩
    show queue.counterCount + 1 = _
    unfold ReservationQueue.counterCount
    push_cast
    rfl
  · intro hge
    simp only [addCounter, ge_iff_le, hge, if_true]

theorem addCounter_spec_witness :
    (∃ added : Counter ℚ,
        addCounter twoCounters "Train Reservations" "Carol Davis" RESERVATION_TRAIN =
          { twoCounters with counters := twoCounters.counters ++ [added] } ∧
        added.isActive = 1 ∧ added.currentReservation = none ∧ added.totalProcessed = 0 ∧
        added.counterId = 3) ∧
      sampleBusy.counterCount ≤ 15 ∧
      ∀ (i : Nat) (c : Counter ℚ), sampleBusy.counters[i]? = some c →
        c.counterId = (i : Int) + 1 := by
  obtain ⟨added, h1, h2, h3, h4, h5, -⟩ :=
    (addCounter_spec twoCounters "Train Reservations" "Carol Davis" RESERVATION_TRAIN).1
      (by decide)
  exact ⟨⟨added, h1, h2, h3, h4, h5⟩,
    (addCounter_spec sampleBusy "" "" 0).2.2 sampleBusy_reachable⟩

/-! ## C25: n Normal reservations, then one Emergency reservation -/

/-- When no queued reservation is below the priority, the scan runs to the end
of the list and the new node becomes the rear. -/
theorem scanInsert_rear (priority : Int) (node : Reservation F) (l : List (Reservation F))
    (h : ∀ x ∈ l, x.priority ≥ priority) : scanInsert priority node l = l ++ [node] := by
  induction l with
  | nil => rfl
  | cons current rest ih =>
    have hc : current.priority ≥ priority := h current (List.mem_cons_self _ _)
    simp only [scanInsert, hc, if_true, List.cons_append]
    rw [ih (fun x hx => h x (List.mem_cons_of_mem _ hx))]

/-- A Normal reservation joins a queue of Normal reservations at the rear. -/
theorem insertByPriority_normal_rear (node : Reservation F) (l : List (Reservation F))
    (h : ∀ x ∈ l, x.priority = PRIORITY_NORMAL) :
    insertByPriority PRIORITY_NORMAL node l = l ++ [node] := by
  cases l with
  | nil => rfl
  | cons front rest =>
    have hcond : ¬ (PRIORITY_NORMAL = PRIORITY_EMERGENCY ∨
        (PRIORITY_NORMAL = PRIORITY_VIP ∧ front.priority < PRIORITY_VIP)) := by
      rintro (h1 | ⟨h1, -⟩)
      · exact absurd h1 (by decide)
      · exact absurd h1 (by decide)
    simp only [insertByPriority, hcond, if_false]
    exact scanInsert_rear _ _ _ (fun x hx => le_of_eq (h x hx).symm)

/-- The queue after at most 200 Normal submissions to the empty queue: the
reservations in submission order, numbered from 1001. -/
theorem submitNormals_spec [FloatArith F] (normals : List (Submission F))
    (h : normals.length ≤ 200) :
    (submitNormals normals).size = (normals.length : Int) ∧
    (submitNormals normals).nextReservationId = 1001 + (normals.length : Int) ∧
    (submitNormals normals).queue.map submissionOf = normals ∧
    (∀ x ∈ (submitNormals normals).queue, x.priority = PRIORITY_NORMAL) ∧
    (submitNormals normals).queue.map (fun r => r.reservationId) =
      (List.range normals.length).map (fun (i : Nat) => (1001 : Int) + (i : Int)) := by
  induction normals using List.reverseRecOn with
  | nil =>
    refine ⟨rfl, rfl, rfl, ?_, rfl⟩
    intro x hx
    simp [submitNormals, createReservationQueue] at hx
  | append_singleton init last ih =>
    have hlen : init.length + 1 ≤ 200 := by simpa using h
    obtain ⟨h1, h2, h3, h4, h5⟩ := ih (by omega)
    have hroom : (submitNormals init).size < MAX_QUEUE_SIZE := by
      rw [h1]
      unfold MAX_QUEUE_SIZE
      omega
    have hstep : submitNormals (init ++ [last]) =
        submit (submitNormals init) last PRIORITY_NORMAL := by
      simp [submitNormals, List.foldl_append]
    rw [hstep]
    unfold submit
    rw [addReservation_ok _ _ _ _ _ _ _ _ _ _ _ _ hroom]
    simp only [insertByPriority_normal_rear _ _ h4, List.length_append, List.length_singleton,
      List.map_append, List.map_cons, List.map_nil, h3, h5]
    refine ⟨?_, ?_, rfl, ?_, ?_⟩
    · rw [h1]; push_cast; rfl
    · rw [h2]; push_cast; omega
    · intro x hx
      rcases List.mem_append.1 hx with hx | hx
      · exact h4 x hx
      · rw [List.mem_singleton.1 hx]
        rfl
    · rw [List.range_succ, List.map_append, List.map_singleton]
      congr 1
      show [(submitNormals init).nextReservationId] = _
      rw [h2]

/-- C25, counterexample. After 200 Normal submissions the queue is full: the
Emergency submission is rejected and the queue keeps its 200 reservations, so
it is not `[E, R1, ..., R200]`. -/
theorem emergency_after_200_normals_rejected :
    (addReservation (submitNormals (List.replicate 200 sampleSubmission))
        urgentSubmission.customerName urgentSubmission.email urgentSubmission.phone
        urgentSubmission.type urgentSubmission.eventName urgentSubmission.location
        urgentSubmission.dateTime urgentSubmission.numTickets urgentSubmission.amount
        PRIORITY_EMERGENCY urgentSubmission.now).1 = none ∧
      (submit (submitNormals (List.replicate 200 sampleSubmission)) urgentSubmission
        PRIORITY_EMERGENCY).queue.map submissionOf = List.replicate 200 sampleSubmission ∧
      (submit (submitNormals (List.replicate 200 sampleSubmission)) urgentSubmission
        PRIORITY_EMERGENCY).queue.length = 200 := by
  have hspec := submitNormals_spec (List.replicate 200 sampleSubmission)
    (by rw [List.length_replicate])
  have hfull : MAX_QUEUE_SIZE ≤ (submitNormals (List.replicate 200 sampleSubmission)).size := by
    rw [hspec.1, List.length_replicate]
    decide
  have hrej := addReservation_full (submitNormals (List.replicate 200 sampleSubmission))
    urgentSubmission.customerName urgentSubmission.email urgentSubmission.phone
    urgentSubmission.type urgentSubmission.eventName urgentSubmission.location
    urgentSubmission.dateTime urgentSubmission.numTickets urgentSubmission.amount
    PRIORITY_EMERGENCY urgentSubmission.now hfull
  have hsame : submit (submitNormals (List.replicate 200 sampleSubmission)) urgentSubmission
      PRIORITY_EMERGENCY = submitNormals (List.replicate 200 sampleSubmission) := by
    unfold submit
    rw [hrej]
  refine ⟨by rw [hrej], by rw [hsame]; exact hspec.2.2.1, ?_⟩
  rw [hsame]
  have := congrArg List.length hspec.2.2.1
  rw [List.length_map, List.length_replicate] at this
  exact this

/-- C25, amended. For every `n < 200` (the queue holds at most 200
reservations), submitting `n` Normal reservations `R1..Rn` to the empty queue
and then one Emergency reservation `E` yields the queue `[E, R1, ..., Rn]`:
`E` with id `1001 + n` at the front, then the Normal reservations in
submission order with ids `1001 .. 1000 + n`. -/
theorem emergency_after_normals [FloatArith F] (normals : List (Submission F))
    (urgent : Submission F) (h : normals.length < 200) :
    (submit (submitNormals normals) urgent PRIORITY_EMERGENCY).queue.map submissionOf =
      urgent :: normals ∧
    (submit (submitNormals normals) urgent PRIORITY_EMERGENCY).queue.map
        (fun r => r.priority) =
      PRIORITY_EMERGENCY :: List.replicate normals.length PRIORITY_NORMAL ∧
    (submit (submitNormals normals) urgent PRIORITY_EMERGENCY).queue.map
        (fun r => r.reservationId) =
      (1001 + (normals.length : Int)) ::
        (List.range normals.length).map (fun (i : Nat) => (1001 : Int) + (i : Int)) := by
  obtain ⟨h1, h2, h3, h4, h5⟩ := submitNormals_spec normals (by omega)
  have hroom : (submitNormals normals).size < MAX_QUEUE_SIZE := by
    rw [h1]
    unfold MAX_QUEUE_SIZE
    omega
  unfold submit
  rw [addReservation_ok _ _ _ _ _ _ _ _ _ _ _ _ hroom]
  simp only [insertByPriority_emergency, List.map_cons, h3, h5]
  have hl : (submitNormals normals).queue.length = normals.length := by
    have := congrArg List.length h3
    rwa [List.length_map] at this
  refine ⟨rfl, ?_, ?_⟩
  · congr 1
    rw [List.eq_replicate_iff]
    refine ⟨by rw [List.length_map, hl], ?_⟩
    intro p hp
    obtain ⟨x, hx, rfl⟩ := List.mem_map.1 hp
    exact h4 x hx
  · show (submitNormals normals).nextReservationId :: _ = _
    rw [h2]

theorem emergency_after_normals_witness :
    (submit (submitNormals [sampleSubmission, sampleSubmission, sampleSubmission])
        urgentSubmission PRIORITY_EMERGENCY).queue.map (fun r => r.reservationId) =
      [1004, 1001, 1002, 1003] ∧
    (submit (submitNormals [sampleSubmission, sampleSubmission, sampleSubmission])
        urgentSubmission PRIORITY_EMERGENCY).queue.map submissionOf =
      [urgentSubmission, sampleSubmission, sampleSubmission, sampleSubmission] :=
  ⟨(emergency_after_normals [sampleSubmission, sampleSubmission, sampleSubmission]
      urgentSubmission (by decide)).2.2,
    (emergency_after_normals [sampleSubmission, sampleSubmission, sampleSubmission]
      urgentSubmission (by decide)).1⟩
/-! ## C36: the front-insertion shortcut against the general scan -/

/-- C36. For every non-full reservation queue, sorted or not: for every
priority other than Emergency `addReservation` produces the queue of the
general scan (the loop of its last branch, which is the insertion before the
first reservation of strictly lower priority), so the VIP shortcut changes
nothing; for Emergency it produces that queue when the queue is empty or the
front reservation is a priority level other than Emergency. -/
theorem shortcut_agrees_with_scan [FloatArith F] (queue : ReservationQueue F)
    (customerName email phone : String) (type : Int) (eventName location dateTime : String)
    (numTickets : Int) (amount : F) (priority : Int) (now : Int)
    (hroom : queue.size < MAX_QUEUE_SIZE) :
    (priority ≠ PRIORITY_EMERGENCY →
      (addReservation queue customerName email phone type eventName location dateTime
          numTickets amount priority now).2.queue =
        scanInsert priority
          (newReservation queue customerName email phone type eventName location dateTime
            numTickets amount priority now) queue.queue ∧
      (addReservation queue customerName email phone type eventName location dateTime
          numTickets amount priority now).2.queue =
        stableScanInsert
          (newReservation queue customerName email phone type eventName location dateTime
            numTickets amount priority now) queue.queue) ∧
    (priority = PRIORITY_EMERGENCY →
      (∀ front, queue.queue.head? = some front →
        front.priority ≤ PRIORITY_EMERGENCY ∧ front.priority ≠ PRIORITY_EMERGENCY) →
      (addReservation queue customerName email phone type eventName location dateTime
          numTickets amount priority now).2.queue =
        scanInsert priority
          (newReservation queue customerName email phone type eventName location dateTime
            numTickets amount priority now) queue.queue ∧
      (addReservation queue customerName email phone type eventName location dateTime
          numTickets amount priority now).2.queue =
        stableScanInsert
          (newReservation queue customerName email phone type eventName location dateTime
            numTickets amount priority now) queue.queue) := by
  rw [addReservation_ok _ _ _ _ _ _ _ _ _ _ _ _ hroom]
  constructor
  · intro hp
    have h := insertByPriority_eq_stableScanInsert priority
      (newReservation queue customerName email phone type eventName location dateTime
        numTickets amount priority now) queue.queue rfl (Or.inl hp)
    exact ⟨h.trans (scanInsert_eq_stableScanInsert priority _ queue.queue rfl).symm, h⟩
  · intro _ hfront
    have h := insertByPriority_eq_stableScanInsert priority
      (newReservation queue customerName email phone type eventName location dateTime
        numTickets amount priority now) queue.queue rfl
      (Or.inr (fun front hf => lt_of_le_of_ne (hfront front hf).1 (hfront front hf).2))
    exact ⟨h.trans (scanInsert_eq_stableScanInsert priority _ queue.queue rfl).symm, h⟩

/-- The two halves at inputs that take the front-insertion branch. A VIP
reservation is added to `premiumFront`, whose front is Premium: the condition
of the shortcut holds, the new reservation 1003 is linked in front of 1002, and
that is the queue of the scan. An Emergency reservation is added to
`sampleQueue`, whose front is the VIP reservation 1004: the new reservation
1005 is linked in front of it, and that is the queue of the scan. -/
theorem shortcut_agrees_with_scan_witness :
    (premiumFront.size < MAX_QUEUE_SIZE ∧
      premiumFront.queue.map (fun r => (r.reservationId, r.priority)) =
        [(1002, PRIORITY_PREMIUM), (1001, PRIORITY_NORMAL)] ∧
      (∃ front, premiumFront.queue.head? = some front ∧ front.priority < PRIORITY_VIP) ∧
      (addReservation premiumFront "Lisa Williams" "lisa.w@email.com" "555-0104"
          RESERVATION_EVENT "Concert: Rock Legends" "Madison Square Garden" "2024-01-25 20:00"
          4 320 PRIORITY_VIP 20).2.queue =
        scanInsert PRIORITY_VIP
          (newReservation premiumFront "Lisa Williams" "lisa.w@email.com" "555-0104"
            RESERVATION_EVENT "Concert: Rock Legends" "Madison Square Garden"
            "2024-01-25 20:00" 4 320 PRIORITY_VIP 20) premiumFront.queue ∧
      (addReservation premiumFront "Lisa Williams" "lisa.w@email.com" "555-0104"
          RESERVATION_EVENT "Concert: Rock Legends" "Madison Square Garden" "2024-01-25 20:00"
          4 320 PRIORITY_VIP 20).2.queue.map (fun r => (r.reservationId, r.priority)) =
        [(1003, PRIORITY_VIP), (1002, PRIORITY_PREMIUM), (1001, PRIORITY_NORMAL)]) ∧
    (sampleQueue.size < MAX_QUEUE_SIZE ∧
      sampleQueue.queue.map (fun r => (r.reservationId, r.priority)) =
        [(1004, PRIORITY_VIP), (1002, PRIORITY_PREMIUM), (1001, PRIORITY_NORMAL),
          (1003, PRIORITY_NORMAL)] ∧
      (∀ front, sampleQueue.queue.head? = some front →
        front.priority ≤ PRIORITY_EMERGENCY ∧ front.priority ≠ PRIORITY_EMERGENCY) ∧
      (addReservation sampleQueue "Emergency Travel" "urgent@email.com" "555-0105"
          RESERVATION_FLIGHT "Emergency Flight" "Medical Emergency" "2024-01-16 ASAP"
          1 1200 PRIORITY_EMERGENCY 40).2.queue =
        scanInsert PRIORITY_EMERGENCY
          (newReservation sampleQueue "Emergency Travel" "urgent@email.com" "555-0105"
            RESERVATION_FLIGHT "Emergency Flight" "Medical Emergency" "2024-01-16 ASAP"
            1 1200 PRIORITY_EMERGENCY 40) sampleQueue.queue ∧
      (addReservation sampleQueue "Emergency Travel" "urgent@email.com" "555-0105"
          RESERVATION_FLIGHT "Emergency Flight" "Medical Emergency" "2024-01-16 ASAP"
          1 1200 PRIORITY_EMERGENCY 40).2.queue.map (fun r => (r.reservationId, r.priority)) =
        [(1005, PRIORITY_EMERGENCY), (1004, PRIORITY_VIP), (1002, PRIORITY_PREMIUM),
          (1001, PRIORITY_NORMAL), (1003, PRIORITY_NORMAL)]) := by
  have hfront : ∀ front, sampleQueue.queue.head? = some front →
      front.priority ≤ PRIORITY_EMERGENCY ∧ front.priority ≠ PRIORITY_EMERGENCY := by
    intro front hf
    have h : sampleQueue.queue.head?.map (fun r => r.priority) = some PRIORITY_VIP := by
      decide
    rw [hf] at h
    have hp : front.priority = PRIORITY_VIP := Option.some.inj h
    rw [hp]
    decide
  exact ⟨⟨by decide, by decide, ⟨_, rfl, by decide⟩,
      ((shortcut_agrees_with_scan premiumFront "Lisa Williams" "lisa.w@email.com" "555-0104"
        RESERVATION_EVENT "Concert: Rock Legends" "Madison Square Garden" "2024-01-25 20:00"
        4 320 PRIORITY_VIP 20 (by decide)).1 (by decide)).1,
      by decide⟩,
    ⟨by decide, by decide, hfront,
      ((shortcut_agrees_with_scan sampleQueue "Emergency Travel" "urgent@email.com" "555-0105"
        RESERVATION_FLIGHT "Emergency Flight" "Medical Emergency" "2024-01-16 ASAP"
        1 1200 PRIORITY_EMERGENCY 40 (by decide)).2 rfl hfront).1,
      by decide⟩⟩

/-! ## C37: the wait estimate is monotone -/

theorem priorityFactor_anti (p q : Int) (hpq : p ≤ q) (hq : q ≤ PRIORITY_EMERGENCY) :
    priorityFactor q ≤ priorityFactor p := by
  unfold priorityFactor
  unfold PRIORITY_EMERGENCY PRIORITY_VIP PRIORITY_PREMIUM at *
  split_ifs <;> first
    | (norm_num; done)
    | (exfalso; omega)

theorem priorityFactor_nonneg (p : Int) : 0 ≤ priorityFactor p := by
  unfold priorityFactor
  split_ifs <;> norm_num

theorem waitEstimate_anti (l : List (Reservation F)) (p q : Int) (hpq : p ≤ q)
    (hq : q ≤ PRIORITY_EMERGENCY) : waitEstimate l q ≤ waitEstimate l p := by
  unfold waitEstimate
  apply Int.floor_le_floor
  have hcount : l.countP (fun r => decide (r.priority ≥ q)) ≤
      l.countP (fun r => decide (r.priority ≥ p)) := by
    apply List.countP_mono_left
    intro r _ hr
    simp only [decide_eq_true_eq] at hr ⊢
    omega
  have hcount' : ((l.countP (fun r => decide (r.priority ≥ q)) : Nat) : ℚ) ≤
      ((l.countP (fun r => decide (r.priority ≥ p)) : Nat) : ℚ) := by
    exact_mod_cast hcount
  have hf := priorityFactor_anti p q hpq hq
  have hf0 := priorityFactor_nonneg q
  have hc0 : (0 : ℚ) ≤ ((l.countP (fun r => decide (r.priority ≥ p)) : Nat) : ℚ) :=
    Nat.cast_nonneg _
  calc (4 : ℚ) * ((l.countP (fun r => decide (r.priority ≥ q)) : Nat) : ℚ) * priorityFactor q
      ≤ 4 * ((l.countP (fun r => decide (r.priority ≥ p)) : Nat) : ℚ) * priorityFactor q := by
        apply mul_le_mul_of_nonneg_right _ hf0
        linarith
    _ ≤ 4 * ((l.countP (fun r => decide (r.priority ≥ p)) : Nat) : ℚ) * priorityFactor p := by
        apply mul_le_mul_of_nonneg_left hf
        linarith

theorem waitEstimate_grows (l added : List (Reservation F)) (p : Int)
    (h : l.countP (fun r => decide (r.priority ≥ p)) ≤
      added.countP (fun r => decide (r.priority ≥ p))) :
    waitEstimate l p ≤ waitEstimate added p := by
  unfold waitEstimate
  apply Int.floor_le_floor
  have h' : ((l.countP (fun r => decide (r.priority ≥ p)) : Nat) : ℚ) ≤
      ((added.countP (fun r => decide (r.priority ≥ p)) : Nat) : ℚ) := by
    exact_mod_cast h
  apply mul_le_mul_of_nonneg_right _ (priorityFactor_nonneg p)
  linarith

theorem addReservation_count [FloatArith F] (queue : ReservationQueue F)
    (customerName email phone : String) (type : Int) (eventName location dateTime : String)
    (numTickets : Int) (amount : F) (priority : Int) (now : Int) (p : Int) :
    queue.queue.countP (fun r => decide (r.priority ≥ p)) ≤
      (addReservation queue customerName email phone type eventName location dateTime
        numTickets amount priority now).2.queue.countP (fun r => decide (r.priority ≥ p)) ∧
    queue.queue.length ≤
      (addReservation queue customerName email phone type eventName location dateTime
        numTickets amount priority now).2.queue.length := by
  by_cases hfull : MAX_QUEUE_SIZE ≤ queue.size
  · rw [addReservation_full _ _ _ _ _ _ _ _ _ _ _ _ hfull]
    exact ⟨le_refl _, le_refl _⟩
  · rw [addReservation_ok _ _ _ _ _ _ _ _ _ _ _ _ (not_le.1 hfull)]
    constructor
    · show _ ≤ (insertByPriority priority _ queue.queue).countP _
      rw [(insertByPriority_perm priority _ queue.queue).countP_eq, List.countP_cons]
      omega
    · show _ ≤ (insertByPriority priority _ queue.queue).length
      rw [insertByPriority_length]
      omega

/-- C37. The wait estimate is monotone in the priority: for priority levels
`p ≤ q` (`q` at most Emergency) `calculateWaitTime queue q` is at most
`calculateWaitTime queue p`; and for a fixed priority the estimate of the queue
after `addReservation` is at least the estimate before. Both hold in exact
arithmetic for every queue, and in single precision for every queue of at most
200 reservations, the capacity. -/
theorem calculateWaitTime_monotone :
    (∀ (exact : ReservationQueue ℚ) (p q : Int), p ≤ q → q ≤ PRIORITY_EMERGENCY →
      calculateWaitTime exact q ≤ calculateWaitTime exact p) ∧
    (∀ (single : ReservationQueue Binary32) (p q : Int), single.queue.length ≤ 200 →
      p ≤ q → q ≤ PRIORITY_EMERGENCY →
      calculateWaitTime single q ≤ calculateWaitTime single p) ∧
    (∀ (exact : ReservationQueue ℚ) (customerName email phone : String) (type : Int)
      (eventName location dateTime : String) (numTickets : Int) (amount : ℚ)
      (priority now p : Int),
      calculateWaitTime exact p ≤
        calculateWaitTime
          (addReservation exact customerName email phone type eventName location dateTime
            numTickets amount priority now).2 p) ∧
    (∀ (single : ReservationQueue Binary32) (customerName email phone : String) (type : Int)
      (eventName location dateTime : String) (numTickets : Int) (amount : Binary32)
      (priority now p : Int),
      (addReservation single customerName email phone type eventName location dateTime
        numTickets amount priority now).2.queue.length ≤ 200 →
      calculateWaitTime single p ≤
        calculateWaitTime
          (addReservation single customerName email phone type eventName location dateTime
            numTickets amount priority now).2 p) := by
  refine ⟨?_, ?_, ?_, ?_⟩
  · intro exact p q hpq hq
    rw [calculateWaitTime_rat, calculateWaitTime_rat]
    exact waitEstimate_anti _ p q hpq hq
  · intro single p q hlen hpq hq
    rw [calculateWaitTime_binary32 _ _ hlen, calculateWaitTime_binary32 _ _ hlen]
    exact waitEstimate_anti _ p q hpq hq
  · intro exact customerName email phone type eventName location dateTime numTickets amount
      priority now p
    rw [calculateWaitTime_rat, calculateWaitTime_rat]
    exact waitEstimate_grows _ _ p
      (addReservation_count exact customerName email phone type eventName location dateTime
        numTickets amount priority now p).1
  · intro single customerName email phone type eventName location dateTime numTickets amount
      priority now p hlen
    have hc := addReservation_count single customerName email phone type eventName location
      dateTime numTickets amount priority now p
    rw [calculateWaitTime_binary32 _ _ (le_trans hc.2 hlen), calculateWaitTime_binary32 _ _ hlen]
    exact waitEstimate_grows _ _ p hc.1

/-- The estimates of the sample queue (priorities VIP, Premium, Normal, Normal)
for the four levels, Normal first. -/
theorem sampleQueue_estimates :
    [PRIORITY_NORMAL, PRIORITY_PREMIUM, PRIORITY_VIP, PRIORITY_EMERGENCY].map
        (fun p => waitEstimate sampleQueue.queue p) = [16, 5, 2, 0] := by
  have h1 : sampleQueue.queue.countP (fun r => decide (r.priority ≥ PRIORITY_NORMAL)) = 4 := by
    decide
  have h2 : sampleQueue.queue.countP (fun r => decide (r.priority ≥ PRIORITY_PREMIUM)) = 2 := by
    decide
  have h3 : sampleQueue.queue.countP (fun r => decide (r.priority ≥ PRIORITY_VIP)) = 1 := by
    decide
  have h4 : sampleQueue.queue.countP (fun r => decide (r.priority ≥ PRIORITY_EMERGENCY)) = 0 := by
    decide
  simp only [List.map_cons, List.map_nil, waitEstimate, priorityFactor, h1, h2, h3, h4]
  norm_num [PRIORITY_NORMAL, PRIORITY_PREMIUM, PRIORITY_EMERGENCY, PRIORITY_VIP,
    Int.floor_eq_iff]

/-! ## C35: the average processing time after a cancellation -/

/-- C35, the code at the failing input. Counter 1 has cancelled one reservation
and then confirmed one, taken at time 180 and confirmed at time 300: its only
confirmed processing time is 2 minutes. `cancelReservation` has counted the
cancelled reservation in `totalProcessed`, so the confirmation averages over
two: `avgProcessingTime` is `(3 * 1 + 2) / 2 = 5/2`, with the initial 3 minutes
in it, and not 2. -/
theorem average_counts_cancellation :
    Reachable cancelledThenConfirmed ∧
      cancelledThenConfirmed.totalConfirmed = 1 ∧
      cancelledThenConfirmed.totalCancelled = 1 ∧
      (∃ reservation,
        currentAt (processNextReservation
          (cancelReservation (processNextReservation sampleQueue 1 120).2 1) 1 180).2 1 =
            some reservation ∧
        reservation.processTime = 180 ∧
        (((300 - reservation.processTime : Int) : ℚ) / 60 = 2)) ∧
      ∃ counter, cancelledThenConfirmed.counters[((1 : Int) - 1).toNat]? = some counter ∧
        counter.totalProcessed = 2 ∧
        counter.avgProcessingTime = 5 / 2 ∧
        counter.avgProcessingTime ≠ 2 := by
  have hreach : Reachable cancelledThenConfirmed :=
    Reachable.confirmReservation _ _ _
      (Reachable.processNextReservation _ _ _
        (Reachable.cancelReservation _ _
          (Reachable.processNextReservation _ _ _ sampleQueue_reachable)))
  have havg : ∃ counter,
      cancelledThenConfirmed.counters[((1 : Int) - 1).toNat]? = some counter ∧
        counter.totalProcessed = 2 ∧
        counter.avgProcessingTime =
          (((3 : Int) : ℚ) * ((1 + 1 - 1 : Int) : ℚ) +
            ((300 - 180 : Int) : ℚ) / ((60 : Int) : ℚ)) / ((1 + 1 : Int) : ℚ) :=
    ⟨_, rfl, rfl, rfl⟩
  obtain ⟨counter, hc, hn, ha⟩ := havg
  have hval : counter.avgProcessingTime = 5 / 2 := by
    rw [ha]
    norm_num
  refine ⟨hreach, by decide, by decide, ⟨_, rfl, rfl, by norm_num⟩, counter, hc, hn, hval, ?_⟩
  rw [hval]
  norm_num

end ReservationCounter

namespace TokenSystem

open ReservationCounter (FloatArith)

variable {F : Type}

/-! ## The operations of the token system, case by case -/

theorem counter_of_valid (queue : TokenQueue F) (counterId : Int) (hlow : 1 ≤ counterId)
    (hhigh : counterId ≤ queue.counterCount) :
    (counterId - 1).toNat < queue.counters.length ∧
      ∃ counter, queue.counters[(counterId - 1).toNat]? = some counter := by
  have hlt : (counterId - 1).toNat < queue.counters.length := by
    unfold TokenQueue.counterCount at hhigh
    omega
  exact ⟨hlt, _, List.getElem?_eq_getElem hlt⟩

theorem lt_of_getElem?_eq_some {α : Type} {l : List α} {i : Nat} {a : α}
    (h : l[i]? = some a) : i < l.length := by
  by_contra hge
  rw [List.getElem?_eq_none (not_lt.1 hge)] at h
  cases h

theorem callNextToken_cases (queue : TokenQueue F) (counterId now : Int) :
    (callNextToken queue counterId now = (none, queue) ∧
      (queue.queue = [] ∨ counterId < 1 ∨ counterId > queue.counterCount ∨
        ∃ counter, queue.counters[(counterId - 1).toNat]? = some counter ∧
          (counter.isActive = 0 ∨
            ∃ held, counter.currentToken = some held ∧
              held.status = ServiceStatus.STATUS_SERVING))) ∨
    ∃ counter front rest,
      queue.queue = front :: rest ∧ 1 ≤ counterId ∧ counterId ≤ queue.counterCount ∧
      queue.counters[(counterId - 1).toNat]? = some counter ∧
      counter.isActive ≠ 0 ∧
      (∀ held, counter.currentToken = some held →
        held.status ≠ ServiceStatus.STATUS_SERVING) ∧
      callNextToken queue counterId now =
        (some { front with status := ServiceStatus.STATUS_CALLED, callTime := now },
          { queue with
            queue := rest
            size := queue.size - 1
            counters := queue.counters.set (counterId - 1).toNat
              { counter with
                currentToken := some
                  { front with status := ServiceStatus.STATUS_CALLED, callTime := now } } }) := by
  cases hq : queue.queue with
  | nil =>
    left
    exact ⟨by simp only [callNextToken, isQueueEmpty, hq, List.isEmpty_nil, if_true], Or.inl rfl⟩
  | cons front rest =>
    by_cases hid : counterId < 1 ∨ counterId > queue.counterCount
    · left
      refine ⟨by simp only [callNextToken, isQueueEmpty, hq, List.isEmpty_cons, hid, if_true,
        Bool.false_eq_true, if_false], ?_⟩
      rcases hid with h | h
      · exact Or.inr (Or.inl h)
      · exact Or.inr (Or.inr (Or.inl h))
    have hid1 : 1 ≤ counterId := by omega
    have hid2 : counterId ≤ queue.counterCount := by omega
    obtain ⟨-, counter, hc⟩ := counter_of_valid queue counterId hid1 hid2
    by_cases hact : counter.isActive = 0
    · left
      exact ⟨by simp only [callNextToken, isQueueEmpty, hq, List.isEmpty_cons, hid, hc, hact,
        if_true, Bool.false_eq_true, if_false],
        Or.inr (Or.inr (Or.inr ⟨counter, hc, Or.inl hact⟩))⟩
    cases hcur : counter.currentToken with
    | none =>
      right
      refine ⟨counter, front, rest, rfl, hid1, hid2, hc, hact, ?_, ?_⟩
      · intro held hheld
        rw [hcur] at hheld
        cases hheld
      · simp only [callNextToken, isQueueEmpty, hq, List.isEmpty_cons, hid, hc, hact, hcur,
          if_false, Bool.false_eq_true]
    | some held =>
      by_cases hs : held.status = ServiceStatus.STATUS_SERVING
      · left
        exact ⟨by simp only [callNextToken, isQueueEmpty, hq, List.isEmpty_cons, hid, hc, hact,
          hcur, hs, if_true, decide_True, Bool.false_eq_true, if_false],
          Or.inr (Or.inr (Or.inr ⟨counter, hc, Or.inr ⟨held, hcur, hs⟩⟩))⟩
      · right
        refine ⟨counter, front, rest, rfl, hid1, hid2, hc, hact, ?_, ?_⟩
        · intro held' hheld
          rw [hcur] at hheld
          have hsame : held = held' := Option.some.inj hheld
          rw [← hsame]
          exact hs
        · simp only [callNextToken, isQueueEmpty, hq, List.isEmpty_cons, hid, hc, hact, hcur,
            hs, if_false, decide_False, Bool.false_eq_true]

theorem startService_cases (queue : TokenQueue F) (counterId now : Int) :
    (startService queue counterId now = queue ∧
      (counterId < 1 ∨ counterId > queue.counterCount ∨
        ∃ counter, queue.counters[(counterId - 1).toNat]? = some counter ∧
          (counter.currentToken = none ∨
            ∃ token, counter.currentToken = some token ∧
              token.status ≠ ServiceStatus.STATUS_CALLED))) ∨
    ∃ counter token,
      1 ≤ counterId ∧ counterId ≤ queue.counterCount ∧
      queue.counters[(counterId - 1).toNat]? = some counter ∧
      counter.currentToken = some token ∧ token.status = ServiceStatus.STATUS_CALLED ∧
      startService queue counterId now =
        { queue with
          counters := queue.counters.set (counterId - 1).toNat
            { counter with
              currentToken := some
                { token with status := ServiceStatus.STATUS_SERVING, serviceTime := now } } } := by
  by_cases hid : counterId < 1 ∨ counterId > queue.counterCount
  · left
    refine ⟨by simp only [startService, hid, if_true], ?_⟩
    rcases hid with h | h
    · exact Or.inl h
    · exact Or.inr (Or.inl h)
  have hid1 : 1 ≤ counterId := by omega
  have hid2 : counterId ≤ queue.counterCount := by omega
  obtain ⟨-, counter, hc⟩ := counter_of_valid queue counterId hid1 hid2
  cases hcur : counter.currentToken with
  | none =>
    left
    exact ⟨by simp only [startService, hid, hc, hcur, if_false],
      Or.inr (Or.inr ⟨counter, hc, Or.inl hcur⟩)⟩
  | some token =>
    by_cases hs : token.status = ServiceStatus.STATUS_CALLED
    · right
      exact ⟨counter, token, hid1, hid2, hc, hcur, hs,
        by simp only [startService, hid, hc, hcur, hs, ne_eq, not_true_eq_false, if_false]⟩
    · left
      exact ⟨by simp only [startService, hid, hc, hcur, hs, ne_eq, not_false_eq_true, if_true,
        if_false], Or.inr (Or.inr ⟨counter, hc, Or.inr ⟨token, hcur, hs⟩⟩)⟩

theorem completeService_cases [FloatArith F] (queue : TokenQueue F) (counterId now : Int) :
    (completeService queue counterId now = queue ∧
      (counterId < 1 ∨ counterId > queue.counterCount ∨
        ∃ counter, queue.counters[(counterId - 1).toNat]? = some counter ∧
          counter.currentToken = none)) ∨
    ∃ counter token,
      1 ≤ counterId ∧ counterId ≤ queue.counterCount ∧
      queue.counters[(counterId - 1).toNat]? = some counter ∧
      counter.currentToken = some token ∧
      completeService queue counterId now =
        { queue with
          totalTokensServed := queue.totalTokensServed + 1
          counters := queue.counters.set (counterId - 1).toNat
            { counter with
              totalServed := counter.totalServed + 1
              avgServiceTime :=
                (counter.avgServiceTime * FloatArith.ofInt (counter.totalServed + 1 - 1) +
                    FloatArith.ofInt (now - token.serviceTime) / FloatArith.ofInt 60) /
                  FloatArith.ofInt (counter.totalServed + 1)
              currentToken := none } } := by
  by_cases hid : counterId < 1 ∨ counterId > queue.counterCount
  · left
    refine ⟨by simp only [completeService, hid, if_true], ?_⟩
    rcases hid with h | h
    · exact Or.inl h
    · exact Or.inr (Or.inl h)
  have hid1 : 1 ≤ counterId := by omega
  have hid2 : counterId ≤ queue.counterCount := by omega
  obtain ⟨-, counter, hc⟩ := counter_of_valid queue counterId hid1 hid2
  cases hcur : counter.currentToken with
  | none =>
    left
    exact ⟨by simp only [completeService, hid, hc, hcur, if_false],
      Or.inr (Or.inr ⟨counter, hc, hcur⟩)⟩
  | some token =>
    right
    exact ⟨counter, token, hid1, hid2, hc, hcur,
      by simp only [completeService, hid, hc, hcur, if_false]⟩

theorem toggleCounter_cases (queue : TokenQueue F) (counterId : Int) :
    toggleCounter queue counterId = queue ∨
    ∃ counter,
      queue.counters[(counterId - 1).toNat]? = some counter ∧
      toggleCounter queue counterId =
        { queue with
          counters := queue.counters.set (counterId - 1).toNat
            { counter with isActive := if counter.isActive = 0 then 1 else 0 } } := by
  unfold toggleCounter
  split
  · exact Or.inl rfl
  · split
    · exact Or.inl rfl
    · rename_i counter hc
      split
      · exact Or.inl rfl
      · exact Or.inr ⟨counter, hc, rfl⟩

theorem issueToken_cases (queue : TokenQueue F) (customerName : String) (type : Int)
    (serviceName : String) (now : Int) :
    issueToken queue customerName type serviceName now = (none, queue) ∨
    ∃ linked : List Token,
      (linked = queue.queue ++ [newToken queue customerName type serviceName now] ∨
        linked = newToken queue customerName type serviceName now :: queue.queue) ∧
      issueToken queue customerName type serviceName now =
        (some (newToken queue customerName type serviceName now),
          { queue with
            queue := linked
            nextTokenNumber := queue.nextTokenNumber + 1
            size := queue.size + 1
            totalTokensIssued := queue.totalTokensIssued + 1 }) := by
  unfold issueToken
  split
  · exact Or.inl rfl
  · right
    refine ⟨_, ?_, rfl⟩
    by_cases he : queue.queue = []
    · left
      simp [isQueueEmpty, he]
    · by_cases ht : type ≠ TOKEN_EMERGENCY
      · left
        simp [isQueueEmpty, he, ht]
      · right
        simp [isQueueEmpty, he, ht]

/-! ## Reachable states of the token system satisfy the invariant -/

/-- After one counter has been replaced, a held token is the token of the new
counter or was held before. -/
theorem mem_held_set (cs : List (ServiceCounter F)) (i : Nat) (counter after : ServiceCounter F)
    (hc : cs[i]? = some counter) (u : Token)
    (hu : u ∈ (cs.set i after).filterMap (fun c => c.currentToken)) :
    after.currentToken = some u ∨ u ∈ cs.filterMap (fun c => c.currentToken) := by
  obtain ⟨l₁, l₂, hcs, -, hset, -⟩ := ReservationCounter.getElem?_split hc
  rw [hset after] at hu
  rw [hcs]
  simp only [List.filterMap_append, List.filterMap_cons, List.mem_append] at hu ⊢
  rcases hu with hu | hu
  · exact Or.inr (Or.inl hu)
  · cases hafter : after.currentToken with
    | none =>
      rw [hafter] at hu
      right; right
      cases hcur : counter.currentToken with
      | none => simpa using hu
      | some v => exact List.mem_cons_of_mem _ (by simpa using hu)
    | some v =>
      rw [hafter] at hu
      rcases List.mem_cons.1 hu with rfl | hu
      · exact Or.inl rfl
      · right; right
        cases hcur : counter.currentToken with
        | none => simpa using hu
        | some w => exact List.mem_cons_of_mem _ (by simpa using hu)

/-- Every token queued after a call was queued before it or is the token the
call issued, whose number is the old `nextTokenNumber`. -/
theorem queue_after_step [FloatArith F] {queue after : TokenQueue F} (h : Step queue after) :
    ∀ x ∈ after.queue, x ∈ queue.queue ∨
      (x.tokenNumber = queue.nextTokenNumber ∧ x.status = ServiceStatus.STATUS_WAITING) := by
  intro x hx
  cases h with
  | addServiceCounter counterName =>
    unfold addServiceCounter at hx
    split at hx <;> exact Or.inl hx
  | issueToken customerName type serviceName now =>
    rcases issueToken_cases queue customerName type serviceName now with
      hfail | ⟨linked, hlinked, hok⟩
    · rw [hfail] at hx
      exact Or.inl hx
    · rw [hok] at hx
      have hx' : x ∈ queue.queue ∨ x = newToken queue customerName type serviceName now := by
        rcases hlinked with hl | hl
        · rw [show ({ queue with
              queue := linked
              nextTokenNumber := queue.nextTokenNumber + 1
              size := queue.size + 1
              totalTokensIssued := queue.totalTokensIssued + 1 } : TokenQueue F).queue = linked
            from rfl, hl] at hx
          rcases List.mem_append.1 hx with h1 | h1
          · exact Or.inl h1
          · exact Or.inr (by simpa using h1)
        · rw [show ({ queue with
              queue := linked
              nextTokenNumber := queue.nextTokenNumber + 1
              size := queue.size + 1
              totalTokensIssued := queue.totalTokensIssued + 1 } : TokenQueue F).queue = linked
            from rfl, hl] at hx
          rcases List.mem_cons.1 hx with h1 | h1
          · exact Or.inr h1
          · exact Or.inl h1
      rcases hx' with h1 | h1
      · exact Or.inl h1
      · right
        rw [h1]
        exact ⟨rfl, rfl⟩
  | callNextToken counterId now =>
    rcases callNextToken_cases queue counterId now with
      ⟨hfail, -⟩ | ⟨counter, front, rest, hq, -, -, -, -, -, hok⟩
    · rw [hfail] at hx
      exact Or.inl hx
    · rw [hok] at hx
      left
      rw [hq]
      exact List.mem_cons_of_mem _ hx
  | startService counterId now =>
    rcases startService_cases queue counterId now with
      ⟨hfail, -⟩ | ⟨counter, token, -, -, -, -, -, hok⟩
    · rw [hfail] at hx
      exact Or.inl hx
    · rw [hok] at hx
      exact Or.inl hx
  | completeService counterId now =>
    rcases completeService_cases queue counterId now with
      ⟨hfail, -⟩ | ⟨counter, token, -, -, -, -, hok⟩
    · rw [hfail] at hx
      exact Or.inl hx
    · rw [hok] at hx
      exact Or.inl hx
  | toggleCounter counterId =>
    rcases toggleCounter_cases queue counterId with hfail | ⟨counter, -, hok⟩
    · rw [hfail] at hx
      exact Or.inl hx
    · rw [hok] at hx
      exact Or.inl hx

theorem mem_held_of_counter (queue : TokenQueue F) (i : Nat) (counter : ServiceCounter F)
    (token : Token) (hc : queue.counters[i]? = some counter)
    (hcur : counter.currentToken = some token) : token ∈ heldTokens queue := by
  unfold heldTokens
  rw [List.mem_filterMap]
  exact ⟨counter, List.getElem?_mem hc, hcur⟩

theorem tokenInv_create : Inv (createTokenQueue : TokenQueue F) where
  waiting := by simp [createTokenQueue]
  held := by simp [createTokenQueue, heldTokens]
  fresh_queue := by simp [createTokenQueue]
  fresh_held := by simp [createTokenQueue, heldTokens]
  nodup := by simp [createTokenQueue]
  disjoint := by simp [createTokenQueue]

/-- A state that differs from a state satisfying the invariant only in totals
and in one counter, whose token (if it has one) has the number of a token held
before and status `STATUS_CALLED` or `STATUS_SERVING`, satisfies it again. -/
theorem inv_of_set (queue after : TokenQueue F) (i : Nat) (counter replaced : ServiceCounter F)
    (hinv : Inv queue) (hc : queue.counters[i]? = some counter)
    (hqueue : after.queue = queue.queue)
    (hnext : after.nextTokenNumber = queue.nextTokenNumber)
    (hcounters : after.counters = queue.counters.set i replaced)
    (hnew : ∀ u, replaced.currentToken = some u →
      (u.status = ServiceStatus.STATUS_CALLED ∨ u.status = ServiceStatus.STATUS_SERVING) ∧
        ∃ v ∈ heldTokens queue, v.tokenNumber = u.tokenNumber) : Inv after := by
  have hmem : ∀ u ∈ heldTokens after,
      (u.status = ServiceStatus.STATUS_CALLED ∨ u.status = ServiceStatus.STATUS_SERVING) ∧
        ∃ v ∈ heldTokens queue, v.tokenNumber = u.tokenNumber := by
    intro u hu
    unfold heldTokens at hu
    rw [hcounters] at hu
    rcases mem_held_set queue.counters i counter replaced hc u hu with h1 | h1
    · exact hnew u h1
    · exact ⟨hinv.held u h1, u, h1, rfl⟩
  exact
    { waiting := by rw [hqueue]; exact hinv.waiting
      held := fun u hu => (hmem u hu).1
      fresh_queue := by rw [hqueue, hnext]; exact hinv.fresh_queue
      fresh_held := by
        intro u hu
        obtain ⟨-, v, hv, hvu⟩ := hmem u hu
        rw [hnext, ← hvu]
        exact hinv.fresh_held v hv
      nodup := by rw [hqueue]; exact hinv.nodup
      disjoint := by
        intro x hx u hu
        obtain ⟨-, v, hv, hvu⟩ := hmem u hu
        rw [← hvu]
        rw [hqueue] at hx
        exact hinv.disjoint x hx v hv }

theorem inv_step [FloatArith F] {queue after : TokenQueue F} (hinv : Inv queue)
    (h : Step queue after) : Inv after := by
  cases h with
  | addServiceCounter counterName =>
    unfold addServiceCounter
    split
    · exact hinv
    · exact
        { waiting := hinv.waiting
          held := by simpa [heldTokens, List.filterMap_append] using hinv.held
          fresh_queue := hinv.fresh_queue
          fresh_held := by simpa [heldTokens, List.filterMap_append] using hinv.fresh_held
          nodup := hinv.nodup
          disjoint := by simpa [heldTokens, List.filterMap_append] using hinv.disjoint }
  | issueToken customerName type serviceName now =>
    have hmem := queue_after_step (Step.issueToken queue customerName type serviceName now)
    rcases issueToken_cases queue customerName type serviceName now with
      hfail | ⟨linked, hlinked, hok⟩
    · rw [hfail]
      exact hinv
    · rw [hok] at hmem ⊢
      have hnotin : queue.nextTokenNumber ∉ queue.queue.map (fun t => t.tokenNumber) := by
        intro hin
        obtain ⟨t, ht, hnum⟩ := List.mem_map.1 hin
        have := hinv.fresh_queue t ht
        omega
      exact
        { waiting := by
            intro x hx
            rcases hmem x hx with h1 | h1
            · exact hinv.waiting x h1
            · exact h1.2
          held := hinv.held
          fresh_queue := by
            intro x hx
            show x.tokenNumber < queue.nextTokenNumber + 1
            rcases hmem x hx with h1 | h1
            · have := hinv.fresh_queue x h1
              omega
            · omega
          fresh_held := by
            intro u hu
            show u.tokenNumber < queue.nextTokenNumber + 1
            have := hinv.fresh_held u hu
            omega
          nodup := by
            show (linked.map (fun t => t.tokenNumber)).Nodup
            rcases hlinked with hl | hl
            · rw [hl, List.map_append]
              refine List.Nodup.append hinv.nodup (by simp) ?_
              intro a ha hb
              have hb' : a = queue.nextTokenNumber := by simpa [newToken] using hb
              rw [hb'] at ha
              exact hnotin ha
            · rw [hl, List.map_cons]
              exact List.nodup_cons.2 ⟨hnotin, hinv.nodup⟩
          disjoint := by
            intro x hx u hu
            rcases hmem x hx with h1 | h1
            · exact hinv.disjoint x h1 u hu
            · have := hinv.fresh_held u hu
              omega }
  | callNextToken counterId now =>
    rcases callNextToken_cases queue counterId now with
      ⟨hfail, -⟩ | ⟨counter, front, rest, hq, -, -, hc, -, -, hok⟩
    · rw [hfail]
      exact hinv
    · rw [hok]
      have hfront : front ∈ queue.queue := by rw [hq]; exact List.mem_cons_self _ _
      have hrest : ∀ x ∈ rest, x ∈ queue.queue := fun x hx => by
        rw [hq]; exact List.mem_cons_of_mem _ hx
      have hnd := hinv.nodup
      rw [hq, List.map_cons, List.nodup_cons] at hnd
      have hmem : ∀ u ∈ heldTokens ({ queue with
          queue := rest
          size := queue.size - 1
          counters := queue.counters.set (counterId - 1).toNat
            { counter with
              currentToken := some
                { front with status := ServiceStatus.STATUS_CALLED, callTime := now } } } :
          TokenQueue F),
          u = { front with status := ServiceStatus.STATUS_CALLED, callTime := now } ∨
            u ∈ heldTokens queue := by
        intro u hu
        rcases mem_held_set queue.counters (counterId - 1).toNat counter _ hc u hu with h1 | h1
        · exact Or.inl (Option.some.inj h1).symm
        · exact Or.inr h1
      exact
        { waiting := fun x hx => hinv.waiting x (hrest x hx)
          held := by
            intro u hu
            rcases hmem u hu with h1 | h1
            · rw [h1]
              exact Or.inl rfl
            · exact hinv.held u h1
          fresh_queue := fun x hx => hinv.fresh_queue x (hrest x hx)
          fresh_held := by
            intro u hu
            rcases hmem u hu with h1 | h1
            · rw [h1]
              exact hinv.fresh_queue front hfront
            · exact hinv.fresh_held u h1
          nodup := hnd.2
          disjoint := by
            intro x hx u hu
            rcases hmem u hu with h1 | h1
            · rw [h1]
              intro heq
              exact hnd.1 (List.mem_map.2 ⟨x, hx, heq⟩)
            · exact hinv.disjoint x (hrest x hx) u h1 }
  | startService counterId now =>
    rcases startService_cases queue counterId now with
      ⟨hfail, -⟩ | ⟨counter, token, -, -, hc, hcur, -, hok⟩
    · rw [hfail]
      exact hinv
    · rw [hok]
      refine inv_of_set queue _ _ counter _ hinv hc rfl rfl rfl ?_
      intro u hu
      have hu' : u = { token with status := ServiceStatus.STATUS_SERVING, serviceTime := now } :=
        (Option.some.inj hu).symm
      rw [hu']
      exact ⟨Or.inr rfl, token, mem_held_of_counter queue _ counter token hc hcur, rfl⟩
  | completeService counterId now =>
    rcases completeService_cases queue counterId now with
      ⟨hfail, -⟩ | ⟨counter, token, -, -, hc, -, hok⟩
    · rw [hfail]
      exact hinv
    · rw [hok]
      refine inv_of_set queue _ _ counter _ hinv hc rfl rfl rfl ?_
      intro u hu
      cases hu
  | toggleCounter counterId =>
    rcases toggleCounter_cases queue counterId with hfail | ⟨counter, hc, hok⟩
    · rw [hfail]
      exact hinv
    · rw [hok]
      refine inv_of_set queue _ _ counter _ hinv hc rfl rfl rfl ?_
      intro u hu
      have hu' : counter.currentToken = some u := hu
      have hheld := mem_held_of_counter queue _ counter u hc hu'
      exact ⟨hinv.held u hheld, u, hheld, rfl⟩

/-- Every reachable state of the token system satisfies the invariant. -/
theorem tokenReachable_inv [FloatArith F] {queue : TokenQueue F} (h : Reachable queue) :
    Inv queue := by
  induction h with
  | create => exact tokenInv_create
  | step queue after _ hstep ih => exact inv_step ih hstep

/-! ## C16: the running average is the incremental mean -/

/-- Over the rationals, the update written in the code is the incremental
mean. -/
theorem mean_update_rat (avg : ℚ) (elapsedSeconds served : Int) (h : 0 ≤ served) :
    (avg * ((served + 1 - 1 : Int) : ℚ) + ((elapsedSeconds : Int) : ℚ) / ((60 : Int) : ℚ)) /
        ((served + 1 : Int) : ℚ) =
      ReservationCounter.incrementalMean avg ((elapsedSeconds : ℚ) / 60) (served + 1) := by
  have hne : ((served : ℚ) + 1) ≠ 0 := by
    have : (0 : ℚ) ≤ (served : ℚ) := by exact_mod_cast h
    positivity
  unfold ReservationCounter.incrementalMean
  push_cast
  field_simp
  ring

/-- C16. Over exact (rational) arithmetic, the update of the running average
performed on completion, `(avg * (n - 1) + elapsed) / n` with `n` the served
count after its increment (`n >= 1`), is the incremental mean
`avg + (elapsed - avg) / n`: in `confirmReservation` of the reservation
counter and in `completeService` of the token system. -/
theorem running_average_incremental :
    (∀ (queue : ReservationCounter.ReservationQueue ℚ) (counterId now : Int)
        (counter : ReservationCounter.Counter ℚ)
        (reservation : ReservationCounter.Reservation ℚ),
      1 ≤ counterId → counterId ≤ queue.counterCount →
      queue.counters[(counterId - 1).toNat]? = some counter →
      counter.currentReservation = some reservation → 0 ≤ counter.totalProcessed →
      ∃ after,
        (ReservationCounter.confirmReservation queue counterId now).counters[
          (counterId - 1).toNat]? = some after ∧
        after.totalProcessed = counter.totalProcessed + 1 ∧
        after.avgProcessingTime =
          ReservationCounter.incrementalMean counter.avgProcessingTime
            (((now - reservation.processTime : Int) : ℚ) / 60) (counter.totalProcessed + 1)) ∧
    (∀ (queue : TokenQueue ℚ) (counterId now : Int) (counter : ServiceCounter ℚ)
        (token : Token),
      1 ≤ counterId → counterId ≤ queue.counterCount →
      queue.counters[(counterId - 1).toNat]? = some counter →
      counter.currentToken = some token → 0 ≤ counter.totalServed →
      ∃ after,
        (completeService queue counterId now).counters[(counterId - 1).toNat]? = some after ∧
        after.totalServed = counter.totalServed + 1 ∧
        after.avgServiceTime =
          ReservationCounter.incrementalMean counter.avgServiceTime
            (((now - token.serviceTime : Int) : ℚ) / 60) (counter.totalServed + 1)) := by
  constructor
  · intro queue counterId now counter reservation hlow hhigh hc hcur hserved
    rcases ReservationCounter.confirmReservation_cases queue counterId now with
      ⟨-, hwhy⟩ | ⟨counter', reservation', -, -, hc', hcur', hok⟩
    · exfalso
      rcases hwhy with h | h | ⟨c, hc', h⟩
      · omega
      · omega
      · rw [hc] at hc'
        cases hc'
        rw [hcur] at h
        cases h
    · rw [hc] at hc'
      cases hc'
      rw [hcur] at hcur'
      cases hcur'
      rw [hok]
      refine ⟨_, List.getElem?_set_self (lt_of_getElem?_eq_some hc), rfl, ?_⟩
      exact mean_update_rat counter.avgProcessingTime (now - reservation.processTime)
        counter.totalProcessed hserved
  · intro queue counterId now counter token hlow hhigh hc hcur hserved
    rcases completeService_cases queue counterId now with
      ⟨-, hwhy⟩ | ⟨counter', token', -, -, hc', hcur', hok⟩
    · exfalso
      rcases hwhy with h | h | ⟨c, hc', h⟩
      · omega
      · omega
      · rw [hc] at hc'
        cases hc'
        rw [hcur] at h
        cases h
    · rw [hc] at hc'
      cases hc'
      rw [hcur] at hcur'
      cases hcur'
      rw [hok]
      refine ⟨_, List.getElem?_set_self (lt_of_getElem?_eq_some hc), rfl, ?_⟩
      exact mean_update_rat counter.avgServiceTime (now - token.serviceTime)
        counter.totalServed hserved

theorem running_average_incremental_witness :
    ∃ after, (completeService servingOne 1 420).counters[(1 - 1 : Int).toNat]? = some after ∧
      after.totalServed = 1 ∧
      after.avgServiceTime =
        ReservationCounter.incrementalMean 5 (((420 - 120 : Int) : ℚ) / 60) 1 := by
  obtain ⟨after, h1, h2, h3⟩ :=
    running_average_incremental.2 servingOne 1 420 _ _ (by decide) (by decide) rfl rfl
      (by decide)
  exact ⟨after, h1, h2, h3⟩

/-! ## Concrete states of the token system are reachable -/

theorem twoWaiting_reachable : Reachable twoWaiting :=
  Reachable.step _ _
    (Reachable.step _ _
      (Reachable.step _ _ Reachable.create (Step.addServiceCounter _ _))
      (Step.issueToken _ _ _ _ _))
    (Step.issueToken _ _ _ _ _)

theorem calledOnce_reachable : Reachable calledOnce :=
  Reachable.step _ _ twoWaiting_reachable (Step.callNextToken _ _ _)

theorem servingOne_reachable : Reachable servingOne :=
  Reachable.step _ _ calledOnce_reachable (Step.startService _ _ _)

/-! ## C17: calling the next token at a counter that holds one -/

/-- C17, counterexample. Counter 1 holds token 1 in `STATUS_CALLED` (called,
service not started) and token 2 waits. `callNextToken` for counter 1 does not
fail: it returns token 2, empties the queue and makes token 2 the counter's
`currentToken`; token 1 is no longer referenced. -/
theorem callNextToken_replaces_called_token :
    Reachable calledOnce ∧
      (heldTokens calledOnce).map (fun t => (t.tokenNumber, t.status)) =
        [(1, ServiceStatus.STATUS_CALLED)] ∧
      calledOnce.queue.map (fun t => t.tokenNumber) = [2] ∧
      (callNextToken calledOnce 1 200).1.map (fun t => t.tokenNumber) = some 2 ∧
      (callNextToken calledOnce 1 200).2.queue = [] ∧
      (heldTokens (callNextToken calledOnce 1 200).2).map (fun t => t.tokenNumber) = [2] ∧
      ¬ ((callNextToken calledOnce 1 200).1 = none ∧
        (callNextToken calledOnce 1 200).2.queue = calledOnce.queue) := by
  refine ⟨calledOnce_reachable, by decide, by decide, by decide, by decide, by decide, ?_⟩
  decide

/-- C17, amended. `callNextToken` on a counter whose `currentToken` is non-null
and in `STATUS_SERVING` fails (returns `NULL`) and leaves the queue, the
counters and all totals unchanged. -/
theorem callNextToken_serving_fails (queue : TokenQueue F) (counterId now : Int)
    (counter : ServiceCounter F) (held : Token)
    (hc : queue.counters[(counterId - 1).toNat]? = some counter)
    (hcur : counter.currentToken = some held)
    (hserving : held.status = ServiceStatus.STATUS_SERVING) :
    callNextToken queue counterId now = (none, queue) := by
  rcases callNextToken_cases queue counterId now with
    ⟨hfail, -⟩ | ⟨counter', front, rest, -, -, -, hc', -, hnot, -⟩
  · exact hfail
  · rw [hc] at hc'
    cases hc'
    exact absurd hserving (hnot held hcur)

theorem callNextToken_serving_fails_witness :
    callNextToken servingOne 1 200 = (none, servingOne) :=
  callNextToken_serving_fails servingOne 1 200 _ _ rfl rfl rfl

/-! ## C18: starting the service -/

/-- C18. `startService` succeeds (changes the state) exactly when `counterId`
is in `1..counterCount` and the counter holds a token whose status is
`STATUS_CALLED`; on success the only change is that this token gets status
`STATUS_SERVING` and `serviceTime`; in every other case the state is
unchanged. -/
theorem startService_spec (queue : TokenQueue F) (counterId now : Int) :
    (startService queue counterId now ≠ queue ↔
      (1 ≤ counterId ∧ counterId ≤ queue.counterCount ∧
        ∃ counter token, queue.counters[(counterId - 1).toNat]? = some counter ∧
          counter.currentToken = some token ∧
          token.status = ServiceStatus.STATUS_CALLED)) ∧
    (∀ counter token, 1 ≤ counterId → counterId ≤ queue.counterCount →
      queue.counters[(counterId - 1).toNat]? = some counter →
      counter.currentToken = some token → token.status = ServiceStatus.STATUS_CALLED →
      startService queue counterId now =
        { queue with
          counters := queue.counters.set (counterId - 1).toNat
            { counter with
              currentToken := some
                { token with status := ServiceStatus.STATUS_SERVING, serviceTime := now } } }) ∧
    (¬ (1 ≤ counterId ∧ counterId ≤ queue.counterCount ∧
        ∃ counter token, queue.counters[(counterId - 1).toNat]? = some counter ∧
          counter.currentToken = some token ∧
          token.status = ServiceStatus.STATUS_CALLED) →
      startService queue counterId now = queue) := by
  rcases startService_cases queue counterId now with
    ⟨hfail, hwhy⟩ | ⟨counter, token, hlow, hhigh, hc, hcur, hs, hok⟩
  · have hnot : ¬ (1 ≤ counterId ∧ counterId ≤ queue.counterCount ∧
        ∃ counter token, queue.counters[(counterId - 1).toNat]? = some counter ∧
          counter.currentToken = some token ∧
          token.status = ServiceStatus.STATUS_CALLED) := by
      rintro ⟨h1, h2, c, t, hc, hcur, hs⟩
      rcases hwhy with h | h | ⟨c', hc', h⟩
      · omega
      · omega
      · rw [hc] at hc'
        cases hc'
        rcases h with h | ⟨t', ht', hs'⟩
        · rw [hcur] at h
          cases h
        · rw [hcur] at ht'
          cases ht'
          exact hs' hs
    refine ⟨⟨fun h => absurd hfail h, fun h => absurd h hnot⟩, ?_, fun _ => hfail⟩
    intro c t h1 h2 hc hcur hs
    exact absurd ⟨h1, h2, c, t, hc, hcur, hs⟩ hnot
  · have hlt := lt_of_getElem?_eq_some hc
    have hne : startService queue counterId now ≠ queue := by
      intro heq
      have hcs : (startService queue counterId now).counters[(counterId - 1).toNat]? =
          queue.counters[(counterId - 1).toNat]? := by rw [heq]
      rw [hok, hc] at hcs
      simp only [List.getElem?_set_self hlt, Option.some.injEq] at hcs
      have htok := congrArg ServiceCounter.currentToken hcs
      simp only [hcur, Option.some.injEq] at htok
      have hst := congrArg Token.status htok
      simp only [hs] at hst
      cases hst
    refine ⟨⟨fun _ => ⟨hlow, hhigh, counter, token, hc, hcur, hs⟩, fun _ => hne⟩, ?_,
      fun hnot => absurd ⟨hlow, hhigh, counter, token, hc, hcur, hs⟩ hnot⟩
    intro c t _ _ hc' hcur' _
    rw [hc] at hc'
    cases hc'
    rw [hcur] at hcur'
    cases hcur'
    exact hok

/-! ## C19: completing a token that was never started -/

/-- C19, the code at the failing input. Counter 1 holds token 1 in
`STATUS_CALLED`; `startService` was never called for it. `completeService`
for counter 1 completes it all the same: `totalTokensServed` and the counter's
`totalServed` go from 0 to 1, the counter is released, and the average service
time is computed from the token's unset `serviceTime` (0), here at time 200. -/
theorem completeService_completes_called_token :
    Reachable calledOnce ∧
      (heldTokens calledOnce).map (fun t => (t.tokenNumber, t.status, t.serviceTime)) =
        [(1, ServiceStatus.STATUS_CALLED, 0)] ∧
      calledOnce.totalTokensServed = 0 ∧
      calledOnce.counters.map (fun c => c.totalServed) = [0] ∧
      (completeService calledOnce 1 200).totalTokensServed = 1 ∧
      (completeService calledOnce 1 200).counters.map
        (fun c => (c.totalServed, c.currentToken)) = [(1, none)] ∧
      (completeService calledOnce 1 200).counters.map (fun c => c.avgServiceTime) =
        [(200 - 0) / 60] :=
  ⟨calledOnce_reachable, by decide, by decide, by decide, by decide, by decide,
    by with_unfolding_all rfl⟩

/-! ## C20: lifecycle and ownership -/

/-- C20. In every reachable state of the token system every queued token has
status `STATUS_WAITING` and every token held as a counter's `currentToken`
has status `STATUS_CALLED` or `STATUS_SERVING`; and no call of an operation
puts a token held by a counter back into the queue: after the call no queued
token has the number of a token that a counter held before it. -/
theorem reachable_lifecycle [FloatArith F] (queue : TokenQueue F) (h : Reachable queue) :
    (∀ t ∈ queue.queue, t.status = ServiceStatus.STATUS_WAITING) ∧
    (∀ t ∈ heldTokens queue,
      t.status = ServiceStatus.STATUS_CALLED ∨ t.status = ServiceStatus.STATUS_SERVING) ∧
    (∀ after, Step queue after →
      ∀ x ∈ after.queue, ∀ u ∈ heldTokens queue, x.tokenNumber ≠ u.tokenNumber) := by
  have hinv := tokenReachable_inv h
  refine ⟨hinv.waiting, hinv.held, ?_⟩
  intro after hstep x hx u hu
  rcases queue_after_step hstep x hx with h1 | h1
  · exact hinv.disjoint x h1 u hu
  · have := hinv.fresh_held u hu
    omega

theorem reachable_lifecycle_witness :
    Reachable calledOnce ∧
      (∀ t ∈ calledOnce.queue, t.status = ServiceStatus.STATUS_WAITING) ∧
      (∀ t ∈ heldTokens calledOnce,
        t.status = ServiceStatus.STATUS_CALLED ∨ t.status = ServiceStatus.STATUS_SERVING) ∧
      (∀ x ∈ (issueToken calledOnce "Emergency Case" TOKEN_EMERGENCY "Urgent Transaction"
          90).2.queue, ∀ u ∈ heldTokens calledOnce, x.tokenNumber ≠ u.tokenNumber) :=
  ⟨calledOnce_reachable,
    (reachable_lifecycle calledOnce calledOnce_reachable).1,
    (reachable_lifecycle calledOnce calledOnce_reachable).2.1,
    (reachable_lifecycle calledOnce calledOnce_reachable).2.2 _ (Step.issueToken _ _ _ _ _)⟩

/-! ## C21: conservation of tokens -/

/-- C21, the code at the failing input. Counter 1 holds token 1 (called, not
started) and token 2 waits; both were issued, none was served.
`callNextToken` for counter 1 succeeds and replaces token 1 by token 2: the
state reached has `totalTokensIssued = 2` but `size = 0`, one counter with a
token and `totalTokensServed = 0`. Token 1 is lost. -/
theorem callNextToken_loses_token :
    Reachable (callNextToken calledOnce 1 200).2 ∧
      (callNextToken calledOnce 1 200).2.totalTokensIssued = 2 ∧
      (callNextToken calledOnce 1 200).2.size = 0 ∧
      (callNextToken calledOnce 1 200).2.queue = [] ∧
      (heldTokens (callNextToken calledOnce 1 200).2).map (fun t => t.tokenNumber) = [2] ∧
      (callNextToken calledOnce 1 200).2.totalTokensServed = 0 ∧
      (callNextToken calledOnce 1 200).2.totalTokensIssued ≠
        (callNextToken calledOnce 1 200).2.size +
          ((heldTokens (callNextToken calledOnce 1 200).2).length : Int) +
          (callNextToken calledOnce 1 200).2.totalTokensServed :=
  ⟨Reachable.step _ _ calledOnce_reachable (Step.callNextToken _ _ _),
    by decide, by decide, by decide, by decide, by decide, by decide⟩

/-! ## C22: order of the waiting tokens -/

theorem issueToken_linked (queue : TokenQueue F) (customerName : String) (type : Int)
    (serviceName : String) (now : Int) :
    issueToken queue customerName type serviceName now = (none, queue) ∨
    ∃ linked : List Token,
      ((type ≠ TOKEN_EMERGENCY ∧
          linked = queue.queue ++ [newToken queue customerName type serviceName now]) ∨
        (type = TOKEN_EMERGENCY ∧
          linked = newToken queue customerName type serviceName now :: queue.queue)) ∧
      issueToken queue customerName type serviceName now =
        (some (newToken queue customerName type serviceName now),
          { queue with
            queue := linked
            nextTokenNumber := queue.nextTokenNumber + 1
            size := queue.size + 1
            totalTokensIssued := queue.totalTokensIssued + 1 }) := by
  unfold issueToken
  split
  · exact Or.inl rfl
  · right
    refine ⟨_, ?_, rfl⟩
    by_cases ht : type = TOKEN_EMERGENCY
    · right
      refine ⟨ht, ?_⟩
      by_cases he : queue.queue = []
      · simp [isQueueEmpty, he]
      · simp [isQueueEmpty, he, ht]
    · left
      refine ⟨ht, ?_⟩
      by_cases he : queue.queue = []
      · simp [isQueueEmpty, he]
      · simp [isQueueEmpty, he, ht]

/-- The order the code keeps among waiting tokens: no Emergency token behind a
token of another type, and tokens of other types in the order of their
numbers. -/
theorem order_step [FloatArith F] {queue after : TokenQueue F} (hinv : Inv queue)
    (hord : queue.queue.Pairwise (fun a b =>
      (b.type = TOKEN_EMERGENCY → a.type = TOKEN_EMERGENCY) ∧
      (a.type ≠ TOKEN_EMERGENCY → b.type ≠ TOKEN_EMERGENCY → a.tokenNumber < b.tokenNumber)))
    (h : Step queue after) :
    after.queue.Pairwise (fun a b =>
      (b.type = TOKEN_EMERGENCY → a.type = TOKEN_EMERGENCY) ∧
      (a.type ≠ TOKEN_EMERGENCY → b.type ≠ TOKEN_EMERGENCY → a.tokenNumber < b.tokenNumber)) := by
  cases h with
  | addServiceCounter counterName =>
    unfold addServiceCounter
    split <;> exact hord
  | issueToken customerName type serviceName now =>
    rcases issueToken_linked queue customerName type serviceName now with
      hfail | ⟨linked, hlinked, hok⟩
    · rw [hfail]
      exact hord
    · rw [hok]
      show linked.Pairwise _
      rcases hlinked with ⟨ht, hl⟩ | ⟨ht, hl⟩
      · rw [hl]
        refine List.pairwise_append.2 ⟨hord, List.pairwise_singleton _ _, ?_⟩
        intro a ha b hb
        rw [List.mem_singleton.1 hb]
        refine ⟨fun hE => absurd hE ht, fun _ _ => ?_⟩
        exact hinv.fresh_queue a ha
      · rw [hl]
        refine List.pairwise_cons.2 ⟨?_, hord⟩
        intro b _
        exact ⟨fun _ => ht, fun hne => absurd ht hne⟩
  | callNextToken counterId now =>
    rcases callNextToken_cases queue counterId now with
      ⟨hfail, -⟩ | ⟨counter, front, rest, hq, -, -, -, -, -, hok⟩
    · rw [hfail]
      exact hord
    · rw [hok]
      rw [hq] at hord
      exact (List.pairwise_cons.1 hord).2
  | startService counterId now =>
    rcases startService_cases queue counterId now with
      ⟨hfail, -⟩ | ⟨counter, token, -, -, -, -, -, hok⟩
    · rw [hfail]; exact hord
    · rw [hok]; exact hord
  | completeService counterId now =>
    rcases completeService_cases queue counterId now with
      ⟨hfail, -⟩ | ⟨counter, token, -, -, -, -, hok⟩
    · rw [hfail]; exact hord
    · rw [hok]; exact hord
  | toggleCounter counterId =>
    rcases toggleCounter_cases queue counterId with hfail | ⟨counter, -, hok⟩
    · rw [hfail]; exact hord
    · rw [hok]; exact hord

/-- C22, counterexample. A General token then a Premium token are issued: the
Premium token (type 2) waits behind the General token (type 1). -/
theorem tokenTypes_not_ordered :
    Reachable twoWaiting ∧
      twoWaiting.queue.map (fun t => (t.tokenNumber, t.type)) = [(1, 1), (2, 2)] ∧
      ∃ (a b : Token) (rest : List Token),
        twoWaiting.queue = a :: b :: rest ∧ ¬ (a.type ≥ b.type) :=
  ⟨twoWaiting_reachable, by decide, _, _, _, rfl, by decide⟩

/-- C22, amended. In every reachable state of the token system no Emergency
token waits behind a token of another type, and the waiting tokens of the
other types (Senior, Premium, General) are in the order in which they were
issued, whatever their types. -/
theorem reachable_emergency_first [FloatArith F] (queue : TokenQueue F)
    (h : Reachable queue) :
    queue.queue.Pairwise (fun a b =>
      (b.type = TOKEN_EMERGENCY → a.type = TOKEN_EMERGENCY) ∧
      (a.type ≠ TOKEN_EMERGENCY → b.type ≠ TOKEN_EMERGENCY → a.tokenNumber < b.tokenNumber)) := by
  induction h with
  | create => simp [createTokenQueue]
  | step queue after hreach hstep ih => exact order_step (tokenReachable_inv hreach) ih hstep

theorem reachable_emergency_first_witness :
    Reachable (issueToken twoWaiting "Emergency Case" TOKEN_EMERGENCY "Urgent Transaction"
        30).2 ∧
      (issueToken twoWaiting "Emergency Case" TOKEN_EMERGENCY "Urgent Transaction"
        30).2.queue.Pairwise (fun a b =>
          (b.type = TOKEN_EMERGENCY → a.type = TOKEN_EMERGENCY) ∧
          (a.type ≠ TOKEN_EMERGENCY → b.type ≠ TOKEN_EMERGENCY →
            a.tokenNumber < b.tokenNumber)) :=
  ⟨Reachable.step _ _ twoWaiting_reachable (Step.issueToken _ _ _ _ _),
    reachable_emergency_first _
      (Reachable.step _ _ twoWaiting_reachable (Step.issueToken _ _ _ _ _))⟩

/-! ## C23: toggling a counter -/

theorem toggleCounter_eval (queue : TokenQueue F) (counterId : Int) :
    (toggleCounter queue counterId = queue ∧
      (counterId < 1 ∨ counterId > queue.counterCount ∨
        ∃ counter, queue.counters[(counterId - 1).toNat]? = some counter ∧
          counter.isActive ≠ 0 ∧ counter.currentToken ≠ none)) ∨
    ∃ counter,
      1 ≤ counterId ∧ counterId ≤ queue.counterCount ∧
      queue.counters[(counterId - 1).toNat]? = some counter ∧
      ¬ (counter.isActive ≠ 0 ∧ counter.currentToken ≠ none) ∧
      toggleCounter queue counterId =
        { queue with
          counters := queue.counters.set (counterId - 1).toNat
            { counter with isActive := if counter.isActive = 0 then 1 else 0 } } := by
  by_cases hid : counterId < 1 ∨ counterId > queue.counterCount
  · left
    refine ⟨by simp only [toggleCounter, hid, if_true], ?_⟩
    rcases hid with h | h
    · exact Or.inl h
    · exact Or.inr (Or.inl h)
  have hid1 : 1 ≤ counterId := by omega
  have hid2 : counterId ≤ queue.counterCount := by omega
  obtain ⟨-, counter, hc⟩ := counter_of_valid queue counterId hid1 hid2
  by_cases hbusy : counter.isActive ≠ 0 ∧ counter.currentToken.isSome
  · left
    refine ⟨by simp only [toggleCounter, hid, hc, hbusy, if_false, if_true, and_self,
      ne_eq, not_false_eq_true], Or.inr (Or.inr ⟨counter, hc, hbusy.1, ?_⟩)⟩
    exact Option.isSome_iff_ne_none.1 hbusy.2
  · right
    refine ⟨counter, hid1, hid2, hc, ?_, ?_⟩
    · rintro ⟨h1, h2⟩
      exact hbusy ⟨h1, Option.isSome_iff_ne_none.2 h2⟩
    · simp only [toggleCounter, hid, hc, hbusy, if_false]

theorem set_ne_self {α : Type} {l : List α} {i : Nat} {a b : α} (h : l[i]? = some a)
    (hne : b ≠ a) : l.set i b ≠ l := by
  intro heq
  have hlt := lt_of_getElem?_eq_some h
  have h1 : (l.set i b)[i]? = some b := by
    rw [List.getElem?_set_self hlt]
  rw [heq, h] at h1
  exact hne (Option.some.inj h1).symm

theorem set_same {α : Type} {l : List α} {i : Nat} {a : α} (h : l[i]? = some a) :
    l.set i a = l := by
  apply List.ext_getElem?
  intro j
  rw [List.getElem?_set]
  by_cases hij : i = j
  · subst hij
    simp [lt_of_getElem?_eq_some h, h]
  · simp [hij]

theorem isActive_of_set {l : List (ServiceCounter F)} {i : Nat} {c : ServiceCounter F}
    (hl : ∀ x ∈ l, x.isActive = 0 ∨ x.isActive = 1) (hc : c.isActive = 0 ∨ c.isActive = 1) :
    ∀ x ∈ l.set i c, x.isActive = 0 ∨ x.isActive = 1 := by
  intro x hx
  rcases List.mem_or_eq_of_mem_set hx with h | h
  · exact hl x h
  · rw [h]; exact hc

theorem reachable_isActive [FloatArith F] {queue : TokenQueue F} (h : Reachable queue) :
    ∀ x ∈ queue.counters, x.isActive = 0 ∨ x.isActive = 1 := by
  induction h with
  | create => simp [createTokenQueue]
  | step queue after _ hstep ih =>
    cases hstep with
    | addServiceCounter counterName =>
      unfold addServiceCounter
      split
      · exact ih
      · intro x hx
        rcases List.mem_append.1 hx with h | h
        · exact ih x h
        · rw [List.mem_singleton.1 h]
          exact Or.inr rfl
    | issueToken customerName type serviceName now =>
      rcases issueToken_cases queue customerName type serviceName now with
        hfail | ⟨linked, -, hok⟩
      · rw [hfail]; exact ih
      · rw [hok]; exact ih
    | callNextToken counterId now =>
      rcases callNextToken_cases queue counterId now with
        ⟨hfail, -⟩ | ⟨counter, front, rest, -, -, -, hc, -, -, hok⟩
      · rw [hfail]; exact ih
      · rw [hok]
        exact isActive_of_set ih (ih counter (List.getElem?_mem hc))
    | startService counterId now =>
      rcases startService_cases queue counterId now with
        ⟨hfail, -⟩ | ⟨counter, token, -, -, hc, -, -, hok⟩
      · rw [hfail]; exact ih
      · rw [hok]
        exact isActive_of_set ih (ih counter (List.getElem?_mem hc))
    | completeService counterId now =>
      rcases completeService_cases queue counterId now with
        ⟨hfail, -⟩ | ⟨counter, token, -, -, hc, -, hok⟩
      · rw [hfail]; exact ih
      · rw [hok]
        exact isActive_of_set ih (ih counter (List.getElem?_mem hc))
    | toggleCounter counterId =>
      rcases toggleCounter_cases queue counterId with hfail | ⟨counter, hc, hok⟩
      · rw [hfail]; exact ih
      · rw [hok]
        refine isActive_of_set ih ?_
        show (if counter.isActive = 0 then (1 : Int) else 0) = 0 ∨
          (if counter.isActive = 0 then (1 : Int) else 0) = 1
        split
        · exact Or.inr rfl
        · exact Or.inl rfl

/-- C23. `toggleCounter` changes the state exactly when `counterId` is in
`1..counterCount` and the counter is not both active and holding a token;
when it changes the state, the new state is the old one with that counter's
`isActive` replaced by its negation (1 for 0, 0 otherwise) and nothing else
changed; and in a reachable state, where every flag is 0 or 1, toggling
twice a counter that holds no token gives back the state. -/
theorem toggleCounter_spec [FloatArith F] (queue : TokenQueue F) (counterId : Int) :
    (toggleCounter queue counterId ≠ queue ↔
      (1 ≤ counterId ∧ counterId ≤ queue.counterCount ∧
        ∃ counter, queue.counters[(counterId - 1).toNat]? = some counter ∧
          ¬ (counter.isActive ≠ 0 ∧ counter.currentToken ≠ none))) ∧
    (toggleCounter queue counterId ≠ queue →
      ∃ counter, queue.counters[(counterId - 1).toNat]? = some counter ∧
        toggleCounter queue counterId =
          { queue with
            counters := queue.counters.set (counterId - 1).toNat
              { counter with isActive := if counter.isActive = 0 then 1 else 0 } }) ∧
    (Reachable queue →
      (∀ counter, queue.counters[(counterId - 1).toNat]? = some counter →
        counter.currentToken = none) →
      toggleCounter (toggleCounter queue counterId) counterId = queue) := by
  refine ⟨⟨?_, ?_⟩, ?_, ?_⟩
  · intro hne
    rcases toggleCounter_eval queue counterId with ⟨hsame, -⟩ | ⟨counter, h1, h2, hc, hfree, -⟩
    · exact absurd hsame hne
    · exact ⟨h1, h2, counter, hc, hfree⟩
  · rintro ⟨h1, h2, counter, hc, hfree⟩
    rcases toggleCounter_eval queue counterId with
      ⟨-, h | h | ⟨counter', hc', hbusy⟩⟩ | ⟨counter', -, -, hc', -, hok⟩
    · omega
    · omega
    · rw [hc] at hc'
      rw [Option.some.inj hc'] at hfree
      exact absurd hbusy hfree
    · rw [hok]
      intro heq
      have hcs : queue.counters.set (counterId - 1).toNat
          { counter' with isActive := if counter'.isActive = 0 then 1 else 0 } =
          queue.counters := congrArg TokenQueue.counters heq
      refine set_ne_self hc' ?_ hcs
      intro hflip
      have hact : (if counter'.isActive = 0 then (1 : Int) else 0) = counter'.isActive :=
        congrArg ServiceCounter.isActive hflip
      split at hact <;> omega
  · intro hne
    rcases toggleCounter_eval queue counterId with ⟨hsame, -⟩ | ⟨counter, -, -, hc, -, hok⟩
    · exact absurd hsame hne
    · exact ⟨counter, hc, hok⟩
  · intro hreach hidle
    rcases toggleCounter_eval queue counterId with ⟨hsame, -⟩ | ⟨counter, h1, h2, hc, -, hok⟩
    · rw [hsame, hsame]
    · have hlt := lt_of_getElem?_eq_some hc
      have hnone := hidle counter hc
      have hflag := reachable_isActive hreach counter (List.getElem?_mem hc)
      rcases toggleCounter_eval (toggleCounter queue counterId) counterId with
        ⟨-, h | h | ⟨counter', hc', -, hbusy⟩⟩ | ⟨counter', -, -, hc', -, hok'⟩
      · omega
      · rw [hok] at h
        simp only [TokenQueue.counterCount, List.length_set] at h h2
        omega
      · rw [hok] at hc'
        have hget : (queue.counters.set (counterId - 1).toNat
            { counter with isActive := if counter.isActive = 0 then 1 else 0 })[
              (counterId - 1).toNat]? = some counter' := hc'
        rw [List.getElem?_set_self hlt] at hget
        rw [← Option.some.inj hget] at hbusy
        exact absurd hnone hbusy
      · rw [hok']
        rw [hok] at hc' ⊢
        have hget : (queue.counters.set (counterId - 1).toNat
            { counter with isActive := if counter.isActive = 0 then 1 else 0 })[
              (counterId - 1).toNat]? = some counter' := hc'
        rw [List.getElem?_set_self hlt] at hget
        rw [← Option.some.inj hget]
        dsimp only
        rw [List.set_set]
        have hback : ({ counter with
            isActive := if (if counter.isActive = 0 then (1 : Int) else 0) = 0 then 1 else 0 } :
              ServiceCounter F) = counter := by
          rcases hflag with h0 | h1
          · cases counter
            simp only at h0
            subst h0
            rfl
          · cases counter
            simp only at h1
            subst h1
            rfl
        rw [hback, set_same hc]

theorem toggleCounter_spec_witness :
    toggleCounter (toggleCounter (twoWaiting : TokenQueue ℚ) 1) 1 = twoWaiting :=
  (toggleCounter_spec twoWaiting 1).2.2 twoWaiting_reachable
    (fun counter hc => by
      have h : counter = _ := (Option.some.inj hc).symm
      rw [h]
      rfl)

/-! ## C34: the average service time is the mean of the elapsed times -/

theorem servedAt_reachable [FloatArith F] {counterId : Int} {queue : TokenQueue F}
    {times : List F} (h : ServedAt counterId queue times) : Reachable queue := by
  induction h with
  | create => exact Reachable.create
  | addServiceCounter queue times counterName _ ih =>
    exact Reachable.step _ _ ih (Step.addServiceCounter _ _)
  | issueToken queue times customerName type serviceName now _ ih =>
    exact Reachable.step _ _ ih (Step.issueToken _ _ _ _ _)
  | callNextToken queue times called now _ ih =>
    exact Reachable.step _ _ ih (Step.callNextToken _ _ _)
  | startService queue times started now _ ih =>
    exact Reachable.step _ _ ih (Step.startService _ _ _)
  | toggleCounter queue times toggled _ ih =>
    exact Reachable.step _ _ ih (Step.toggleCounter _ _)
  | completeOther queue times other now _ _ ih =>
    exact Reachable.step _ _ ih (Step.completeService _ _ _)
  | completeIdle queue times now _ _ ih =>
    exact Reachable.step _ _ ih (Step.completeService _ _ _)
  | complete queue times now elapsed _ _ ih =>
    exact Reachable.step _ _ ih (Step.completeService _ _ _)

/-- Replacing a counter by one with the same statistics, or replacing another
counter, keeps `MeanAt`. -/
theorem meanAt_set (index : Nat) (queue after : TokenQueue ℚ) (times : List ℚ)
    (changed : Nat) (counter replaced : ServiceCounter ℚ)
    (hc : queue.counters[changed]? = some counter)
    (hafter : after.counters = queue.counters.set changed replaced)
    (hsame : changed ≠ index ∨ (replaced.totalServed = counter.totalServed ∧
      replaced.avgServiceTime = counter.avgServiceTime))
    (h : MeanAt index queue times) : MeanAt index after times := by
  unfold MeanAt at h ⊢
  rw [hafter, List.getElem?_set]
  by_cases hi : changed = index
  · subst hi
    rw [if_pos rfl, if_pos (lt_of_getElem?_eq_some hc)]
    rw [hc] at h
    rcases hsame with hne | ⟨h1, h2⟩
    · exact absurd rfl hne
    · simp only [h1, h2]
      exact h
  · rw [if_neg hi]
    exact h

theorem meanAt_same (index : Nat) (queue after : TokenQueue ℚ) (times : List ℚ)
    (hafter : after.counters = queue.counters) (h : MeanAt index queue times) :
    MeanAt index after times := by
  unfold MeanAt at h ⊢
  rw [hafter]
  exact h

theorem elapsedAt_none (queue : TokenQueue ℚ) (counterId now : Int)
    (h : elapsedAt queue counterId now = none) :
    completeService queue counterId now = queue := by
  unfold elapsedAt at h
  unfold completeService
  split
  · rfl
  · rename_i hid
    rw [if_neg hid] at h
    split
    · rfl
    · rename_i counter hc
      rw [hc] at h
      split
      · rfl
      · rename_i token hcur
        simp only [hcur] at h
        cases h

theorem mean_append (times : List ℚ) (elapsed avg : ℚ)
    (h : times ≠ [] → avg = times.sum / (times.length : ℚ)) :
    (avg * (((times.length : Int) + 1 - 1 : Int) : ℚ) + elapsed) /
        (((times.length : Int) + 1 : Int) : ℚ) =
      (times ++ [elapsed]).sum / (((times ++ [elapsed]).length : Nat) : ℚ) := by
  have hpos : ((times.length : ℚ) + 1) ≠ 0 := by positivity
  rw [List.sum_append, List.length_append]
  simp only [List.sum_cons, List.sum_nil, List.length_cons, List.length_nil, add_zero]
  push_cast
  by_cases hnil : times = []
  · subst hnil
    simp
  · have hlen : (times.length : ℚ) ≠ 0 := by
      have : times.length ≠ 0 := fun h0 => hnil (List.length_eq_zero.1 h0)
      exact_mod_cast this
    rw [h hnil]
    field_simp

theorem servedAt_meanAt {counterId : Int} {queue : TokenQueue ℚ} {times : List ℚ}
    (hlow : 1 ≤ counterId) (h : ServedAt counterId queue times) :
    MeanAt (counterId - 1).toNat queue times := by
  induction h with
  | create => simp [MeanAt, createTokenQueue]
  | addServiceCounter queue times counterName _ ih =>
    unfold addServiceCounter
    split
    · exact ih
    · unfold MeanAt at ih ⊢
      show match (queue.counters ++ [_])[(counterId - 1).toNat]? with
        | none => times = []
        | some counter => _
      rcases Nat.lt_trichotomy (counterId - 1).toNat queue.counters.length with hlt | heq | hgt
      · rw [List.getElem?_append_left hlt]
        exact ih
      · rw [List.getElem?_eq_none (le_of_eq heq.symm)] at ih
        rw [List.getElem?_append_right (le_of_eq heq.symm), heq, Nat.sub_self]
        simp only [List.getElem?_cons_zero]
        subst ih
        exact ⟨rfl, fun hne => absurd rfl hne⟩
      · rw [List.getElem?_eq_none (le_of_lt hgt)] at ih
        rw [List.getElem?_eq_none (by rw [List.length_append, List.length_singleton]; omega)]
        exact ih
  | issueToken queue times customerName type serviceName now _ ih =>
    rcases issueToken_cases queue customerName type serviceName now with
      hfail | ⟨linked, -, hok⟩
    · rw [hfail]; exact ih
    · rw [hok]; exact meanAt_same _ _ _ _ rfl ih
  | callNextToken queue times called now _ ih =>
    rcases callNextToken_cases queue called now with
      ⟨hfail, -⟩ | ⟨counter, front, rest, -, -, -, hc, -, -, hok⟩
    · rw [hfail]; exact ih
    · rw [hok]
      exact meanAt_set _ queue _ times _ counter _ hc rfl (Or.inr ⟨rfl, rfl⟩) ih
  | startService queue times started now _ ih =>
    rcases startService_cases queue started now with
      ⟨hfail, -⟩ | ⟨counter, token, -, -, hc, -, -, hok⟩
    · rw [hfail]; exact ih
    · rw [hok]
      exact meanAt_set _ queue _ times _ counter _ hc rfl (Or.inr ⟨rfl, rfl⟩) ih
  | toggleCounter queue times toggled _ ih =>
    rcases toggleCounter_cases queue toggled with hfail | ⟨counter, hc, hok⟩
    · rw [hfail]; exact ih
    · rw [hok]
      exact meanAt_set _ queue _ times _ counter _ hc rfl (Or.inr ⟨rfl, rfl⟩) ih
  | completeOther queue times other now hne _ ih =>
    rcases completeService_cases queue other now with
      ⟨hfail, -⟩ | ⟨counter, token, h1, -, hc, -, hok⟩
    · rw [hfail]; exact ih
    · rw [hok]
      refine meanAt_set _ queue _ times _ counter _ hc rfl (Or.inl ?_) ih
      omega
  | completeIdle queue times now hnone _ ih =>
    rw [elapsedAt_none queue counterId now hnone]
    exact ih
  | complete queue times now elapsed hsome _ ih =>
    rcases completeService_cases queue counterId now with
      ⟨-, h | h | ⟨counter, hc, hcur⟩⟩ | ⟨counter, token, h1, h2, hc, hcur, hok⟩
    · omega
    · simp [elapsedAt, h] at hsome
    · have hid : ¬ (counterId < 1 ∨ counterId > queue.counterCount) := by
        intro hbad
        simp [elapsedAt, hbad] at hsome
      unfold elapsedAt at hsome
      rw [if_neg hid, hc] at hsome
      simp only [hcur] at hsome
      cases hsome
    · have hid : ¬ (counterId < 1 ∨ counterId > queue.counterCount) := by omega
      have helapsed : elapsed = ((now - token.serviceTime : Int) : ℚ) / ((60 : Int) : ℚ) := by
        simp only [elapsedAt, hid, if_false, hc, hcur, Option.some.injEq] at hsome
        exact hsome.symm
      rw [hok]
      unfold MeanAt at ih ⊢
      rw [hc] at ih
      show match (queue.counters.set (counterId - 1).toNat _)[(counterId - 1).toNat]? with
        | none => times ++ [elapsed] = []
        | some counter => _
      rw [List.getElem?_set_self (lt_of_getElem?_eq_some hc)]
      obtain ⟨hserved, hmean⟩ := ih
      refine ⟨?_, fun _ => ?_⟩
      · show counter.totalServed + 1 = _
        rw [hserved, List.length_append, List.length_singleton]
        push_cast
        rfl
      · show (counter.avgServiceTime * ((counter.totalServed + 1 - 1 : Int) : ℚ) +
            ((now - token.serviceTime : Int) : ℚ) / ((60 : Int) : ℚ)) /
            ((counter.totalServed + 1 : Int) : ℚ) = _
        rw [hserved, ← helapsed]
        exact mean_append times elapsed counter.avgServiceTime hmean

/-- C34. Over exact arithmetic, in every state reached by a run of the
operations in which counter `counterId` completed services with the elapsed
times `times`, the counter's `totalServed` is the number of these times and,
when there is at least one, its `avgServiceTime` is their sum divided by their
number: the initial 5 minutes do not enter. -/
theorem avgServiceTime_is_mean (counterId : Int) (queue : TokenQueue ℚ) (times : List ℚ)
    (hlow : 1 ≤ counterId) (h : ServedAt counterId queue times) :
    Reachable queue ∧
      ∀ counter, queue.counters[(counterId - 1).toNat]? = some counter →
        counter.totalServed = (times.length : Int) ∧
          (1 ≤ times.length →
            counter.avgServiceTime = times.sum / (times.length : ℚ)) := by
  refine ⟨servedAt_reachable h, ?_⟩
  intro counter hc
  have hmean := servedAt_meanAt hlow h
  unfold MeanAt at hmean
  rw [hc] at hmean
  refine ⟨hmean.1, fun hlen => hmean.2 ?_⟩
  intro hnil
  rw [hnil] at hlen
  exact absurd hlen (by decide)

theorem servedTwice_servedAt : ServedAt 1 servedTwice [6, 3] := by
  have h1 : elapsedAt servingOne 1 480 = some 6 := by
    have h : elapsedAt servingOne 1 480 =
        some (((480 - 120 : Int) : ℚ) / ((60 : Int) : ℚ)) := rfl
    rw [h]
    norm_num
  have h2 : elapsedAt
      (startService (callNextToken (completeService servingOne 1 480) 1 500).2 1 520) 1 700 =
        some 3 := by
    have h : elapsedAt
        (startService (callNextToken (completeService servingOne 1 480) 1 500).2 1 520) 1 700 =
          some (((700 - 520 : Int) : ℚ) / ((60 : Int) : ℚ)) := rfl
    rw [h]
    norm_num
  have hserving : ServedAt 1 servingOne ([] : List ℚ) :=
    ServedAt.startService _ _ _ _
      (ServedAt.callNextToken _ _ _ _
        (ServedAt.issueToken _ _ _ _ _ _
          (ServedAt.issueToken _ _ _ _ _ _
            (ServedAt.addServiceCounter _ _ _ ServedAt.create))))
  have hfirst := ServedAt.complete servingOne [] 480 6 h1 hserving
  exact ServedAt.complete _ _ 700 3 h2
    (ServedAt.startService _ _ _ _ (ServedAt.callNextToken _ _ _ _ hfirst))

theorem avgServiceTime_is_mean_witness :
    1 ≤ (1 : Int) ∧ ServedAt 1 servedTwice [6, 3] ∧
      ∃ counter, servedTwice.counters[((1 : Int) - 1).toNat]? = some counter ∧
        counter.totalServed = 2 ∧ counter.avgServiceTime = (6 + 3) / 2 := by
  refine ⟨by decide, servedTwice_servedAt, ?_⟩
  have h := (avgServiceTime_is_mean 1 servedTwice [6, 3] (by decide) servedTwice_servedAt).2
  obtain ⟨counter, hc⟩ : ∃ counter, servedTwice.counters[((1 : Int) - 1).toNat]? = some counter :=
    ⟨_, rfl⟩
  obtain ⟨h1, h2⟩ := h counter hc
  refine ⟨counter, hc, h1, ?_⟩
  rw [h2 (by decide)]
  norm_num

end TokenSystem

/-!
# Maze solver: theorems
-/

namespace MazeSolver

/-! ## C26: the solver on a maze with an open path -/

set_option maxRecDepth 1000000 in
theorem smallMaze_rows :
    (smallMaze.grid.take 5).map (fun line => String.mk (line.take 5)) =
      ["#####", "#S ##", "# # #", "#  E#", "#####"] := by
  rfl

set_option maxRecDepth 1000000 in
theorem small_cycle (fuel : Nat) (s : Int) :
    solveLoop (fuel + 2)
        { smallMaze with grid := setCell smallMaze.grid 1 1 VISITED, steps := s } [⟨1, 1⟩] =
      solveLoop fuel
        { smallMaze with grid := setCell smallMaze.grid 1 1 VISITED, steps := s + 1 + 1 }
        [⟨1, 1⟩] := by
  rfl

set_option maxRecDepth 1000000 in
theorem small_loops (fuel : Nat) :
    ∀ s : Int, solveLoop fuel
      { smallMaze with grid := setCell smallMaze.grid 1 1 VISITED, steps := s } [⟨1, 1⟩] =
        none := by
  induction fuel using Nat.twoStepInduction with
  | zero => intro s; rfl
  | one => intro s; rfl
  | more n ih _ =>
    intro s
    rw [small_cycle]
    exact ih _

set_option maxRecDepth 1000000 in
/-- C26, the code at the failing input. In the 5 by 5 maze `smallMaze`, with
start `(1, 1)` and end `(3, 3)` inside the grid, the end is reached from the
start through the open cells `(2, 1)`, `(3, 1)`, `(3, 2)`; `solveMaze` returns
nothing for any number of iterations of its loop, so it does not return 1. -/
theorem solveMaze_misses_open_path :
    smallMaze.start = ⟨1, 1⟩ ∧ smallMaze.endPos = ⟨3, 3⟩ ∧
      isValidPosition smallMaze 1 1 = true ∧ isValidPosition smallMaze 3 3 = true ∧
      isOpenPath smallMaze [⟨1, 1⟩, ⟨2, 1⟩, ⟨3, 1⟩, ⟨3, 2⟩, ⟨3, 3⟩] = true ∧
      ∀ fuel : Nat, solveMaze fuel smallMaze = none := by
  refine ⟨rfl, rfl, rfl, rfl, rfl, ?_⟩
  intro fuel
  exact small_loops fuel 0

/-! ## C27: the loop on the sample maze -/

set_option maxRecDepth 1000000 in
theorem loadedSample_rows :
    (loadedSample.grid.take 10).map (fun line => String.mk line) =
      [ "####################",
        "#S       #         #",
        "# ##### ### ####### ",
        "# #   # #   #     # ",
        "# # # # # ### ### # ",
        "#   #   #   #   #   ",
        "####### # # # ######",
        "#     #   # #   #   ",
        "# ### ##### ### # # ",
        "#   #           #  E" ] ∧
      loadedSample.rows = 10 ∧ loadedSample.cols = 20 ∧
      loadedSample.start = ⟨1, 1⟩ ∧ loadedSample.endPos = ⟨9, 19⟩ := by
  refine ⟨rfl, rfl, rfl, rfl, rfl⟩

set_option maxRecDepth 1000000 in
theorem sample_walk (fuel : Nat) :
    solveLoop (fuel + 6)
        { loadedSample with grid := setCell loadedSample.grid 1 1 VISITED } [⟨1, 1⟩] =
      solveLoop fuel
        { loadedSample with grid := markVisited loadedSample.grid corridor, steps := 6 }
        corridor := by
  rfl

set_option maxRecDepth 1000000 in
theorem sample_cycle (fuel : Nat) (s : Int) :
    solveLoop (fuel + 2)
        { loadedSample with grid := markVisited loadedSample.grid corridor, steps := s }
        corridor =
      solveLoop fuel
        { loadedSample with grid := markVisited loadedSample.grid corridor, steps := s + 1 + 1 }
        corridor := by
  rfl

set_option maxRecDepth 1000000 in
theorem sample_loops (fuel : Nat) :
    ∀ s : Int, solveLoop fuel
      { loadedSample with grid := markVisited loadedSample.grid corridor, steps := s }
      corridor = none := by
  induction fuel using Nat.twoStepInduction with
  | zero => intro s; rfl
  | one => intro s; rfl
  | more n ih _ =>
    intro s
    rw [sample_cycle]
    exact ih _

set_option maxRecDepth 1000000 in
/-- C27, the code at the failing input. On the built-in sample maze (10 rows,
20 columns) the loop of `solveMaze` gives no result for any number of
iterations: the stack never empties and the end is never reached. -/
theorem solveMaze_sample_never_returns :
    loadedSample.rows = 10 ∧ loadedSample.cols = 20 ∧
      ∀ fuel : Nat, solveMaze fuel loadedSample = none := by
  refine ⟨rfl, rfl, ?_⟩
  intro fuel
  rcases Nat.lt_or_ge fuel 6 with h | h
  · interval_cases fuel <;> rfl
  · obtain ⟨k, rfl⟩ := Nat.exists_eq_add_of_le h
    rw [Nat.add_comm]
    show solveLoop (k + 6)
      { loadedSample with grid := setCell loadedSample.grid 1 1 VISITED } [⟨1, 1⟩] = none
    rw [sample_walk]
    exact sample_loops k 6

end MazeSolver

/-!
# Balanced parentheses checker: theorems
-/

namespace BalancedParentheses

theorem scanExpression_accepts (expression : List Char) :
    ∀ (i : Int) (stack : List StackNode) (analysis : ExpressionAnalysis),
      analysis.isBalanced = 1 →
      (((scanExpression expression i stack analysis).1.isBalanced = 1 ∧
          (scanExpression expression i stack analysis).2 = []) ↔
        accepts expression (stack.map (fun node => node.data)) = true) := by
  induction expression with
  | nil =>
    intro i stack analysis h
    cases stack <;> simp [scanExpression, accepts, h]
  | cons ch rest ih =>
    intro i stack analysis h
    by_cases ho : isOpeningBracket ch = true
    · simp only [scanExpression, accepts, ho, if_true]
      exact ih _ _ _ h
    · by_cases hc : isClosingBracket ch = true
      · cases stack with
        | nil => simp [scanExpression, accepts, ho, hc]
        | cons topNode below =>
          by_cases hm : isMatchingPair topNode.data ch = true
          · simp only [scanExpression, accepts, ho, hc, hm, if_true, List.map_cons,
              Bool.true_and, Bool.false_eq_true, if_false]
            exact ih _ _ _ h
          · simp [scanExpression, accepts, ho, hc, hm]
      · simp only [scanExpression, accepts, ho, hc, if_false, Bool.false_eq_true]
        exact ih _ _ _ h

theorem analyzeExpression_accepts (expression : List Char) :
    (analyzeExpression expression).isBalanced = 1 ↔ accepts expression [] = true := by
  have h := scanExpression_accepts expression 0 []
    { expression := expression
      isBalanced := 1
      totalOpenBrackets := 0
      totalCloseBrackets := 0
      maxDepth := 0
      currentDepth := 0 } rfl
  rw [List.map_nil] at h
  rw [← h]
  unfold analyzeExpression
  dsimp only
  split
  · rename_i hbad
    constructor
    · intro h0
      have h01 : (0 : Int) = 1 := h0
      exact absurd h01 (by decide)
    · rintro ⟨-, hempty⟩
      exact absurd hempty hbad.2
  · rename_i hgood
    constructor
    · intro h1
      refine ⟨h1, ?_⟩
      by_contra hne
      exact hgood ⟨by rw [h1]; decide, hne⟩
    · exact fun h1 => h1.1

theorem accepts_brackets (expression : List Char) :
    ∀ stack : List Char, accepts expression stack = accepts (brackets expression) stack := by
  induction expression with
  | nil => intro stack; rfl
  | cons ch rest ih =>
    intro stack
    by_cases ho : isOpeningBracket ch = true
    · have hb : isBracket ch = true := by
        simp only [isOpeningBracket, isBracket, Bool.or_eq_true, decide_eq_true_eq] at ho ⊢
        tauto
      simp only [brackets, List.filter_cons, hb, if_true, accepts, ho]
      exact ih _
    · by_cases hc : isClosingBracket ch = true
      · have hb : isBracket ch = true := by
          simp only [isClosingBracket, isBracket, Bool.or_eq_true, decide_eq_true_eq] at hc ⊢
          tauto
        simp only [brackets, List.filter_cons, hb, if_true, accepts, ho, hc,
          Bool.false_eq_true, if_false]
        cases stack with
        | nil => rfl
        | cons opening below =>
          simp only
          rw [ih]
          rfl
      · have hb : ¬ isBracket ch = true := by
          simp only [isOpeningBracket, isClosingBracket, isBracket, Bool.or_eq_true,
            decide_eq_true_eq] at ho hc ⊢
          tauto
        simp only [brackets, List.filter_cons, hb, if_false, accepts, ho, hc,
          Bool.false_eq_true]
        exact ih _

theorem pair_facts {opening closing : Char} (h : BracketPair opening closing) :
    isOpeningBracket opening = true ∧ isOpeningBracket closing = false ∧
      isClosingBracket closing = true ∧ isMatchingPair opening closing = true := by
  rcases h with ⟨rfl, rfl⟩ | ⟨rfl, rfl⟩ | ⟨rfl, rfl⟩ <;> decide

theorem pair_of_match {opening closing : Char} (h : isMatchingPair opening closing = true) :
    BracketPair opening closing := by
  simp only [isMatchingPair, Bool.or_eq_true, Bool.and_eq_true, decide_eq_true_eq] at h
  unfold BracketPair
  tauto

theorem accepts_of_wellNested {nested : List Char} (h : WellNested nested) :
    ∀ rest stack : List Char, accepts (nested ++ rest) stack = accepts rest stack := by
  induction h with
  | nil => intro rest stack; rfl
  | wrap opening closing inner outer hp _ _ ihInner ihOuter =>
    intro rest stack
    obtain ⟨h1, h2, h3, h4⟩ := pair_facts hp
    rw [List.cons_append, List.append_assoc]
    simp only [accepts, h1, if_true]
    rw [ihInner, List.cons_append]
    simp only [accepts, h2, h3, h4, if_true, Bool.false_eq_true, if_false, Bool.true_and]
    exact ihOuter rest stack

theorem wellNested_insert {whole : List Char} (h : WellNested whole) {opening closing : Char}
    (hp : BracketPair opening closing) :
    ∀ before after : List Char, before ++ after = whole →
      WellNested (before ++ opening :: closing :: after) := by
  induction h with
  | nil =>
    intro before after hw
    obtain ⟨rfl, rfl⟩ := List.append_eq_nil.1 hw
    exact WellNested.wrap opening closing [] [] hp WellNested.nil WellNested.nil
  | wrap o c inner outer hoc hin hout ihInner ihOuter =>
    intro before after hw
    cases before with
    | nil =>
      rw [List.nil_append] at hw ⊢
      rw [hw]
      exact WellNested.wrap opening closing [] _ hp WellNested.nil
        (WellNested.wrap o c inner outer hoc hin hout)
    | cons first before' =>
      rw [List.cons_append] at hw
      obtain ⟨rfl, hrest⟩ := List.cons.inj hw
      rcases List.append_eq_append_iff.1 hrest with ⟨mid, h1, h2⟩ | ⟨mid, h1, h2⟩
      · -- `inner = before' ++ mid` and `after = mid ++ c :: outer`
        have hnew := ihInner before' mid h1.symm
        rw [h2]
        have := WellNested.wrap first c _ outer hoc hnew hout
        simpa [List.append_assoc] using this
      · -- `before' = inner ++ mid` and `c :: outer = mid ++ after`
        cases mid with
        | nil =>
          rw [List.append_nil] at h1
          rw [List.nil_append] at h2
          have hnew := ihInner inner [] (List.append_nil _)
          rw [h1, ← h2]
          have := WellNested.wrap first c _ outer hoc hnew hout
          simpa [List.append_assoc] using this
        | cons m mid' =>
          rw [List.cons_append] at h2
          obtain ⟨rfl, h3⟩ := List.cons.inj h2
          have hnew := ihOuter mid' after h3.symm
          rw [h1]
          have := WellNested.wrap first c inner _ hoc hin hnew
          simpa [List.append_assoc] using this

theorem wellNested_of_accepts (expression : List Char) :
    ∀ stack : List Char, (∀ ch ∈ expression, isBracket ch = true) →
      accepts expression stack = true → WellNested (stack.reverse ++ expression) := by
  induction expression with
  | nil =>
    intro stack _ h
    cases stack with
    | nil => exact WellNested.nil
    | cons _ _ => simp [accepts] at h
  | cons ch rest ih =>
    intro stack hall h
    have hrest : ∀ x ∈ rest, isBracket x = true := fun x hx => hall x (List.mem_cons_of_mem _ hx)
    by_cases ho : isOpeningBracket ch = true
    · simp only [accepts, ho, if_true] at h
      have := ih (ch :: stack) hrest h
      simpa [List.reverse_cons, List.append_assoc] using this
    · by_cases hc : isClosingBracket ch = true
      · simp only [accepts, ho, hc, if_true, Bool.false_eq_true, if_false] at h
        cases stack with
        | nil => simp at h
        | cons opening below =>
          simp only [Bool.and_eq_true] at h
          have hp := pair_of_match h.1
          have := wellNested_insert (ih below hrest h.2) hp below.reverse rest rfl
          simpa [List.reverse_cons, List.append_assoc] using this
      · have hb := hall ch (List.mem_cons_self _ _)
        simp only [isOpeningBracket, isClosingBracket, isBracket, Bool.or_eq_true,
          decide_eq_true_eq] at ho hc hb
        tauto

/-- The expressions of `testSampleExpressions` with the value of `isBalanced`
the analysis gives each. -/
theorem samples_analyzed :
    ["()", "(())", "()[]{}", "([{}])", "((()))", "({[]})", ")(", "([)]", "(()", "({[}])",
      "(a+b)*[c-d]", "{[a*(b+c)]-d}", "((a+b)*(c-d)", "if(x>0){while(i<n){arr[i++]=0;}}",
      "function(){return [1,2,3];}"].map
        (fun text => (analyzeExpression text.toList).isBalanced) =
      [1, 1, 1, 1, 1, 1, 0, 0, 0, 0, 1, 1, 0, 1, 1] := by
  decide

/-- C28. For every expression, `analyzeExpression` sets `isBalanced` to 1
exactly when the subsequence of the bracket characters of the expression is
well nested; the other characters play no part. -/
theorem analyzeExpression_balanced_iff (expression : List Char) :
    (analyzeExpression expression).isBalanced = 1 ↔ WellNested (brackets expression) := by
  rw [analyzeExpression_accepts, accepts_brackets]
  constructor
  · intro h
    have := wellNested_of_accepts (brackets expression) []
      (fun ch hch => (List.mem_filter.1 hch).2) h
    simpa using this
  · intro h
    have := accepts_of_wellNested h [] []
    rw [List.append_nil] at this
    rw [this]
    rfl

end BalancedParentheses

/-!
# Elimination game: theorems
-/

namespace Elimination

theorem J_lt (k : Nat) : ∀ m : Nat, 0 < m → J m k < m
  | 0, h => absurd h (by decide)
  | 1, _ => by simp [J]
  | m + 2, _ => by
    rw [J]
    exact Nat.mod_lt _ (by omega)

theorem isActiveAt_eq_head (players : List Player) (index : Nat)
    (h : index < players.length) :
    isActiveAt players index = ((players.rotate index).head?.map active).getD false := by
  rw [List.head?_rotate h]
  unfold isActiveAt
  cases players[index]? <;> rfl

theorem exists_first_active :
    ∀ row : List Player, (∃ p ∈ row, active p = true) →
      ∃ (skipped : List Player) (found : Player) (rest : List Player),
        row = skipped ++ found :: rest ∧ (∀ p ∈ skipped, active p = false) ∧
          active found = true
  | [], h => by
    obtain ⟨p, hp, -⟩ := h
    cases hp
  | first :: row, h => by
    by_cases hf : active first = true
    · exact ⟨[], first, row, rfl, (fun p hp => absurd hp (List.not_mem_nil p)), hf⟩
    · have hrow : ∃ p ∈ row, active p = true := by
        obtain ⟨p, hp, hact⟩ := h
        rcases List.mem_cons.1 hp with rfl | hp'
        · exact absurd hact hf
        · exact ⟨p, hp', hact⟩
      obtain ⟨skipped, found, rest, h1, h2, h3⟩ := exists_first_active row hrow
      refine ⟨first :: skipped, found, rest, by rw [h1]; rfl, ?_, h3⟩
      intro p hp
      rcases List.mem_cons.1 hp with rfl | hp'
      · simpa using hf
      · exact h2 p hp'

theorem skipInactive_spec (players : List Player) :
    ∀ (skipped : List Player) (fuel next : Nat) (found : Player) (rest : List Player),
      next < players.length → players.rotate next = skipped ++ found :: rest →
      (∀ p ∈ skipped, active p = false) → active found = true → skipped.length < fuel →
      skipInactive fuel players next = some ((next + skipped.length) % players.length) := by
  intro skipped
  induction skipped with
  | nil =>
    intro fuel next found rest hlt hrot _ hact hfuel
    obtain ⟨fuel, rfl⟩ := Nat.exists_eq_succ_of_ne_zero (Nat.pos_iff_ne_zero.1 hfuel)
    have hhead : isActiveAt players next = true := by
      rw [isActiveAt_eq_head players next hlt, hrot]
      simpa using hact
    simp only [skipInactive, hhead, if_true, List.length_nil, Nat.add_zero]
    rw [Nat.mod_eq_of_lt hlt]
  | cons first skipped ih =>
    intro fuel next found rest hlt hrot hskip hact hfuel
    obtain ⟨fuel, rfl⟩ := Nat.exists_eq_succ_of_ne_zero
      (Nat.pos_iff_ne_zero.1 (Nat.lt_of_le_of_lt (Nat.zero_le _) hfuel))
    have hhead : isActiveAt players next = false := by
      rw [isActiveAt_eq_head players next hlt, hrot]
      simpa using hskip first (List.mem_cons_self _ _)
    have hpos : 0 < players.length := Nat.lt_of_le_of_lt (Nat.zero_le _) hlt
    have hrot' : players.rotate ((next + 1) % players.length) =
        skipped ++ found :: (rest ++ [first]) := by
      rw [List.rotate_mod, ← List.rotate_rotate, hrot, List.cons_append,
        List.rotate_cons_succ, List.rotate_zero]
      simp
    have := ih fuel ((next + 1) % players.length) found (rest ++ [first])
      (Nat.mod_lt _ hpos) hrot' (fun p hp => hskip p (List.mem_cons_of_mem _ hp)) hact
      (by simpa using hfuel)
    simp only [skipInactive, hhead, Bool.false_eq_true, if_false]
    have e : next + 1 + skipped.length = next + (skipped.length + 1) := by omega
    rw [this, List.length_cons, Nat.mod_add_mod, e]

theorem split_at {α : Type} (l : List α) (e : Nat) (h : e < l.length) :
    ∃ (before : List α) (x : α) (after : List α),
      l = before ++ x :: after ∧ before.length = e := by
  refine ⟨l.take e, l[e], l.drop (e + 1), ?_, ?_⟩
  · rw [← List.drop_eq_getElem_cons h, List.take_append_drop]
  · rw [List.length_take]
    omega

theorem rotate_set {α : Type} (l : List α) (e : Nat) (y : α) (h : e < l.length) :
    (l.set e y).rotate e = y :: (l.rotate e).tail := by
  obtain ⟨before, x, after, rfl, rfl⟩ := split_at l e h
  rw [List.set_append_right _ _ (le_refl _), Nat.sub_self, List.set_cons_zero,
    List.rotate_append_length_eq, List.rotate_append_length_eq]
  rfl

theorem getNextActivePlayer_spec (players : List Player) (current : Nat)
    (hlt : current < players.length) (hsome : ∃ p ∈ players, active p = true) :
    ∃ next, getNextActivePlayer players current = some next ∧ next < players.length ∧
      isActiveAt players next = true ∧
      circle players next = ((players.rotate current).rotate 1).filter active := by
  have hpos : 0 < players.length := Nat.lt_of_le_of_lt (Nat.zero_le _) hlt
  have hj : (current + 1) % players.length < players.length := Nat.mod_lt _ hpos
  have hsome' : ∃ p ∈ players.rotate ((current + 1) % players.length), active p = true := by
    obtain ⟨p, hp, hact⟩ := hsome
    exact ⟨p, List.mem_rotate.2 hp, hact⟩
  obtain ⟨skipped, found, rest, hrot, hskip, hact⟩ := exists_first_active _ hsome'
  have hlen : skipped.length < players.length := by
    have := congrArg List.length hrot
    rw [List.length_rotate, List.length_append, List.length_cons] at this
    omega
  have hres := skipInactive_spec players skipped players.length _ found rest hj hrot hskip hact
    hlen
  have hrot2 : players.rotate (((current + 1) % players.length + skipped.length) %
      players.length) = found :: rest ++ skipped := by
    rw [List.rotate_mod, ← List.rotate_rotate, hrot, List.rotate_append_length_eq]
  have hnil : skipped.filter active = [] := by
    rw [List.filter_eq_nil_iff]
    intro p hp
    rw [hskip p hp]
    decide
  refine ⟨_, hres, Nat.mod_lt _ hpos, ?_, ?_⟩
  · rw [isActiveAt_eq_head players _ (Nat.mod_lt _ hpos), hrot2]
    simpa using hact
  · unfold circle
    rw [hrot2, List.rotate_rotate, ← List.rotate_mod players (current + 1), hrot,
      List.filter_append, List.filter_append, hnil, List.append_nil, List.nil_append]

theorem head_of_active (players : List Player) (current : Nat)
    (hlt : current < players.length) (hact : isActiveAt players current = true) :
    ∃ (x : Player) (others : List Player),
      players.rotate current = x :: others ∧ active x = true := by
  rw [isActiveAt_eq_head players current hlt] at hact
  cases hrot : players.rotate current with
  | nil =>
    rw [hrot] at hact
    simp at hact
  | cons x others =>
    rw [hrot] at hact
    exact ⟨x, others, rfl, by simpa using hact⟩

theorem mem_of_active {players : List Player} {current : Nat}
    (hlt : current < players.length) (hact : isActiveAt players current = true) :
    ∃ p ∈ players, active p = true := by
  obtain ⟨x, others, hrot, hx⟩ := head_of_active players current hlt hact
  refine ⟨x, ?_, hx⟩
  have : x ∈ players.rotate current := by
    rw [hrot]
    exact List.mem_cons_self _ _
  exact List.mem_rotate.1 this

/-- One link forward from an active player: the circle turns by one. -/
theorem getNextActivePlayer_turn (players : List Player) (current : Nat)
    (hlt : current < players.length) (hact : isActiveAt players current = true) :
    ∃ next, getNextActivePlayer players current = some next ∧ next < players.length ∧
      isActiveAt players next = true ∧
      circle players next = (circle players current).rotate 1 := by
  obtain ⟨next, h1, h2, h3, h4⟩ :=
    getNextActivePlayer_spec players current hlt (mem_of_active hlt hact)
  obtain ⟨x, others, hrot, hx⟩ := head_of_active players current hlt hact
  refine ⟨next, h1, h2, h3, ?_⟩
  rw [h4]
  unfold circle
  rw [hrot, List.rotate_cons_succ, List.rotate_zero, List.filter_append]
  simp only [List.filter_cons_of_pos hx, List.filter_nil, List.rotate_cons_succ,
    List.rotate_zero]

theorem countSteps_spec (players : List Player) :
    ∀ (steps current : Nat), current < players.length →
      isActiveAt players current = true →
      ∃ reached, countSteps steps players current = some reached ∧
        reached < players.length ∧ isActiveAt players reached = true ∧
        circle players reached = (circle players current).rotate steps := by
  intro steps
  induction steps with
  | zero =>
    intro current hlt hact
    exact ⟨current, rfl, hlt, hact, by rw [List.rotate_zero]⟩
  | succ steps ih =>
    intro current hlt hact
    obtain ⟨next, h1, h2, h3, h4⟩ := getNextActivePlayer_turn players current hlt hact
    obtain ⟨reached, h5, h6, h7, h8⟩ := ih next h2 h3
    refine ⟨reached, by simp only [countSteps, h1, h5], h6, h7, ?_⟩
    rw [h8, h4, List.rotate_rotate, Nat.add_comm]

theorem deactivate_spec (players : List Player) (index : Nat)
    (hlt : index < players.length) (hact : isActiveAt players index = true)
    (htwo : 2 ≤ (circle players index).length) :
    (deactivate players index).length = players.length ∧
    ∃ next, getNextActivePlayer (deactivate players index) index = some next ∧
      next < players.length ∧ isActiveAt (deactivate players index) next = true ∧
      circle (deactivate players index) next = (circle players index).tail := by
  obtain ⟨x, others, hrot, hx⟩ := head_of_active players index hlt hact
  have hget : players[index]? = some x := by
    rw [← List.head?_rotate hlt, hrot]
    rfl
  have hde : deactivate players index = players.set index { x with isActive := 0 } := by
    simp only [deactivate, hget]
  have hlen : (deactivate players index).length = players.length := by
    rw [hde, List.length_set]
  have hrot' : (deactivate players index).rotate index =
      { x with isActive := 0 } :: others := by
    rw [hde, rotate_set players index _ hlt, hrot]
    rfl
  have hcircle : circle players index = x :: others.filter active := by
    unfold circle
    rw [hrot, List.filter_cons_of_pos hx]
  have hsome : ∃ p ∈ deactivate players index, active p = true := by
    rw [hcircle, List.length_cons] at htwo
    have hne : others.filter active ≠ [] := by
      intro h
      rw [h] at htwo
      simp at htwo
    obtain ⟨p, hp⟩ := List.exists_mem_of_ne_nil _ hne
    obtain ⟨hp1, hp2⟩ := List.mem_filter.1 hp
    refine ⟨p, ?_, hp2⟩
    have : p ∈ (deactivate players index).rotate index := by
      rw [hrot']
      exact List.mem_cons_of_mem _ hp1
    exact List.mem_rotate.1 this
  obtain ⟨next, h1, h2, h3, h4⟩ :=
    getNextActivePlayer_spec (deactivate players index) index (by rw [hlen]; exact hlt) hsome
  refine ⟨hlen, next, h1, by rw [← hlen]; exact h2, h3, ?_⟩
  rw [h4, hrot', hcircle, List.rotate_cons_succ, List.rotate_zero, List.filter_append]
  have hoff : active { x with isActive := 0 } = false := by
    simp [active]
  simp [List.filter, hoff]

theorem performElimination_spec (game : EliminationGame) (row : List Player) (k : Nat)
    (hgood : InPlay game row) (htwo : 2 ≤ row.length)
    (hk : game.eliminationCount = (k : Int)) (hk1 : 1 ≤ k) :
    ∃ after, performElimination game = some after ∧
      InPlay after (row.rotate (k - 1)).tail ∧ after.round = game.round + 1 ∧
      after.eliminationCount = game.eliminationCount ∧
      after.players.length = game.players.length := by
  have hmany : ¬ game.activePlayers ≤ 1 := by
    rw [hgood.count]
    omega
  have hsteps : (game.eliminationCount - 1).toNat = k - 1 := by
    rw [hk]
    omega
  obtain ⟨reached, h1, h2, h3, h4⟩ :=
    countSteps_spec game.players (k - 1) game.currentPlayer hgood.inside hgood.current_active
  rw [hgood.row_eq] at h4
  have htwo' : 2 ≤ (circle game.players reached).length := by
    rw [h4, List.length_rotate]
    exact htwo
  obtain ⟨hlen, next, h5, h6, h7, h8⟩ := deactivate_spec game.players reached h2 h3 htwo'
  have hleft : game.activePlayers - 1 > 0 := by
    rw [hgood.count]
    omega
  refine ⟨{ game with
      players := deactivate game.players reached
      activePlayers := game.activePlayers - 1
      currentPlayer := next
      round := game.round + 1 }, ?_, ?_, rfl, rfl, hlen⟩
  · simp only [performElimination, hmany, if_false, hsteps, h1, eliminatePlayer, hleft, if_true,
      h5]
  · refine ⟨by rw [hlen]; exact h6, h7, by rw [h8, h4], ?_⟩
    show game.activePlayers - 1 = _
    rw [hgood.count, List.length_tail, List.length_rotate]
    omega

theorem find_of_filter_singleton (players : List Player) (w : Player) :
    players.filter active = [w] → players.find? active = some w := by
  induction players with
  | nil => intro h; cases h
  | cons p rest ih =>
    intro h
    by_cases hp : active p = true
    · rw [List.filter_cons_of_pos hp] at h
      rw [List.find?_cons_of_pos _ hp, (List.cons.inj h).1]
    · rw [List.filter_cons_of_neg hp] at h
      rw [List.find?_cons_of_neg _ hp]
      exact ih h

theorem filter_of_circle (players : List Player) (current : Nat) (w : Player)
    (h : circle players current = [w]) : players.filter active = [w] := by
  have hperm : List.Perm ((players.rotate current).filter active) (players.filter active) :=
    (List.rotate_perm players current).filter active
  unfold circle at h
  rw [h] at hperm
  exact List.perm_singleton.1 hperm.symm

theorem playLoop_spec (k : Nat) (hk1 : 1 ≤ k) :
    ∀ (m : Nat) (game : EliminationGame) (row : List Player),
      InPlay game row → row.length = m + 1 → game.eliminationCount = (k : Int) →
      ∀ fuel : Nat, m ≤ fuel →
        ∃ (final : EliminationGame) (w : Player),
          playLoop fuel game = some final ∧ InPlay final [w] ∧
            row[J (m + 1) k]? = some w ∧ final.round = game.round + (m : Int) ∧
            final.players.length = game.players.length := by
  intro m
  induction m with
  | zero =>
    intro game row hgood hlen hk fuel _
    have hone : ¬ game.activePlayers > 1 := by
      rw [hgood.count, hlen]
      decide
    obtain ⟨w, rfl⟩ := List.length_eq_one.1 hlen
    refine ⟨game, w, ?_, hgood, rfl, by simp, rfl⟩
    cases fuel <;> simp only [playLoop, hone, if_false]
  | succ m ih =>
    intro game row hgood hlen hk fuel hfuel
    obtain ⟨fuel, rfl⟩ := Nat.exists_eq_succ_of_ne_zero
      (Nat.pos_iff_ne_zero.1 (Nat.lt_of_lt_of_le (Nat.succ_pos m) hfuel))
    have hmany : game.activePlayers > 1 := by
      rw [hgood.count, hlen]
      omega
    obtain ⟨after, h1, h2, h3, h4, h5⟩ :=
      performElimination_spec game row k hgood (by omega) hk hk1
    have hlen' : (row.rotate (k - 1)).tail.length = m + 1 := by
      rw [List.length_tail, List.length_rotate, hlen]
      rfl
    obtain ⟨final, w, h6, h7, h8, h9, h10⟩ :=
      ih after _ h2 hlen' (by rw [h4, hk]) fuel (by omega)
    refine ⟨final, w, by simp only [playLoop, hmany, if_true, h1, h6], h7, ?_, ?_, ?_⟩
    · have hJ : J (m + 1) k < m + 1 := J_lt k (m + 1) (Nat.succ_pos m)
      rw [List.getElem?_tail, List.getElem?_rotate (by omega), hlen] at h8
      rw [← h8]
      show row[(J (m + 1) k + k) % (m + 2)]? = _
      congr 2
      omega
    · rw [h9, h3]
      push_cast
      omega
    · rw [h10, h5]

theorem setup_fold (k : Int) (n : Nat) :
    (List.range n).foldl
      (fun (g : EliminationGame) (i : Nat) =>
        addPlayer g ((i : Int) + 1) ("Player" ++ toString (i + 1)))
      (createGame k) =
    { players := numbered n
      currentPlayer := 0
      totalPlayers := (n : Int)
      activePlayers := (n : Int)
      eliminationCount := k
      round := 1 } := by
  induction n with
  | zero => rfl
  | succ n ih =>
    rw [List.range_succ, List.foldl_append, ih]
    simp only [List.foldl_cons, List.foldl_nil, addPlayer, numbered, List.range_succ,
      List.map_append, List.map_cons, List.map_nil, ite_self, Nat.cast_succ]

theorem setup_eq (k : Int) (n : Nat) :
    setupPlayers (createGame k) (n : Int) =
      { players := numbered n
        currentPlayer := 0
        totalPlayers := (n : Int)
        activePlayers := (n : Int)
        eliminationCount := k
        round := 1 } := by
  unfold setupPlayers
  rw [Int.toNat_ofNat]
  exact setup_fold k n

theorem numbered_get (n i : Nat) (h : i < n) :
    (numbered n)[i]? = some (createPlayer ((i : Int) + 1) ("Player" ++ toString (i + 1))) := by
  unfold numbered
  rw [List.getElem?_map, List.getElem?_range h]
  rfl

theorem setup_inPlay (k : Int) (n : Nat) (hn : 1 ≤ n) :
    InPlay (setupPlayers (createGame k) (n : Int)) (numbered n) := by
  rw [setup_eq]
  have hlen : (numbered n).length = n := by simp [numbered]
  refine ⟨by rw [hlen]; exact hn, ?_, ?_, by rw [hlen]⟩
  · show isActiveAt (numbered n) 0 = true
    unfold isActiveAt
    rw [numbered_get n 0 hn]
    rfl
  · show circle (numbered n) 0 = numbered n
    unfold circle
    rw [List.rotate_zero, List.filter_eq_self]
    intro p hp
    obtain ⟨i, -, rfl⟩ := List.mem_map.1 hp
    rfl

/-- C29. For `n ≥ 1` players numbered `1 .. n` by `setupPlayers` and `k ≥ 1`,
`playEntireGame` ends within `n - 1` iterations of its loop, each one
elimination: the round counter, 1 at the start, ends at `n`, one player is
left active, and it is the player numbered `J(n, k) + 1`, the winner the
function finds. -/
theorem josephus_survivor (n k fuel : Nat) (hn : 1 ≤ n) (hk : 1 ≤ k) (hfuel : n - 1 ≤ fuel) :
    ∃ (final : EliminationGame) (winner : Player),
      playEntireGame fuel (setupPlayers (createGame (k : Int)) (n : Int)) =
        some (final, winner) ∧
      winner.playerNumber = (J n k : Int) + 1 ∧
      final.players.filter active = [winner] ∧
      final.players.length = n ∧
      final.activePlayers = 1 ∧
      final.round - 1 = (n : Int) - 1 := by
  obtain ⟨m, rfl⟩ := Nat.exists_eq_succ_of_ne_zero (Nat.pos_iff_ne_zero.1 hn)
  have hlen : (numbered (m + 1)).length = m + 1 := by simp [numbered]
  obtain ⟨final, w, h1, h2, h3, h4, h5⟩ :=
    playLoop_spec k hk m _ _ (setup_inPlay (k : Int) (m + 1) hn) hlen
      (by rw [setup_eq]) fuel (by omega)
  have hfilter := filter_of_circle _ _ _ h2.row_eq
  have hfind := find_of_filter_singleton _ _ hfilter
  rw [numbered_get (m + 1) _ (J_lt k (m + 1) (Nat.succ_pos m))] at h3
  refine ⟨final, w, by simp only [playEntireGame, h1, hfind], ?_, hfilter, ?_, ?_, ?_⟩
  · rw [← Option.some.inj h3]
    rfl
  · rw [h5, setup_eq]
    exact hlen
  · rw [h2.count]
    rfl
  · rw [h4, setup_eq]
    push_cast
    omega

theorem josephus_survivor_witness :
    1 ≤ 7 ∧ 1 ≤ 3 ∧ 7 - 1 ≤ 6 ∧
      ∃ (final : EliminationGame) (winner : Player),
        playEntireGame 6 (setupPlayers (createGame ((3 : Nat) : Int)) ((7 : Nat) : Int)) =
          some (final, winner) ∧
        winner.playerNumber = (J 7 3 : Int) + 1 ∧
        final.players.filter active = [winner] ∧
        final.players.length = 7 ∧
        final.activePlayers = 1 ∧
        final.round - 1 = ((7 : Nat) : Int) - 1 :=
  ⟨by decide, by decide, by decide, josephus_survivor 7 3 6 (by decide) (by decide) (by decide)⟩

/-- Seven players and every third eliminated: players 3, 6, 2, 7, 5, 1 go and
player 4 wins. -/
theorem seven_players_every_third :
    (playEntireGame 6 (setupPlayers (createGame 3) 7)).map
        (fun result => (result.2.playerNumber, result.1.round,
          result.1.players.map (fun p => p.isActive))) =
      some (4, 7, [0, 0, 0, 1, 0, 0, 0]) ∧
    J 7 3 = 3 ∧
    ((performElimination (setupPlayers (createGame 3) 7)).map
        (fun after => (after.currentPlayer, after.players.map (fun p => p.isActive)))) =
      some (3, [1, 1, 0, 1, 1, 1, 1]) := by
  refine ⟨by decide, by decide, by decide⟩

end Elimination

/-!
# Hash table with chaining: theorems
-/

namespace HashTableChaining

theorem updateChain_none (key value : List Int) (chain : List HashNode) :
    updateChain key value chain = none ↔ searchChain key chain = none := by
  induction chain with
  | nil => simp [updateChain, searchChain]
  | cons current next ih =>
    by_cases h : current.key = key
    · simp [updateChain, searchChain, h]
    · simp [updateChain, searchChain, h, ih]

theorem searchChain_update (key value : List Int) (chain updated : List HashNode)
    (h : updateChain key value chain = some updated) :
    searchChain key updated = some value ∧
      ∀ other, other ≠ key → searchChain other updated = searchChain other chain := by
  induction chain generalizing updated with
  | nil => simp [updateChain] at h
  | cons current next ih =>
    by_cases hk : current.key = key
    · simp only [updateChain, hk, if_true, Option.some.injEq] at h
      subst h
      refine ⟨by simp [searchChain, hk], ?_⟩
      intro other hne
      have hne' : ¬ key = other := fun e => hne e.symm
      simp [searchChain, hk, hne']
    · simp only [updateChain, hk, if_false, Option.map_eq_some'] at h
      obtain ⟨rest, hrest, rfl⟩ := h
      obtain ⟨h1, h2⟩ := ih rest hrest
      refine ⟨by simp [searchChain, hk, h1], ?_⟩
      intro other hne
      simp only [searchChain]
      rw [h2 other hne]

theorem searchChain_append (key value : List Int) (chain : List HashNode)
    (h : searchChain key chain = none) :
    searchChain key (chain ++ [createHashNode key value]) = some value ∧
      ∀ other, other ≠ key →
        searchChain other (chain ++ [createHashNode key value]) =
          searchChain other chain := by
  induction chain with
  | nil =>
    refine ⟨by simp [searchChain, createHashNode], ?_⟩
    intro other hne
    have hne' : ¬ key = other := fun e => hne e.symm
    simp [searchChain, createHashNode, hne']
  | cons current next ih =>
    by_cases hk : current.key = key
    · simp [searchChain, hk] at h
    · simp only [searchChain, hk, if_false] at h
      obtain ⟨h1, h2⟩ := ih h
      refine ⟨by simp [searchChain, hk, h1], ?_⟩
      intro other hne
      rw [List.cons_append, searchChain, searchChain, h2 other hne]

theorem foldl_add_nonneg (key : List Int) (start : Int) (hstart : 0 ≤ start)
    (hkey : ∀ ch ∈ key, 0 ≤ ch) : 0 ≤ key.foldl (fun hash ch => hash + ch) start := by
  induction key generalizing start with
  | nil => exact hstart
  | cons ch rest ih =>
    rw [List.foldl_cons]
    exact ih _ (add_nonneg hstart (hkey ch (List.mem_cons_self _ _)))
      (fun c hc => hkey c (List.mem_cons_of_mem _ hc))

/-- A key without a negative `char` has its index inside the array. -/
theorem bucketOf_hashFunction (key : List Int) (hkey : ∀ ch ∈ key, 0 ≤ ch) :
    ∃ index, bucketOf (hashFunction key) = some index := by
  have hsum := foldl_add_nonneg key 0 le_rfl hkey
  have h0 : 0 ≤ hashFunction key := Int.tmod_nonneg _ hsum
  have h1 : hashFunction key < (TABLE_SIZE : Int) :=
    Int.tmod_lt_of_pos _ (by decide)
  unfold bucketOf
  rw [dif_pos ⟨h0, h1⟩]
  exact ⟨_, rfl⟩

theorem cstring_nonneg (text : String) : ∀ ch ∈ cstring text, 0 ≤ ch := by
  intro ch hch
  unfold cstring at hch
  rw [List.mem_map] at hch
  obtain ⟨c, -, rfl⟩ := hch
  exact Int.ofNat_nonneg _

theorem search_update (hashTable after : HashTable) (key : List Int) (index : Fin TABLE_SIZE)
    (chain : List HashNode)
    (hindex : bucketOf (hashFunction key) = some index)
    (htable : after.table = Function.update hashTable.table index chain) :
    search after key = some (searchChain key chain) ∧
      ∀ other, searchChain other chain = searchChain other (hashTable.table index) →
        search after other = search hashTable other := by
  constructor
  · simp only [search, hindex, htable, Function.update_same]
  · intro other hother
    unfold search
    cases hj : bucketOf (hashFunction other) with
    | none => rfl
    | some j =>
      simp only [htable]
      by_cases hji : j = index
      · rw [hji, Function.update_same, hother]
      · rw [Function.update_noteq hji]

/-- Where the index is inside the array the round trip holds: for every table,
every key without a negative `char` and every value, `insert` has a result;
in it `search` of the key returns the value, also when the key was present, and
then `totalElements` is unchanged (it grows by one when the key was absent);
`search` of every other key returns what it returned before the insert. -/
theorem insert_then_search_inside (hashTable : HashTable) (key value : List Int)
    (hkey : ∀ ch ∈ key, 0 ≤ ch) :
    ∃ after, insert hashTable key value = some after ∧
      search after key = some (some value) ∧
      (search hashTable key ≠ some none → after.totalElements = hashTable.totalElements) ∧
      (search hashTable key = some none →
        after.totalElements = hashTable.totalElements + 1) ∧
      ∀ other : List Int, other ≠ key → search after other = search hashTable other := by
  obtain ⟨index, hindex⟩ := bucketOf_hashFunction key hkey
  have hsearch : search hashTable key = some (searchChain key (hashTable.table index)) := by
    simp only [search, hindex]
  cases hchain : hashTable.table index with
  | nil =>
    have hins : insert hashTable key value = some
        { hashTable with
          table := Function.update hashTable.table index [createHashNode key value]
          totalElements := hashTable.totalElements + 1 } := by
      simp only [insert, hindex, hchain]
    obtain ⟨h1, h2⟩ := search_update hashTable
      { hashTable with
        table := Function.update hashTable.table index [createHashNode key value]
        totalElements := hashTable.totalElements + 1 } key index _ hindex rfl
    obtain ⟨h3, h4⟩ := searchChain_append key value [] rfl
    refine ⟨_, hins, by rw [h1]; exact congrArg some h3, ?_, fun _ => rfl, ?_⟩
    · intro hpresent
      rw [hsearch, hchain] at hpresent
      exact absurd rfl hpresent
    · intro other hne
      exact h2 other (by rw [hchain]; exact h4 other hne)
  | cons first next =>
    cases hupd : updateChain key value (first :: next) with
    | some updated =>
      have hins : insert hashTable key value = some
          { hashTable with table := Function.update hashTable.table index updated } := by
        simp only [insert, hindex, hchain, hupd]
      obtain ⟨h1, h2⟩ := search_update hashTable
        { hashTable with table := Function.update hashTable.table index updated }
        key index _ hindex rfl
      obtain ⟨h3, h4⟩ := searchChain_update key value _ _ hupd
      refine ⟨_, hins, by rw [h1, h3], fun _ => rfl, ?_, ?_⟩
      · intro habsent
        rw [hsearch, hchain] at habsent
        have hnone := (updateChain_none key value (first :: next)).2 (Option.some.inj habsent)
        rw [hupd] at hnone
        cases hnone
      · intro other hne
        exact h2 other (by rw [hchain]; exact h4 other hne)
    | none =>
      have hins : insert hashTable key value = some
          { hashTable with
            table := Function.update hashTable.table index
              ((first :: next) ++ [createHashNode key value])
            collisions := hashTable.collisions + 1
            totalElements := hashTable.totalElements + 1 } := by
        simp only [insert, hindex, hchain, hupd]
      obtain ⟨h1, h2⟩ := search_update hashTable
        { hashTable with
          table := Function.update hashTable.table index
            ((first :: next) ++ [createHashNode key value])
          collisions := hashTable.collisions + 1
          totalElements := hashTable.totalElements + 1 } key index _ hindex rfl
      have habs := (updateChain_none key value (first :: next)).1 hupd
      obtain ⟨h3, h4⟩ := searchChain_append key value (first :: next) habs
      refine ⟨_, hins, by rw [h1, h3], ?_, fun _ => rfl, ?_⟩
      · intro hpresent
        rw [hsearch, hchain, habs] at hpresent
        exact absurd rfl hpresent
      · intro other hne
        exact h2 other (by rw [hchain]; exact h4 other hne)

theorem insert_then_search_inside_witness :
    ∃ after, insert createHashTable (cstring "apple") (cstring "A fruit") = some after ∧
      search after (cstring "apple") = some (some (cstring "A fruit")) := by
  obtain ⟨after, h1, h2, -⟩ := insert_then_search_inside createHashTable (cstring "apple")
    (cstring "A fruit") (cstring_nonneg "apple")
  exact ⟨after, h1, h2⟩

/-- The sample table: `orange` and `kiwi` share bucket 6, the second value of
`apple` replaced the first, and four elements and one collision are counted.
-/
theorem sampleTable_searched :
    hashFunction (cstring "apple") = 0 ∧ hashFunction (cstring "banana") = 9 ∧
      hashFunction (cstring "orange") = 6 ∧ hashFunction (cstring "kiwi") = 6 ∧
      sampleTable.bind (fun t => search t (cstring "apple")) = some (some (cstring "A fruit")) ∧
      sampleTable.bind (fun t => search t (cstring "orange")) =
        some (some (cstring "A citrus fruit")) ∧
      sampleTable.bind (fun t => search t (cstring "kiwi")) =
        some (some (cstring "Brown fuzzy fruit with green inside")) ∧
      sampleTable.bind (fun t => search t (cstring "grape")) = some none ∧
      sampleTable.map (fun t => t.totalElements) = some 4 ∧
      sampleTable.map (fun t => t.collisions) = some 1 := by
  refine ⟨by decide, by decide, by decide, by decide, by decide, by decide, by decide,
    by decide, by decide, by decide⟩

/-- C30, the code at the failing input. The key is the C string of the bytes
C3 A9, the `char` values -61 and -87: their sum is -148, `hashFunction` returns
-8, and `table[-8]` is outside the array, so `insert` of this key and `search`
of it have no result, in the new table and in the sample table; after the
`insert` no table exists in which `search` could return the value. -/
theorem insert_outside_table :
    eAcute = [-61, -87] ∧ hashFunction eAcute = -8 ∧
      bucketOf (hashFunction eAcute) = none ∧
      insert createHashTable eAcute (cstring "a letter") = none ∧
      search createHashTable eAcute = none ∧
      sampleTable.isSome = true ∧
      sampleTable.bind (fun t => insert t eAcute (cstring "a letter")) = none ∧
      sampleTable.bind (fun t => search t eAcute) = none :=
  ⟨by decide, by decide, by decide, rfl, rfl, rfl, rfl, rfl⟩

end HashTableChaining

/-!
# Undo operation system: theorems
-/

namespace UndoOperation

theorem demoEditor_content :
    demoEditor.map (fun e => String.mk e.content) = some "Hello World!" := by
  decide

/-! ## Undo after an operation -/

theorem top_after_push (stack : UndoStack) (type : OperationType) (position : Int)
    (originalText newText deletedText : List Char) (now id : Int) :
    ∃ below count,
      setTopId (pushOperation stack type position originalText newText deletedText now) id =
        { top :=
            { operationId := id
              type := type
              position := position
              originalText := originalText
              newText := newText
              deletedText := deletedText
              timestamp := now } :: below
          operationCount := count
          maxOperations := stack.maxOperations } := by
  by_cases hfull : stack.operationCount ≥ stack.maxOperations
  · refine ⟨stack.top.dropLast, stack.operationCount - 1 + 1, ?_⟩
    simp only [pushOperation, hfull, if_true, setTopId]
  · refine ⟨stack.top, stack.operationCount + 1, ?_⟩
    simp only [pushOperation, hfull, if_false, setTopId]

theorem undoOperation_after_push (editor : TextEditor) (stack : UndoStack)
    (type : OperationType) (position : Int) (originalText newText deletedText : List Char)
    (now id later : Int)
    (h : editor.undoStack =
      setTopId (pushOperation stack type position originalText newText deletedText now) id) :
    ∃ undone, undoOperation editor later = some undone ∧ undone.content = originalText ∧
      undone.cursorPosition = position := by
  obtain ⟨below, count, htop⟩ :=
    top_after_push stack type position originalText newText deletedText now id
  rw [htop] at h
  unfold undoOperation popOperation
  rw [h]
  exact ⟨_, rfl, rfl, rfl⟩

/-- Where the call runs to its end the round trip holds: for every editor
state, after an `insertText`, `deleteText`, `replaceText`, `appendText` or
`clearText` that is neither rejected nor writes beyond a buffer, the next
`undoOperation` succeeds and leaves exactly the content the editor had before
that operation. -/
theorem undo_restores_when_done (editor : TextEditor) (now later : Int) :
    (∀ (position : Int) (text : List Char) (after : TextEditor),
      insertText editor position text now = some after →
      ∃ undone, undoOperation after later = some undone ∧ undone.content = editor.content) ∧
    (∀ (position length : Int) (after : TextEditor),
      deleteText editor position length now = Outcome.done after →
      ∃ undone, undoOperation after later = some undone ∧ undone.content = editor.content) ∧
    (∀ (position length : Int) (newText : List Char) (after : TextEditor),
      replaceText editor position length newText now = Outcome.done after →
      ∃ undone, undoOperation after later = some undone ∧ undone.content = editor.content) ∧
    (∀ (text : List Char) (after : TextEditor),
      appendText editor text now = some after →
      ∃ undone, undoOperation after later = some undone ∧ undone.content = editor.content) ∧
    (∀ after : TextEditor, clearText editor now = some after →
      ∃ undone, undoOperation after later = some undone ∧ undone.content = editor.content) := by
  have hinsert : ∀ (position : Int) (text : List Char) (after : TextEditor),
      insertText editor position text now = some after →
      ∃ undone, undoOperation after later = some undone ∧
        undone.content = editor.content := by
    intro position text after h
    unfold insertText at h
    split at h
    · cases h
    · split at h
      · cases h
      · have hafter := (Option.some.inj h).symm
        obtain ⟨undone, h1, h2, -⟩ := undoOperation_after_push after editor.undoStack
          OperationType.OP_INSERT position editor.content text [] now editor.nextOperationId
          later (by rw [hafter]; rfl)
        exact ⟨undone, h1, h2⟩
  refine ⟨hinsert, ?_, ?_, ?_, ?_⟩
  · intro position length after h
    unfold deleteText at h
    split at h
    · cases h
    · dsimp only at h
      generalize (if addInt position length > (editor.content.length : Int) then
        (editor.content.length : Int) - position else length) = cut at h
      split at h
      · cases h
      · have hafter := (Outcome.done.inj h).symm
        obtain ⟨undone, h1, h2, -⟩ := undoOperation_after_push after editor.undoStack
          OperationType.OP_DELETE position editor.content [] _ now editor.nextOperationId
          later (by rw [hafter]; rfl)
        exact ⟨undone, h1, h2⟩
  · intro position length newText after h
    unfold replaceText at h
    split at h
    · cases h
    · dsimp only at h
      generalize (if addInt position length > (editor.content.length : Int) then
        (editor.content.length : Int) - position else length) = cut at h
      split at h
      · cases h
      · split at h
        · cases h
        · have hafter := (Outcome.done.inj h).symm
          obtain ⟨undone, h1, h2, -⟩ := undoOperation_after_push after editor.undoStack
            OperationType.OP_REPLACE position editor.content newText _ now
            editor.nextOperationId later (by rw [hafter]; rfl)
          exact ⟨undone, h1, h2⟩
  · intro text after h
    exact hinsert _ text after h
  · intro after h
    unfold clearText at h
    split at h
    · cases h
    · have hafter := (Option.some.inj h).symm
      obtain ⟨undone, h1, h2, -⟩ := undoOperation_after_push after editor.undoStack
        OperationType.OP_CLEAR 0 editor.content [] editor.content now editor.nextOperationId
        later (by rw [hafter]; rfl)
      exact ⟨undone, h1, h2⟩

/-- The demonstration of the source stays inside the buffers: the deletion and
the replacement of `demonstrateUndoRedo` run to their end. -/
theorem demo_calls_done :
    demoEditor.map (fun e => (deleteText e 5 6 30).result.map (fun d => String.mk d.content)) =
        some (some "Hello!") ∧
      demoReplaced.map (fun e => String.mk e.content) = some "Hello Universe!" := by
  refine ⟨by decide, by decide⟩

set_option maxRecDepth 1000000 in
/-- C31, the code at the failing input. The editor holds 600 letters and
`replaceText(0, 1, text)` is called with a text of 500 letters, which `main`
reads into `text[MAX_TEXT_SIZE]`. The call passes the checks of `replaceText`
and puts together 1099 characters in `temp[MAX_TEXT_SIZE]`: it writes beyond
the end of the buffer and leaves no editor in which `undoOperation` could
restore the 600 letters, where `insertText` rejects the same text as too long.
In the same way `deleteText(1, INT_MAX)` on the text `Hello World!`: the `int`
sum `1 + INT_MAX` is negative, the length stays `INT_MAX`, and the copy of the
deleted text runs beyond the buffer. -/
theorem replaceText_overflows_buffer :
    longEditor.map (fun e => e.content.length) = some 600 ∧
      longEditor.map (fun e => replaceText e 0 1 (List.replicate 500 'b') 10) =
        some Outcome.undefined ∧
      longEditor.map
          (fun e => (spliceIn (cutOut e.content 0 1) 0 (List.replicate 500 'b')).length) =
        some 1099 ∧
      longEditor.map (fun e => insertText e 0 (List.replicate 500 'b') 10) = some none ∧
      addInt 1 INT_MAX = -2147483648 ∧
      demoEditor.map (fun e => deleteText e 1 INT_MAX 30) = some Outcome.undefined := by
  refine ⟨by decide, by decide, by decide, by decide, by decide, by decide⟩

/-! ## Redo after undo -/

theorem cutOut_taken (content : List Char) (position cut : Int) (hposition : 0 ≤ position)
    (hcut : 0 < cut) :
    cutOut content position (((content.drop position.toNat).take cut.toNat).length : Int) =
      cutOut content position cut := by
  unfold cutOut
  congr 1
  rw [List.length_take, List.length_drop]
  by_cases hle : cut.toNat ≤ content.length - position.toNat
  · rw [Nat.min_eq_left hle]
    congr 1
    omega
  · rw [Nat.min_eq_right (by omega)]
    rw [List.drop_eq_nil_of_le (by omega), List.drop_eq_nil_of_le (by omega)]

theorem undoOperation_redoStack (editor : TextEditor) (stack : UndoStack)
    (type : OperationType) (position : Int) (originalText newText deletedText : List Char)
    (now id later : Int)
    (h : editor.undoStack =
      setTopId (pushOperation stack type position originalText newText deletedText now) id) :
    ∃ undone, undoOperation editor later = some undone ∧ undone.content = originalText ∧
      undone.redoStack =
        setTopId
          (pushReverse editor.redoStack
            { operationId := id
              type := type
              position := position
              originalText := originalText
              newText := newText
              deletedText := deletedText
              timestamp := now } editor.content later) id := by
  obtain ⟨below, count, htop⟩ :=
    top_after_push stack type position originalText newText deletedText now id
  rw [htop] at h
  unfold undoOperation popOperation
  rw [h]
  exact ⟨_, rfl, rfl, rfl⟩

/-- For the types `redoOperation` has a case for, the round trip holds: after a
`insertText`, `deleteText` or `clearText` that runs to its end and
`undoOperation`, `redoOperation` gives the content the operation had produced.
-/
theorem redo_restores_insert_delete_clear (editor : TextEditor) (now later last : Int) :
    (∀ (position : Int) (text : List Char) (after undone : TextEditor),
      insertText editor position text now = some after →
      undoOperation after later = some undone →
      ∃ redone, redoOperation undone last = some redone ∧ redone.content = after.content) ∧
    (∀ (position length : Int) (after undone : TextEditor),
      deleteText editor position length now = Outcome.done after →
      undoOperation after later = some undone →
      ∃ redone, redoOperation undone last = some redone ∧ redone.content = after.content) ∧
    (∀ (after undone : TextEditor),
      clearText editor now = some after →
      undoOperation after later = some undone →
      ∃ redone, redoOperation undone last = some redone ∧ redone.content = after.content) := by
  refine ⟨?_, ?_, ?_⟩
  · intro position text after undone h hundo
    unfold insertText at h
    split at h
    · cases h
    · split at h
      · cases h
      · have hafter := (Option.some.inj h).symm
        obtain ⟨undone', h1, h2, h3⟩ := undoOperation_redoStack after editor.undoStack
          OperationType.OP_INSERT position editor.content text [] now editor.nextOperationId
          later (by rw [hafter]; rfl)
        rw [hundo] at h1
        cases h1
        obtain ⟨below, count, htop⟩ := top_after_push after.redoStack OperationType.OP_INSERT
          position after.content text [] later editor.nextOperationId
        have h3' : undone.redoStack = _ := h3.trans htop
        obtain ⟨redone, hr, hc⟩ : ∃ redone, redoOperation undone last = some redone ∧
            redone.content = spliceIn undone.content position text := by
          simp only [redoOperation, popOperation, h3']
          exact ⟨_, rfl, rfl⟩
        refine ⟨redone, hr, ?_⟩
        rw [hc, h2, hafter]
        rfl
  · intro position length after undone h hundo
    unfold deleteText at h
    split at h
    · cases h
    · rename_i hguard
      dsimp only at h
      generalize hlen : (if addInt position length > (editor.content.length : Int) then
        (editor.content.length : Int) - position else length) = cut at h
      have hcut : 0 < cut := by
        rw [← hlen]
        split <;> omega
      split at h
      · cases h
      · have hafter := (Outcome.done.inj h).symm
        obtain ⟨undone', h1, h2, h3⟩ := undoOperation_redoStack after editor.undoStack
          OperationType.OP_DELETE position editor.content [] _ now editor.nextOperationId
          later (by rw [hafter]; rfl)
        rw [hundo] at h1
        cases h1
        obtain ⟨below, count, htop⟩ := top_after_push after.redoStack OperationType.OP_DELETE
          position after.content []
          ((editor.content.drop position.toNat).take cut.toNat)
          later editor.nextOperationId
        have h3' : undone.redoStack = _ := h3.trans htop
        obtain ⟨redone, hr, hc⟩ : ∃ redone, redoOperation undone last = some redone ∧
            redone.content = cutOut undone.content position
              (((editor.content.drop position.toNat).take cut.toNat).length : Int) := by
          simp only [redoOperation, popOperation, h3']
          exact ⟨_, rfl, rfl⟩
        refine ⟨redone, hr, ?_⟩
        rw [hc, h2, hafter]
        show cutOut editor.content position _ = cutOut editor.content position _
        exact cutOut_taken editor.content position cut (by omega) hcut
  · intro after undone h hundo
    unfold clearText at h
    split at h
    · cases h
    · have hafter := (Option.some.inj h).symm
      obtain ⟨undone', h1, h2, h3⟩ := undoOperation_redoStack after editor.undoStack
        OperationType.OP_CLEAR 0 editor.content [] editor.content now editor.nextOperationId
        later (by rw [hafter]; rfl)
      rw [hundo] at h1
      cases h1
      obtain ⟨below, count, htop⟩ := top_after_push after.redoStack OperationType.OP_CLEAR
        0 after.content [] editor.content later editor.nextOperationId
      have h3' : undone.redoStack = _ := h3.trans htop
      obtain ⟨redone, hr, hc⟩ : ∃ redone, redoOperation undone last = some redone ∧
          redone.content = [] := by
        simp only [redoOperation, popOperation, h3']
        exact ⟨_, rfl, rfl⟩
      refine ⟨redone, hr, ?_⟩
      rw [hc, hafter]
      rfl

/-- C32, the code at the failing input. The text is `Hello World!`;
`replaceText` makes it `Hello Universe!` and `undoOperation` makes it
`Hello World!` again. `redoOperation` then pops the operation from the redo
stack and changes nothing else: the text stays `Hello World!`, the redo stack
is empty and the undo stack has its three insertions only. -/
theorem redo_skips_replace :
    demoReplaced.map (fun e => String.mk e.content) = some "Hello Universe!" ∧
      demoUndone.map (fun e => String.mk e.content) = some "Hello World!" ∧
      demoUndone.map (fun e => e.redoStack.top.map (fun op => op.type)) =
        some [OperationType.OP_REPLACE] ∧
      demoRedone.map (fun e => String.mk e.content) = some "Hello World!" ∧
      demoRedone.map (fun e => String.mk e.content) ≠
        demoReplaced.map (fun e => String.mk e.content) ∧
      demoRedone.map (fun e => e.redoStack.top.length) = some 0 ∧
      demoRedone.map (fun e => e.undoStack.top.map (fun op => op.type)) =
        some [OperationType.OP_INSERT, OperationType.OP_INSERT, OperationType.OP_INSERT] := by
  refine ⟨by decide, by decide, by decide, by decide, by decide, by decide, by decide⟩

end UndoOperation

/-!
# Car identification tree: theorems
-/

namespace CarDatabase

/-! ## The order of `strcmp` -/

theorem compareChars_self (l : List Char) : compareChars l l = 0 := by
  induction l with
  | nil => rfl
  | cons x xs ih => simp [compareChars, ih]

theorem compareChars_eq_zero :
    ∀ a b : List Char, compareChars a b = 0 → a = b
  | [], [], _ => rfl
  | [], _ :: _, h => by simp [compareChars] at h
  | _ :: _, [], h => by simp [compareChars] at h
  | x :: xs, y :: ys, h => by
    unfold compareChars at h
    split at h
    · cases h
    · split at h
      · cases h
      · rename_i h1 h2
        have hxy : x = y := le_antisymm (not_lt.1 h2) (not_lt.1 h1)
        rw [hxy, compareChars_eq_zero xs ys h]

theorem compareChars_swap :
    ∀ a b : List Char, compareChars a b < 0 ↔ compareChars b a > 0
  | [], [] => by simp [compareChars]
  | [], _ :: _ => by simp [compareChars]
  | _ :: _, [] => by simp [compareChars]
  | x :: xs, y :: ys => by
    unfold compareChars
    rcases lt_trichotomy x y with h | h | h
    · simp [h, not_lt.2 (le_of_lt h)]
    · subst h
      simp [compareChars_swap xs ys]
    · simp [h, not_lt.2 (le_of_lt h)]

theorem compareChars_trans :
    ∀ a b c : List Char, compareChars a b < 0 → compareChars b c < 0 → compareChars a c < 0
  | [], [], _, h, _ => by simp [compareChars] at h
  | [], _ :: _, [], _, h => by simp [compareChars] at h
  | [], _ :: _, _ :: _, _, _ => by simp [compareChars]
  | _ :: _, [], _, h, _ => by simp [compareChars] at h
  | _ :: _, _ :: _, [], _, h => by simp [compareChars] at h
  | x :: xs, y :: ys, z :: zs, hab, hbc => by
    unfold compareChars at hab hbc ⊢
    rcases lt_trichotomy x y with hxy | hxy | hxy
    · rcases lt_trichotomy y z with hyz | hyz | hyz
      · simp [lt_trans hxy hyz]
      · subst hyz
        simp [hxy]
      · simp [hyz, not_lt.2 (le_of_lt hyz)] at hbc
    · subst hxy
      rcases lt_trichotomy x z with hyz | hyz | hyz
      · simp [hyz]
      · subst hyz
        simp only [lt_self_iff_false, if_false] at hab hbc ⊢
        exact compareChars_trans xs ys zs hab hbc
      · simp [hyz, not_lt.2 (le_of_lt hyz)] at hbc
    · simp [hxy, not_lt.2 (le_of_lt hxy)] at hab

theorem strcmp_self (a : String) : strcmp a a = 0 :=
  compareChars_self _

theorem strcmp_eq_zero {a b : String} (h : strcmp a b = 0) : a = b :=
  String.ext (compareChars_eq_zero _ _ h)

theorem strcmp_swap (a b : String) : strcmp a b < 0 ↔ strcmp b a > 0 :=
  compareChars_swap _ _

theorem strcmp_trans {a b c : String} (hab : strcmp a b < 0) (hbc : strcmp b c < 0) :
    strcmp a c < 0 :=
  compareChars_trans _ _ _ hab hbc

theorem strcmp_ne {a b : String} (h : strcmp a b < 0) : a ≠ b := by
  intro hab
  rw [hab, strcmp_self] at h
  exact absurd h (by decide)

/-- When neither `strcmp(a, b) < 0` nor `strcmp(a, b) > 0`, the strings are
equal. -/
theorem strcmp_neither {a b : String} (h1 : ¬ strcmp a b < 0) (h2 : ¬ strcmp a b > 0) :
    a = b :=
  strcmp_eq_zero (by omega)

/-! ## C33: the tree is a search tree -/

theorem names_node (car : Car) (left right : CarNode) :
    names (CarNode.node car left right) = names left ++ car.carName :: names right := by
  simp [names, displayAllCars]

theorem mem_names_insertCar (root : CarNode) (name manufacturer type : String) (year : Int)
    (engine : String) (x : String) :
    x ∈ names (insertCar root name manufacturer type year engine) ↔ x = name ∨ x ∈ names root := by
  induction root with
  | null => simp [insertCar, createCarNode, names, displayAllCars]
  | node car left right ihl ihr =>
    unfold insertCar
    split
    · rw [names_node, names_node]
      simp only [List.mem_append, List.mem_cons, ihl]
      rw [or_assoc]
    · split
      · rw [names_node, names_node]
        simp only [List.mem_append, List.mem_cons, ihr]
        constructor
        · rintro (hx | hx | hx | hx)
          · exact Or.inr (Or.inl hx)
          · exact Or.inr (Or.inr (Or.inl hx))
          · exact Or.inl hx
          · exact Or.inr (Or.inr (Or.inr hx))
        · rintro (hx | hx | hx | hx)
          · exact Or.inr (Or.inr (Or.inl hx))
          · exact Or.inl hx
          · exact Or.inr (Or.inl hx)
          · exact Or.inr (Or.inr (Or.inr hx))
      · rename_i h1 h2
        have heq := strcmp_neither h1 h2
        rw [names_node, names_node]
        simp only [List.mem_append, List.mem_cons]
        rw [heq]
        constructor
        · exact Or.inr
        · rintro (hx | hx)
          · exact Or.inr (Or.inl hx)
          · exact hx

theorem isSearchTree_insertCar (root : CarNode) (name manufacturer type : String) (year : Int)
    (engine : String) (h : IsSearchTree root) :
    IsSearchTree (insertCar root name manufacturer type year engine) := by
  induction root with
  | null => simp [insertCar, createCarNode, IsSearchTree, names, displayAllCars]
  | node car left right ihl ihr =>
    obtain ⟨hl, hr, hlt, hgt⟩ := h
    unfold insertCar
    split
    · rename_i hlow
      refine ⟨ihl hl, hr, ?_, hgt⟩
      intro x hx
      rcases (mem_names_insertCar left name manufacturer type year engine x).1 hx with rfl | hx'
      · exact hlow
      · exact hlt x hx'
    · split
      · rename_i hhigh
        refine ⟨hl, ihr hr, hlt, ?_⟩
        intro x hx
        rcases (mem_names_insertCar right name manufacturer type year engine x).1 hx with
          rfl | hx'
        · exact (strcmp_swap _ _).2 hhigh
        · exact hgt x hx'
      · exact ⟨hl, hr, hlt, hgt⟩

theorem searchCar_iff (root : CarNode) (name : String) (h : IsSearchTree root) :
    searchCar root name ≠ CarNode.null ↔ name ∈ names root := by
  induction root with
  | null => simp [searchCar, names, displayAllCars]
  | node car left right ihl ihr =>
    obtain ⟨hl, hr, hlt, hgt⟩ := h
    unfold searchCar
    rw [names_node]
    simp only [List.mem_append, List.mem_cons]
    split
    · rename_i h0
      have := strcmp_eq_zero h0
      simp [this]
    · rename_i h0
      have hne : name ≠ car.carName := by
        intro he
        rw [he, strcmp_self] at h0
        exact h0 rfl
      split
      · rename_i hlow
        rw [ihl hl]
        constructor
        · exact Or.inl
        · rintro (hx | hx | hx)
          · exact hx
          · exact absurd hx hne
          · have := strcmp_trans (hgt name hx) hlow
            rw [strcmp_self] at this
            exact absurd this (by decide)
      · rename_i hlow
        rw [ihr hr]
        constructor
        · exact fun hx => Or.inr (Or.inr hx)
        · rintro (hx | hx | hx)
          · exact absurd (hlt name hx) hlow
          · exact absurd hx hne
          · exact hx

theorem findMin_spec (root : CarNode) (h : IsSearchTree root) (hne : root ≠ CarNode.null) :
    ∃ (temp : Car) (tl tr : CarNode), findMin root = CarNode.node temp tl tr ∧
      temp.carName ∈ names root ∧
      ∀ x ∈ names root, x = temp.carName ∨ strcmp temp.carName x < 0 := by
  induction root with
  | null => exact absurd rfl hne
  | node car left right ihl _ =>
    obtain ⟨hl, -, hlt, hgt⟩ := h
    cases left with
    | null =>
      refine ⟨car, CarNode.null, right, rfl, ?_, ?_⟩
      · rw [names_node]
        simp
      · intro x hx
        rw [names_node] at hx
        simp only [names, displayAllCars, List.map_nil, List.nil_append, List.mem_cons] at hx
        rcases hx with hx | hx
        · exact Or.inl hx
        · exact Or.inr (hgt x hx)
    | node lc ll lr =>
      obtain ⟨temp, tl, tr, h1, h2, h3⟩ := ihl hl (by simp)
      refine ⟨temp, tl, tr, ?_, ?_, ?_⟩
      · show findMin (CarNode.node lc ll lr) = _
        exact h1
      · rw [names_node]
        exact List.mem_append_left _ h2
      · intro x hx
        rw [names_node] at hx
        have hbelow : strcmp temp.carName car.carName < 0 := hlt _ h2
        rcases List.mem_append.1 hx with hx | hx
        · exact h3 x hx
        · rcases List.mem_cons.1 hx with hx | hx
          · rw [hx]
            exact Or.inr hbelow
          · exact Or.inr (strcmp_trans hbelow (hgt x hx))

theorem deleteCar_spec (root : CarNode) (h : IsSearchTree root) :
    ∀ name : String, IsSearchTree (deleteCar root name) ∧
      ∀ x, x ∈ names (deleteCar root name) ↔ x ∈ names root ∧ x ≠ name := by
  induction root with
  | null =>
    intro name
    simp [deleteCar, IsSearchTree, names, displayAllCars]
  | node car left right ihl ihr =>
    intro name
    obtain ⟨hl, hr, hlt, hgt⟩ := h
    have hself : ¬ strcmp car.carName car.carName < 0 := by
      rw [strcmp_self]
      decide
    unfold deleteCar
    split
    · rename_i hlow
      obtain ⟨h1, h2⟩ := ihl hl name
      refine ⟨⟨h1, hr, fun x hx => hlt x ((h2 x).1 hx).1, hgt⟩, ?_⟩
      intro x
      rw [names_node, names_node]
      simp only [List.mem_append, List.mem_cons, h2]
      constructor
      · rintro (⟨hx, hne⟩ | hx | hx)
        · exact ⟨Or.inl hx, hne⟩
        · exact ⟨Or.inr (Or.inl hx), by rw [hx]; exact (strcmp_ne hlow).symm⟩
        · exact ⟨Or.inr (Or.inr hx), (strcmp_ne (strcmp_trans hlow (hgt x hx))).symm⟩
      · rintro ⟨hx | hx | hx, hne⟩
        · exact Or.inl ⟨hx, hne⟩
        · exact Or.inr (Or.inl hx)
        · exact Or.inr (Or.inr hx)
    · split
      · rename_i hhigh
        have hhigh' : strcmp car.carName name < 0 := (strcmp_swap _ _).2 hhigh
        obtain ⟨h1, h2⟩ := ihr hr name
        refine ⟨⟨hl, h1, hlt, fun x hx => hgt x ((h2 x).1 hx).1⟩, ?_⟩
        intro x
        rw [names_node, names_node]
        simp only [List.mem_append, List.mem_cons, h2]
        constructor
        · rintro (hx | hx | ⟨hx, hne⟩)
          · exact ⟨Or.inl hx, strcmp_ne (strcmp_trans (hlt x hx) hhigh')⟩
          · exact ⟨Or.inr (Or.inl hx), by rw [hx]; exact strcmp_ne hhigh'⟩
          · exact ⟨Or.inr (Or.inr hx), hne⟩
        · rintro ⟨hx | hx | hx, hne⟩
          · exact Or.inl hx
          · exact Or.inr (Or.inl hx)
          · exact Or.inr (Or.inr ⟨hx, hne⟩)
      · rename_i h1 h2
        have heq : name = car.carName := strcmp_neither h1 h2
        subst heq
        have hleft_ne : ∀ x ∈ names left, x ≠ car.carName := fun x hx => strcmp_ne (hlt x hx)
        have hright_ne : ∀ x ∈ names right, x ≠ car.carName :=
          fun x hx => (strcmp_ne (hgt x hx)).symm
        cases left with
        | null =>
          cases right <;>
          · refine ⟨hr, ?_⟩
            intro x
            rw [names_node car]
            simp only [names, displayAllCars, List.map_nil, List.nil_append, List.mem_cons]
            constructor
            · exact fun hx => ⟨Or.inr hx, hright_ne x hx⟩
            · rintro ⟨hx | hx, hne⟩
              · exact absurd hx hne
              · exact hx
        | node lc ll lr =>
          cases right with
          | null =>
            refine ⟨hl, ?_⟩
            intro x
            rw [names_node car]
            simp only [names, displayAllCars, List.map_nil, List.mem_append, List.mem_cons,
              List.not_mem_nil, or_false]
            constructor
            · exact fun hx => ⟨Or.inl hx, hleft_ne x hx⟩
            · rintro ⟨hx | hx, hne⟩
              · exact hx
              · exact absurd hx hne
          | node rc rl rr =>
            obtain ⟨temp, tl, tr, hmin, hmem, hleast⟩ :=
              findMin_spec (CarNode.node rc rl rr) hr (by simp)
            obtain ⟨hd1, hd2⟩ := ihr hr temp.carName
            simp only [hmin]
            have habove : strcmp car.carName temp.carName < 0 := hgt _ hmem
            refine ⟨⟨hl, hd1, fun x hx => strcmp_trans (hlt x hx) habove, ?_⟩, ?_⟩
            · intro x hx
              obtain ⟨hx1, hx2⟩ := (hd2 x).1 hx
              rcases hleast x hx1 with h | h
              · exact absurd h hx2
              · exact h
            · intro x
              rw [names_node, names_node car]
              simp only [List.mem_append, List.mem_cons, hd2]
              constructor
              · rintro (hx | hx | ⟨hx, -⟩)
                · exact ⟨Or.inl hx, hleft_ne x hx⟩
                · rw [hx]
                  exact ⟨Or.inr (Or.inr hmem), hright_ne _ hmem⟩
                · exact ⟨Or.inr (Or.inr hx), hright_ne x hx⟩
              · rintro ⟨hx | hx | hx, hne⟩
                · exact Or.inl hx
                · exact absurd hx hne
                · by_cases hxt : x = temp.carName
                  · exact Or.inr (Or.inl hxt)
                  · exact Or.inr (Or.inr ⟨hx, hxt⟩)

theorem isSearchTree_sorted (root : CarNode) (h : IsSearchTree root) :
    (names root).Pairwise (fun a b => strcmp a b < 0) := by
  induction root with
  | null => simp [names, displayAllCars]
  | node car left right ihl ihr =>
    obtain ⟨hl, hr, hlt, hgt⟩ := h
    rw [names_node]
    refine List.pairwise_append.2 ⟨ihl hl, List.pairwise_cons.2 ⟨hgt, ihr hr⟩, ?_⟩
    intro a ha b hb
    rcases List.mem_cons.1 hb with hb | hb
    · rw [hb]
      exact hlt a ha
    · exact strcmp_trans (hlt a ha) (hgt b hb)

theorem serveAll_spec (requests : List Request) :
    IsSearchTree (serveAll requests).root ∧
      ∀ name, name ∈ names (serveAll requests).root ↔ present name requests = true := by
  induction requests using List.reverseRecOn with
  | nil => simp [serveAll, createCarTree, IsSearchTree, names, displayAllCars, present]
  | append_singleton requests request ih =>
    obtain ⟨h1, h2⟩ := ih
    have hrun : serveAll (requests ++ [request]) = serve (serveAll requests) request := by
      simp [serveAll, List.foldl_append]
    rw [hrun]
    cases request with
    | add added manufacturer type year engine =>
      refine ⟨isSearchTree_insertCar _ _ _ _ _ _ h1, ?_⟩
      intro name
      have hp : present name (requests ++ [Request.add added manufacturer type year engine]) =
          if added = name then true else present name requests := by
        simp [present, List.foldl_append]
      rw [hp]
      show name ∈ names (insertCar _ _ _ _ _ _) ↔ _
      rw [mem_names_insertCar, h2]
      by_cases he : added = name
      · simp [he]
      · have he' : ¬ name = added := fun e => he e.symm
        simp [he, he']
    | delete deleted =>
      obtain ⟨hd1, hd2⟩ := deleteCar_spec _ h1 deleted
      refine ⟨hd1, ?_⟩
      intro name
      have hp : present name (requests ++ [Request.delete deleted]) =
          if deleted = name then false else present name requests := by
        simp [present, List.foldl_append]
      rw [hp]
      show name ∈ names (deleteCar _ _) ↔ _
      rw [hd2, h2]
      by_cases he : deleted = name
      · simp [he]
      · have he' : ¬ name = deleted := fun e => he e.symm
        simp [he, he']

/-- C33. After every sequence of `addCar` and `deleteCar` from the empty tree,
the in-order traversal lists the car names in strictly ascending `strcmp`
order, and `searchCar` returns a node for a name exactly when the name was
added and not deleted since. -/
theorem carTree_is_search_tree (requests : List Request) :
    (names (serveAll requests).root).Pairwise (fun a b => strcmp a b < 0) ∧
      ∀ name : String,
        searchCar (serveAll requests).root name ≠ CarNode.null ↔
          present name requests = true := by
  obtain ⟨h1, h2⟩ := serveAll_spec requests
  refine ⟨isSearchTree_sorted _ h1, ?_⟩
  intro name
  rw [searchCar_iff _ _ h1, h2]

/-- The sample requests: the names in in-order, the count, and the searches
for a deleted and for a present name. -/
theorem sample_served :
    names (serveAll sampleRequests).root = ["Camry", "Civic", "Highlander", "Prius", "RAV4"] ∧
      (serveAll sampleRequests).totalCars = 5 ∧
      searchCar (serveAll sampleRequests).root "Corolla" = CarNode.null ∧
      present "Corolla" sampleRequests = false ∧
      (displayAllCars (searchCar (serveAll sampleRequests).root "Camry")).map
        (fun car => (car.carName, car.year)) =
          [("Camry", 2024), ("Civic", 2023), ("Highlander", 2023), ("Prius", 2023),
            ("RAV4", 2023)] := by
  decide

end CarDatabase
